import Mathlib

/-!
# Protected storage of the fhevm: a shallow embedding of `fhevm/instructions.go`,
with the parts of `fhevm/tfhe.go` and `fhevm/interpreter.go` it rests on

Conventions of the embedding.

* A 32-byte word (`common.Hash`, `[32]byte`, `uint256.Int`) is represented by the
  natural number it denotes in big-endian order; the conversions between these Go
  types (`Bytes`, `Bytes32`, `newInt`, `common.Hash(..)`) are the identity on that
  number.  Bytes appear explicitly where the code handles single bytes:
  `common.BytesToHash` of the 32-byte sharding buffer, the slice `bytes[0:toAppend]`
  of a loaded word, and the input of Keccak-256.
* Machine integers are natural numbers with an explicit `% 2 ^ 64` or `% 2 ^ 256`
  where Go wraps around.
* `EVMEnvironment` is passed explicitly: the world state is a function from
  address and key to word, `SetState` is a pointwise update.  Logging is not state
  and is left out.
* Code that is outside the repository (Keccak-256, `CreateAddress`, the TFHE C
  library) and the global size table filled from that library are the fields of
  `Ext`, over which every definition is parametric.
* A Go run-time panic is a result of its own: `Outcome.panicked`, or `none` for the
  opcode handlers.
* The `execute...Operation` functions of tfhe.go return, next to their result, the
  list of the calls they made into the TFHE library (`NativeCall`), in order.  An
  operation of the library is given by what the Go code observes of its result
  (`NativeResult`).
-/

set_option maxRecDepth 100000

namespace Fhevm

/-- A byte. -/
abbrev Byte := Fin 256

/-- An account address, as a number. -/
abbrev Address := Nat

/-- Go: `type FheUintType uint8` (tfhe.go). -/
abbrev FheUintType := Fin 256

/-- The world state behind `GetState` / `SetState`: account, key, 32-byte word. -/
abbrev StateDB := Address → Nat → Nat

/-- Big-endian value of a byte string (`uint256.SetBytes` on at most 32 bytes). -/
def fromBytesBE (bs : List Byte) : Nat :=
  bs.foldl (fun acc b => acc * 256 + b.val) 0

/-- Go: `common.BytesToHash(b)`: when `b` is longer than 32 bytes it is cropped from
the left; the bytes are right-aligned in the word. -/
def BytesToHash (b : List Byte) : Nat :=
  fromBytesBE (b.drop (b.length - 32))

/-- The `n` low-order bytes of `v`, most significant first. -/
def toBytesBE : Nat → Nat → List Byte
  | 0, _ => []
  | n + 1, v => toBytesBE n (v / 256) ++ [Fin.ofNat (v % 256)]

/-- Go: `h.Bytes()` / `h[:]` of a `common.Hash`: its 32 bytes. -/
def hashBytes (h : Nat) : List Byte :=
  toBytesBE 32 h

/-- What the code uses from outside the repository. -/
structure Ext where
  /-- Go: `crypto.Keccak256Hash` (go-ethereum). -/
  keccak256 : List Byte → Nat
  /-- Go: `evm.CreateAddress(b, nonce)` (go-ethereum). -/
  createAddress : Address → Nat → Address
  /-- Go: the global `expandedFheCiphertextSize`, filled by `initCiphertextSizes` from
  the TFHE library; a key that is absent (or the nil map) reads as 0. -/
  expandedFheCiphertextSize : FheUintType → Nat
  /-- Whether the TFHE library's deserializer of the given width returns a non-nil
  pointer for the given bytes. -/
  deserializeAccepts : FheUintType → List Byte → Bool

/-- Go: `crypto.Keccak256Hash(h.Bytes())`, a 32-byte word. -/
def Keccak256Hash (X : Ext) (h : Nat) : Nat :=
  X.keccak256 (hashBytes h) % 2 ^ 256

/-- Go: `ps.CreateProtectedStorageContractAddress` (crypto/crypto.go). -/
def CreateProtectedStorageContractAddress (X : Ext) (b : Address) : Address :=
  X.createAddress b 0

/-- Go: `tfheCiphertext` (tfhe.go); the cached `hash` field is
`Keccak256(serialization)` and is not stored. -/
structure tfheCiphertext where
  serialization : List Byte
  fheUintType : FheUintType

/-- Go: `tfheCiphertext.serialize`. -/
def tfheCiphertext.serialize (ct : tfheCiphertext) : List Byte :=
  ct.serialization

/-- Go: `depthSet.has` (interpreter.go), the set being the list of its members. -/
def depthSet.has (s : List Int) (v : Int) : Bool :=
  s.contains v

/-- Go: `verifiedCiphertext` (interpreter.go). -/
structure verifiedCiphertext where
  verifiedDepths : List Int
  ciphertext : tfheCiphertext

/-- Go: the `EVMEnvironment` interface, as the data its methods read and write. -/
structure EVMEnvironment where
  /-- `GetState` / `SetState`. -/
  state : StateDB
  /-- `GetDepth`. -/
  depth : Int
  /-- `IsCommitting`. -/
  isCommitting : Bool
  /-- `IsReadOnly`. -/
  isReadOnly : Bool
  /-- `GetFhevmData().verifiedCiphertexts`. -/
  verifiedCiphertexts : Nat → Option verifiedCiphertext

/-- Go: `env.GetState(addr, key)`. -/
def EVMEnvironment.GetState (env : EVMEnvironment) (addr : Address) (key : Nat) : Nat :=
  env.state addr key

/-- Pointwise update of the world state. -/
def setState (st : StateDB) (addr : Address) (key : Nat) (val : Nat) : StateDB :=
  fun a k => if a = addr ∧ k = key then val else st a k

/-- Go: `env.SetState(addr, key, val)`. -/
def EVMEnvironment.SetState (env : EVMEnvironment) (addr : Address) (key : Nat)
    (val : Nat) : EVMEnvironment :=
  { env with state := setState env.state addr key val }

/-- Go: `var zero = uint256.NewInt(0).Bytes32()`. -/
def zero : Nat := 0

/-- Go: `ciphertextMetadata`; `refCount` and `length` are `uint64`. -/
structure ciphertextMetadata where
  refCount : Nat
  length : Nat
  fheUintType : FheUintType
deriving DecidableEq

/-- Go: `ciphertextMetadata.serialize`: limbs 0, 1, 2 of a `uint256.Int`. -/
def ciphertextMetadata.serialize (m : ciphertextMetadata) : Nat :=
  m.refCount % 2 ^ 64 + (m.length % 2 ^ 64) * 2 ^ 64 + m.fheUintType.val * 2 ^ 128

/-- Go: `ciphertextMetadata.deserialize` on a fresh record, that is
`newCiphertextMetadata(buf)`: limbs 0, 1, 2 of the word, limb 2 cut to `uint8`. -/
def newCiphertextMetadata (buf : Nat) : ciphertextMetadata :=
  { refCount := buf % 2 ^ 64
    length := buf / 2 ^ 64 % 2 ^ 64
    fheUintType := Fin.ofNat (buf / 2 ^ 128 % 2 ^ 64) }

/-- Go: `minUint64`. -/
def minUint64 (a b : Nat) : Nat :=
  if a < b then a else b

/-- Go: `slot.AddUint64(slot, 1)` on a `uint256.Int`. -/
def addUint64One (slot : Nat) : Nat :=
  (slot + 1) % 2 ^ 256

/-- Go: `var flag = common.HexToHash("0xa145ffde0100...fab3")`. -/
def flag : Nat :=
  0xa145ffde0100a145ffde0100a145ffde0100a145ffde0100a145ffde0100fab3

/-- The loop `for i := uint64(0); i < slotsToZero; i++` of
`garbageCollectProtectedStorage`, by the number of iterations left. -/
def zeroCiphertextSlots (P : Address) : Nat → Nat → EVMEnvironment → EVMEnvironment
  | 0, _, env => env
  | n + 1, slot, env =>
    zeroCiphertextSlots P n (addUint64One slot) (env.SetState P slot zero)

/-- Go: `garbageCollectProtectedStorage`. -/
def garbageCollectProtectedStorage (X : Ext) (flagHandleLocation : Nat) (handle : Nat)
    (protectedStorage : Address) (env : EVMEnvironment) : EVMEnvironment :=
  let metadataKey := Keccak256Hash X handle
  let existingMetadataHash := env.GetState protectedStorage metadataKey
  let existingMetadataInt := existingMetadataHash
  if existingMetadataInt ≠ 0 then
    let foundFlag := env.GetState protectedStorage flagHandleLocation
    if foundFlag ≠ flag then
      env
    else
      let env1 := env.SetState protectedStorage flagHandleLocation zero
      let metadata := newCiphertextMetadata existingMetadataInt
      if metadata.refCount = 1 then
        let env2 := env1.SetState protectedStorage metadataKey zero
        let slot := addUint64One metadataKey
        let slotsToZero :=
          if metadata.length > 0 ∧ metadata.length < 32 then metadata.length / 32 + 1
          else metadata.length / 32
        zeroCiphertextSlots protectedStorage slotsToZero slot env2
      else if metadata.refCount > 1 then
        let metadata1 := { metadata with refCount := metadata.refCount - 1 }
        env1.SetState protectedStorage existingMetadataHash metadata1.serialize
      else
        env1
  else
    env

/-- Go: `isVerifiedAtCurrentDepth`. -/
def isVerifiedAtCurrentDepth (environment : EVMEnvironment) (ct : verifiedCiphertext) : Bool :=
  depthSet.has ct.verifiedDepths environment.depth

/-- Go: `getVerifiedCiphertextFromEVM`; `none` is the nil pointer. -/
def getVerifiedCiphertextFromEVM (environment : EVMEnvironment) (ciphertextHash : Nat) :
    Option verifiedCiphertext :=
  match environment.verifiedCiphertexts ciphertextHash with
  | some ct => if isVerifiedAtCurrentDepth environment ct then some ct else none
  | none => none

/-- The state of the sharding loop of `persistIfVerifiedCiphertext`. -/
structure ShardState where
  ctPart32 : List Byte
  partIdx : Nat
  ciphertextSlot : Nat
  env : EVMEnvironment

/-- Go: `make([]byte, 32)`. -/
def make32 : List Byte := List.replicate 32 0

/-- The loop `for i, b := range ctBytes` of `persistIfVerifiedCiphertext`; `i` is the
index of the head of the remaining bytes. -/
def shardLoop (P : Address) : List Byte → Nat → ShardState → ShardState
  | [], _, s => s
  | b :: rest, i, s =>
    let s1 : ShardState :=
      if i % 32 = 0 ∧ i ≠ 0 then
        { ctPart32 := make32
          partIdx := 0
          ciphertextSlot := addUint64One s.ciphertextSlot
          env := s.env.SetState P s.ciphertextSlot (BytesToHash s.ctPart32) }
      else s
    shardLoop P rest (i + 1)
      { s1 with ctPart32 := s1.ctPart32.set s1.partIdx b, partIdx := s1.partIdx + 1 }

/-- Go: `persistIfVerifiedCiphertext`. -/
def persistIfVerifiedCiphertext (X : Ext) (flagHandleLocation : Nat) (handle : Nat)
    (protectedStorage : Address) (env : EVMEnvironment) : EVMEnvironment :=
  match getVerifiedCiphertextFromEVM env handle with
  | none => env
  | some verified =>
    let metadataKey := Keccak256Hash X handle
    let metadataInt := env.GetState protectedStorage metadataKey
    let env1 := env.SetState protectedStorage flagHandleLocation flag
    if metadataInt = 0 then
      let metadata : ciphertextMetadata :=
        { refCount := 1
          length := X.expandedFheCiphertextSize verified.ciphertext.fheUintType % 2 ^ 64
          fheUintType := verified.ciphertext.fheUintType }
      let ciphertextSlot := addUint64One metadataKey
      let ctBytes := verified.ciphertext.serialize
      let s := shardLoop protectedStorage ctBytes 0
        { ctPart32 := make32, partIdx := 0, ciphertextSlot := ciphertextSlot, env := env1 }
      let env2 :=
        if s.ctPart32.length ≠ 0 then
          s.env.SetState protectedStorage s.ciphertextSlot (BytesToHash s.ctPart32)
        else s.env
      env2.SetState protectedStorage metadataKey metadata.serialize
    else
      let metadata := newCiphertextMetadata (env1.GetState protectedStorage metadataKey)
      let metadata1 := { metadata with refCount := (metadata.refCount + 1) % 2 ^ 64 }
      env1.SetState protectedStorage metadataKey metadata1.serialize

/-- Go: the error values the handlers return: `ErrWriteProtection`,
`ErrExecutionReverted`, or an error made with `errors.New`. -/
inductive VMError where
  | ErrWriteProtection
  | ErrExecutionReverted
  | errorsNew (msg : String)
deriving DecidableEq

/-- What an opcode handler leaves behind: the error it returned (if any), the
environment and the stack (top first). -/
structure OpResult where
  err : Option VMError
  env : EVMEnvironment
  stack : List Nat

/-- Go: `OpSstore`, for the contract at `contract` and the given stack (top first).
`none` stands for the run-time panic of `Pop` on a stack with too few words. -/
def OpSstore (X : Ext) (env : EVMEnvironment) (contract : Address) (stack : List Nat) :
    Option OpResult :=
  if env.isReadOnly then
    some { err := some VMError.ErrWriteProtection, env := env, stack := stack }
  else
    match stack with
    | loc :: newVal :: rest =>
      let locHash := loc
      let newValHash := newVal
      let oldValHash := env.GetState contract loc
      let env1 :=
        if newValHash ≠ oldValHash ∧ env.isCommitting then
          let protectedStorage := CreateProtectedStorageContractAddress X contract
          let flagHandleLocation := Keccak256Hash X (Keccak256Hash X locHash)
          let envGc :=
            garbageCollectProtectedStorage X flagHandleLocation oldValHash protectedStorage env
          persistIfVerifiedCiphertext X flagHandleLocation newValHash protectedStorage envGc
        else env
      some { err := none, env := env1.SetState contract loc newValHash, stack := rest }
    | _ => none

/-- Go: `computeHash` / `getHash` (tfhe.go): Keccak-256 of the serialization. -/
def tfheCiphertext.getHash (X : Ext) (ct : tfheCiphertext) : Nat :=
  X.keccak256 ct.serialization % 2 ^ 256

/-- The loop `for { if left == 0 { break }; ... }` of `verifyIfCiphertextHandle`.  The
first argument bounds the number of iterations; every iteration with `left > 0`
takes at least one byte off `left`, so `left` iterations always suffice. -/
def readLoop (env : EVMEnvironment) (P : Address) :
    Nat → Nat → Nat → List Byte → List Byte
  | 0, _, _, ctBytes => ctBytes
  | fuel + 1, left, protectedSlotIdx, ctBytes =>
    if left = 0 then ctBytes
    else
      let bytes := hashBytes (env.GetState P protectedSlotIdx)
      let toAppend := minUint64 bytes.length left
      readLoop env P fuel (left - toAppend) (addUint64One protectedSlotIdx)
        (ctBytes ++ bytes.take toAppend)

/-- The bytes `verifyIfCiphertextHandle` reassembles from protected storage and hands
to the deserializer (instructions.go 154-167): `metadata.length` bytes read from
the slots after `metadataKey`. -/
def loadCiphertextBytes (env : EVMEnvironment) (protectedStorage : Address)
    (metadataKey : Nat) (metadata : ciphertextMetadata) : List Byte :=
  readLoop env protectedStorage metadata.length metadata.length
    (addUint64One metadataKey) []

/-- What a call that can fail leaves behind: its result, a returned Go error, or a
run-time panic. -/
inductive Outcome (α : Type) where
  | ok (a : α)
  | error (msg : String)
  | panicked

/-- Go: `tfheCiphertext.deserialize` (tfhe.go).  `toDynamicBufferView` takes `&in[0]`,
a run-time panic on an empty slice; a type other than 0..3 reaches
`panic("deserialize: unexpected ciphertext type")`; a nil pointer from the TFHE
library is returned as an error. -/
def tfheCiphertext.deserialize (X : Ext) (inp : List Byte) (t : FheUintType) :
    Outcome tfheCiphertext :=
  if t.val ≤ 3 then
    if inp = [] then Outcome.panicked
    else if X.deserializeAccepts t inp then
      Outcome.ok { serialization := inp, fheUintType := t }
    else Outcome.error "ciphertext deserialization failed"
  else Outcome.panicked

/-- Modelled from the spec: `importCiphertextToEVM` is called by
`verifyIfCiphertextHandle` and is not among the sources.  The spec (4.2): `import`
"inserts a ciphertext ..., stamping depthSet = {env.depth}", and for a ciphertext
"already present in the table, simply adds current depth to its depthSet".  The table
is keyed by the content hash. -/
def importCiphertextToEVM (X : Ext) (env : EVMEnvironment) (ct : tfheCiphertext) :
    EVMEnvironment :=
  let h := ct.getHash X
  let entry : verifiedCiphertext :=
    match env.verifiedCiphertexts h with
    | some existing =>
      { existing with verifiedDepths := env.depth :: existing.verifiedDepths }
    | none => { verifiedDepths := [env.depth], ciphertext := ct }
  { env with
    verifiedCiphertexts := fun k => if k = h then some entry else env.verifiedCiphertexts k }

/-- Go: `verifyIfCiphertextHandle`; on an error the environment is as before. -/
def verifyIfCiphertextHandle (X : Ext) (handle : Nat) (env : EVMEnvironment)
    (contractAddress : Address) : Outcome EVMEnvironment :=
  match env.verifiedCiphertexts handle with
  | some ct => Outcome.ok (importCiphertextToEVM X env ct.ciphertext)
  | none =>
    let metadataKey := Keccak256Hash X handle
    let protectedStorage := CreateProtectedStorageContractAddress X contractAddress
    let metadataInt := env.GetState protectedStorage metadataKey
    if metadataInt ≠ 0 then
      let metadata := newCiphertextMetadata metadataInt
      let ctBytes := loadCiphertextBytes env protectedStorage metadataKey metadata
      match tfheCiphertext.deserialize X ctBytes metadata.fheUintType with
      | Outcome.ok ct => Outcome.ok (importCiphertextToEVM X env ct)
      | Outcome.error _ => Outcome.error "opSload failed to deserialize a ciphertext"
      | Outcome.panicked => Outcome.panicked
    else Outcome.ok env

/-- Go: `OpSload`, for the contract at `contract` and the given stack (top first).
`none` stands for a run-time panic (`Peek` on an empty stack, or a panic of the
deserializer). -/
def OpSload (X : Ext) (env : EVMEnvironment) (contract : Address) (stack : List Nat) :
    Option OpResult :=
  match stack with
  | loc :: rest =>
    let val := env.GetState contract loc
    match verifyIfCiphertextHandle X val env contract with
    | Outcome.ok env1 => some { err := none, env := env1, stack := val :: rest }
    | Outcome.error msg =>
      some { err := some (VMError.errorsNew msg), env := env, stack := stack }
    | Outcome.panicked => none
  | [] => none

/-! ## Vocabulary of the statements -/

/-- A byte string of at most 32 bytes, right-padded with zero bytes to 32. -/
def pad32 (l : List Byte) : List Byte :=
  l ++ List.replicate (32 - l.length) 0

/-- The list of 32-byte slabs of `l`: `n + 1` of them. -/
def slabsFrom : Nat → List Byte → List (List Byte)
  | 0, l => [pad32 l]
  | n + 1, l => pad32 (l.take 32) :: slabsFrom n (l.drop 32)

/-- The number of ciphertext slots `persistIfVerifiedCiphertext` writes for `L`
bytes: `⌈L / 32⌉`, and one (all zero) slot for `L = 0`. -/
def slabCount (L : Nat) : Nat :=
  (L - 1) / 32 + 1

/-- The slabs of a byte string. -/
def slabs (l : List Byte) : List (List Byte) :=
  slabsFrom ((l.length - 1) / 32) l

/-- Writing words to consecutive slots, starting at `slot`. -/
def writeSlabs (P : Address) : List (List Byte) → Nat → EVMEnvironment → EVMEnvironment
  | [], _, env => env
  | c :: cs, slot, env =>
    writeSlabs P cs (addUint64One slot) (env.SetState P slot (BytesToHash c))

/-- The environment an SSTORE of `newVal` at `loc` leaves behind (the environment
itself when the handler panics). -/
def execSstore (X : Ext) (contract : Address) (env : EVMEnvironment) (loc newVal : Nat) :
    EVMEnvironment :=
  match OpSstore X env contract [loc, newVal] with
  | some r => r.env
  | none => env

/-- Two environments that differ at most in the world state. -/
def sameContext (env env1 : EVMEnvironment) : Prop :=
  env1.depth = env.depth ∧ env1.isCommitting = env.isCommitting ∧
    env1.isReadOnly = env.isReadOnly ∧ env1.verifiedCiphertexts = env.verifiedCiphertexts

/-! ## Concrete inputs

The inputs below are used to run the code: a stand-in for the external functions
(the byte-string hash `bs ↦ value(bs) * 1000 + 500` in place of Keccak-256), a
33-byte ciphertext of type 2 with handle 7, verified at depth 1, the contract at
address 10 and its protected storage at address 21. -/

/-- Stand-in for the external functions; every ciphertext type has size 33. -/
def demoExt : Ext :=
  { keccak256 := fun bs => fromBytesBE bs * 1000 + 500
    createAddress := fun b n => b * 2 + n + 1
    expandedFheCiphertextSize := fun _ => 33
    deserializeAccepts := fun _ _ => true }

/-- The same, with the size table never filled (the keys were not loaded, so
`initCiphertextSizes` has not run and the nil map reads as 0). -/
def demoExtNoSizes : Ext :=
  { demoExt with expandedFheCiphertextSize := fun _ => 0 }

/-- A 33-byte serialization: 32 bytes `7`, then one byte `9`. -/
def demoBytes : List Byte := List.replicate 32 7 ++ [9]

/-- The ciphertext with serialization `demoBytes` and type 2, verified at depth 1. -/
def demoVerified : verifiedCiphertext :=
  { verifiedDepths := [1], ciphertext := { serialization := demoBytes, fheUintType := 2 } }

/-- All storage zero, depth 1, committing, not read-only, handle 7 verified. -/
def demoEnv : EVMEnvironment :=
  { state := fun _ _ => 0
    depth := 1
    isCommitting := true
    isReadOnly := false
    verifiedCiphertexts := fun h => if h = 7 then some demoVerified else none }

/-- The word of the metadata record `{refCount, length 33, type 2}`. -/
def demoMetadataWord (refCount : Nat) : Nat :=
  ciphertextMetadata.serialize { refCount := refCount, length := 33, fheUintType := 2 }

/-- `demoEnv` with the metadata slot of handle 7 (key 7500 of the protected storage
21) holding a record with the given reference count. -/
def demoEnvWithMetadata (refCount : Nat) : EVMEnvironment :=
  { demoEnv with
    state := fun a k => if a = 21 ∧ k = 7500 then demoMetadataWord refCount else 0 }

/-- `demoEnv` after SSTORE of handle 7 to location 1 of contract 10. -/
def demoStored1 : EVMEnvironment :=
  execSstore demoExt 10 demoEnv 1 7

/-- Then SSTORE of handle 7 to location 2: two flagged slots hold the handle. -/
def demoStored12 : EVMEnvironment :=
  execSstore demoExt 10 demoStored1 2 7

/-- Then SSTORE of 0 to location 1: one flagged slot still holds the handle. -/
def demoStored2 : EVMEnvironment :=
  execSstore demoExt 10 demoStored12 1 0

/-- `demoStored1`, then SSTORE of 0 to location 1: the last reference is overwritten. -/
def demoCollected : EVMEnvironment :=
  execSstore demoExt 10 demoStored1 1 0

/-- `demoStored1` in a later transaction: the table of verified ciphertexts is empty. -/
def demoLater : EVMEnvironment :=
  { demoStored1 with verifiedCiphertexts := fun _ => none }

/-- Stand-in for the external functions whose deserializer rejects every input. -/
def demoExtRejecting : Ext :=
  { demoExt with deserializeAccepts := fun _ _ => false }

/-- The environment that a successful `verifyIfCiphertextHandle` of handle 7 leaves
behind in `demoLater`. -/
def demoLoaded : EVMEnvironment :=
  match verifyIfCiphertextHandle demoExt 7 demoLater 10 with
  | Outcome.ok e => e
  | _ => demoLater

/-- The content hash (under `demoExt`) of the 33-byte demo ciphertext. -/
def demoHandle : Nat :=
  demoVerified.ciphertext.getHash demoExt

/-- `demoEnv` with the table keyed by content hash: `demoHandle` is verified at depth
1. -/
def demoEnvKeyed : EVMEnvironment :=
  { demoEnv with
    verifiedCiphertexts := fun h => if h = demoHandle then some demoVerified else none }

/-- After SSTORE of `demoHandle` to location 1 of contract 10, in a later transaction:
the table of verified ciphertexts is empty. -/
def demoKeyedLater : EVMEnvironment :=
  { execSstore demoExt 10 demoEnvKeyed 1 demoHandle with verifiedCiphertexts := fun _ => none }

/-- The environment that `verifyIfCiphertextHandle` of `demoHandle` leaves behind in
`demoKeyedLater`. -/
def demoKeyedLoaded : EVMEnvironment :=
  match verifyIfCiphertextHandle demoExt demoHandle demoKeyedLater 10 with
  | Outcome.ok e => e
  | _ => demoKeyedLater

/-- One committing, non-read-only SSTORE of a transaction: the call depth and the table
of verified ciphertexts at the time of the call, and the two operands. -/
structure SstoreCall where
  depth : Int
  verifiedCiphertexts : Nat → Option verifiedCiphertext
  loc : Nat
  newVal : Nat

/-- The environment of the call on the world state `st`. -/
def SstoreCall.env (c : SstoreCall) (st : StateDB) : EVMEnvironment :=
  { state := st
    depth := c.depth
    isCommitting := true
    isReadOnly := false
    verifiedCiphertexts := c.verifiedCiphertexts }

/-- The world state after the call. -/
def sstoreStep (X : Ext) (contract : Address) (st : StateDB) (c : SstoreCall) : StateDB :=
  (execSstore X contract (c.env st) c.loc c.newVal).state

/-- The world state after a sequence of calls. -/
def runSstores (X : Ext) (contract : Address) : StateDB → List SstoreCall → StateDB
  | st, [] => st
  | st, c :: cs => runSstores X contract (sstoreStep X contract st c) cs

/-- The call `c` on the state `st` keeps clear of the metadata slot of `handle`: if the
stored value is a verified ciphertext, none of the ciphertext slots written for it is
`Keccak256(handle)`, and if its metadata slot is `Keccak256(handle)` the reference
count found there (after garbage collection of the old value) is not `2 ^ 64 - 1`, so
that the increment does not wrap around. -/
def stepAvoids (X : Ext) (contract : Address) (handle : Nat) (st : StateDB)
    (c : SstoreCall) : Prop :=
  ∀ v, getVerifiedCiphertextFromEVM (c.env st) c.newVal = some v →
    (∀ k, k < slabCount v.ciphertext.serialization.length →
      Keccak256Hash X handle ≠ (Keccak256Hash X c.newVal + 1 + k) % 2 ^ 256) ∧
    (Keccak256Hash X c.newVal = Keccak256Hash X handle →
      (newCiphertextMetadata
        ((garbageCollectProtectedStorage X (Keccak256Hash X (Keccak256Hash X c.loc))
          ((c.env st).GetState contract c.loc)
          (CreateProtectedStorageContractAddress X contract) (c.env st)).GetState
          (CreateProtectedStorageContractAddress X contract)
          (Keccak256Hash X handle))).refCount ≠ 2 ^ 64 - 1)

/-- Every call of the sequence keeps clear of the metadata slot of `handle`. -/
def runAvoids (X : Ext) (contract : Address) (handle : Nat) :
    StateDB → List SstoreCall → Prop
  | _, [] => True
  | st, c :: cs =>
    stepAvoids X contract handle st c ∧
      runAvoids X contract handle (sstoreStep X contract st c) cs

/-- A word that is zero or has a non-zero low limb (`refCount`). -/
def goodWord (w : Nat) : Prop :=
  w ≠ 0 → w % 2 ^ 64 ≠ 0

/-- SSTORE of the verified handle 7 at depth 1. -/
def demoCall (loc newVal : Nat) : SstoreCall :=
  { depth := 1
    verifiedCiphertexts := fun h => if h = 7 then some demoVerified else none
    loc := loc
    newVal := newVal }

/-- Go: `FheUint8 FheUintType = 0` (tfhe.go). -/
def FheUint8 : FheUintType := 0

/-- Go: `FheUint16 FheUintType = 1`. -/
def FheUint16 : FheUintType := 1

/-- Go: `FheUint32 FheUintType = 2`. -/
def FheUint32 : FheUintType := 2

/-- Go: `FheUint64 FheUintType = 3`. -/
def FheUint64 : FheUintType := 3

/-- Go: `isValidType` (tfhe.go), on a `byte`. -/
def isValidType (t : Byte) : Bool :=
  if t.val < FheUint8.val ∨ t.val > FheUint64.val then false else true

/-- `demoEnv` in a later transaction (empty table), the metadata slot of handle 7
holding the record `{refCount 1, length 0, type}`: a present ciphertext of length 0. -/
def demoEnvEmptyCiphertext (t : FheUintType) : EVMEnvironment :=
  { demoEnv with
    state := fun a k =>
      if a = 21 ∧ k = 7500 then
        ciphertextMetadata.serialize { refCount := 1, length := 0, fheUintType := t }
      else 0
    verifiedCiphertexts := fun _ => none }

/-- Go: `EvalRemOptReqWhenStopToken` (interpreter.go).  The function it calls,
`evaluateRemainingOptimisticRequires`, is a parameter: any function from the
environment to its two results, the boolean and the error (`none` is nil), and the
environment it leaves behind. -/
def EvalRemOptReqWhenStopToken
    (evaluateRemainingOptimisticRequires :
      EVMEnvironment → (Bool × Option VMError) × EVMEnvironment)
    (env : EVMEnvironment) : Option VMError × EVMEnvironment :=
  let err : Option VMError := none
  if env.depth = 1 then
    let ((result, evalErr), env1) := evaluateRemainingOptimisticRequires env
    match evalErr with
    | some e => (some e, env1)
    | none => if !result then (some VMError.ErrExecutionReverted, env1) else (err, env1)
  else (err, env)

/-- The outcome with `f` applied to the result. -/
def Outcome.map {α β : Type} (f : α → β) : Outcome α → Outcome β
  | Outcome.ok a => Outcome.ok (f a)
  | Outcome.error msg => Outcome.error msg
  | Outcome.panicked => Outcome.panicked

/-- Contract 10 holds at location 5 the value `Keccak256(5)` (5500 under `demoExt`);
everything else is zero and the table of verified ciphertexts is empty.  The flag slot
of location 5, `Keccak256(Keccak256(5))`, is then the metadata slot of the value. -/
def demoSelfKeyed : EVMEnvironment :=
  { demoEnv with
    state := fun a k => if a = 10 ∧ k = 5 then Keccak256Hash demoExt 5 else 0
    verifiedCiphertexts := fun _ => none }

/-- `demoSelfKeyed` with another value in the flag slot of location 5. -/
def demoSelfKeyedFlagged : EVMEnvironment :=
  demoSelfKeyed.SetState 21 (Keccak256Hash demoExt (Keccak256Hash demoExt 5))
    (demoMetadataWord 1)

/-- An evaluation of the optimistic requires that leaves the environment alone. -/
def demoEvaluate (result : Bool) (evalErr : Option VMError) :
    EVMEnvironment → (Bool × Option VMError) × EVMEnvironment :=
  fun env => ((result, evalErr), env)

/-- The native pointers that the `execute...Operation` functions of tfhe.go hold, named
by the Go variable. -/
inductive NativePtr where
  | ct_ptr
  | lhs_ptr
  | rhs_ptr
  | first_ptr
  | res_ptr
deriving DecidableEq

/-- A call into the TFHE library made by the `execute...Operation` functions; the
width of the C function called is given by the type constant. -/
inductive NativeCall where
  /-- `ptr := C.deserialize_fhe_uintN(...)`; `nonNil` tells whether a pointer came
  back. -/
  | deserialize (width : FheUintType) (ptr : NativePtr) (nonNil : Bool)
  /-- `res_ptr := opN(...)`; `nonNil` tells whether a pointer came back. -/
  | op (width : FheUintType) (nonNil : Bool)
  /-- `C.serialize_fhe_uintN(ptr, res_ser)`. -/
  | serialize (width : FheUintType) (ptr : NativePtr)
  /-- `C.destroy_fhe_uintN(ptr)`. -/
  | destroy (width : FheUintType) (ptr : NativePtr)
  /-- `C.destroy_dynamic_buffer(res_ser)`. -/
  | destroy_dynamic_buffer
deriving DecidableEq

/-- What an operation of the library hands back, as far as the Go code looks at it:
a nil pointer (`none`), or a result pointer, given by what `C.serialize_fhe_uintN`
makes of it: a non-zero return code (`none`) or the bytes written to the buffer.  The
operands of an operation are given by the bytes they were deserialized from. -/
abbrev NativeResult := Option (Option (List Byte))

/-- The steps common to every `case` of the four functions once the operand pointers
are there and the operation has been called (`called` are the library calls so far,
`operands` the `destroy` calls on the operand pointers that follow the operation): the
nil check of `res_ptr`, its serialization and release, the check of the return code,
`C.GoBytes` and the release of the buffer. -/
def finishCase (width resType : FheUintType) (res : NativeResult)
    (called operands : List NativeCall) (msgOp msgSer : String) :
    Outcome tfheCiphertext × List NativeCall :=
  match res with
  | none => (Outcome.error msgOp, called ++ [NativeCall.op width false] ++ operands)
  | some ret =>
    let calls := called ++ [NativeCall.op width true] ++ operands ++
      [NativeCall.serialize width NativePtr.res_ptr, NativeCall.destroy width NativePtr.res_ptr]
    match ret with
    | none => (Outcome.error msgSer, calls)
    | some bytes =>
      (Outcome.ok { serialization := bytes, fheUintType := resType },
        calls ++ [NativeCall.destroy_dynamic_buffer])

/-- One `case` of the switch of `executeUnaryCiphertextOperation`, for the width
`width` and its operation `opN`.  The result comes with the library calls made.
`toDynamicBufferView` panics on an empty serialization. -/
def unaryCase (X : Ext) (width : FheUintType) (opN : List Byte → NativeResult)
    (msgDeser msgOp msgSer : String) (ct : tfheCiphertext) :
    Outcome tfheCiphertext × List NativeCall :=
  if ct.serialization = [] then (Outcome.panicked, [])
  else if X.deserializeAccepts width ct.serialization = false then
    (Outcome.error msgDeser, [NativeCall.deserialize width NativePtr.ct_ptr false])
  else
    finishCase width ct.fheUintType (opN ct.serialization)
      [NativeCall.deserialize width NativePtr.ct_ptr true]
      [NativeCall.destroy width NativePtr.ct_ptr] msgOp msgSer

/-- Go: `executeUnaryCiphertextOperation` (tfhe.go), with the library calls it makes.
The parameter `rhs` of the source is never read and is left out. -/
def executeUnaryCiphertextOperation (X : Ext) (ct : tfheCiphertext)
    (op8 op16 op32 op64 : List Byte → NativeResult) :
    Outcome tfheCiphertext × List NativeCall :=
  if ct.fheUintType = FheUint8 then
    unaryCase X FheUint8 op8 "8 bit unary op deserialization failed"
      "8 bit unary op failed" "8 bit unary op serialization failed" ct
  else if ct.fheUintType = FheUint16 then
    unaryCase X FheUint16 op16 "16 bit unary op deserialization failed"
      "16 bit op failed" "16 bit unary op serialization failed" ct
  else if ct.fheUintType = FheUint32 then
    unaryCase X FheUint32 op32 "32 bit unary op deserialization failed"
      "32 bit op failed" "32 bit unary op serialization failed" ct
  else if ct.fheUintType = FheUint64 then
    unaryCase X FheUint64 op64 "64 bit unary op deserialization failed"
      "64 bit op failed" "64 bit unary op serialization failed" ct
  else (Outcome.panicked, [])

/-- One `case` of the switch of `executeBinaryCiphertextOperation`. -/
def binaryCase (X : Ext) (width : FheUintType) (opN : List Byte → List Byte → NativeResult)
    (msgDeser msgOp msgSer : String) (lhs rhs : tfheCiphertext) :
    Outcome tfheCiphertext × List NativeCall :=
  if lhs.serialization = [] then (Outcome.panicked, [])
  else if X.deserializeAccepts width lhs.serialization = false then
    (Outcome.error msgDeser, [NativeCall.deserialize width NativePtr.lhs_ptr false])
  else if rhs.serialization = [] then
    (Outcome.panicked, [NativeCall.deserialize width NativePtr.lhs_ptr true])
  else if X.deserializeAccepts width rhs.serialization = false then
    (Outcome.error msgDeser,
      [NativeCall.deserialize width NativePtr.lhs_ptr true,
       NativeCall.deserialize width NativePtr.rhs_ptr false,
       NativeCall.destroy width NativePtr.lhs_ptr])
  else
    finishCase width lhs.fheUintType (opN lhs.serialization rhs.serialization)
      [NativeCall.deserialize width NativePtr.lhs_ptr true,
       NativeCall.deserialize width NativePtr.rhs_ptr true]
      [NativeCall.destroy width NativePtr.lhs_ptr, NativeCall.destroy width NativePtr.rhs_ptr]
      msgOp msgSer

/-- Go: `executeBinaryCiphertextOperation` (tfhe.go), with the library calls it makes. -/
def executeBinaryCiphertextOperation (X : Ext) (lhs rhs : tfheCiphertext)
    (op8 op16 op32 op64 : List Byte → List Byte → NativeResult) :
    Outcome tfheCiphertext × List NativeCall :=
  if lhs.fheUintType ≠ rhs.fheUintType then
    (Outcome.error "binary operations are only well-defined for identical types", [])
  else if lhs.fheUintType = FheUint8 then
    binaryCase X FheUint8 op8 "8 bit binary op deserialization failed"
      "8 bit binary op failed" "8 bit binary op serialization failed" lhs rhs
  else if lhs.fheUintType = FheUint16 then
    binaryCase X FheUint16 op16 "16 bit binary op deserialization failed"
      "16 bit binary op failed" "16 bit binary op serialization failed" lhs rhs
  else if lhs.fheUintType = FheUint32 then
    binaryCase X FheUint32 op32 "32 bit binary op deserialization failed"
      "32 bit binary op failed" "32 bit binary op serialization failed" lhs rhs
  else if lhs.fheUintType = FheUint64 then
    binaryCase X FheUint64 op64 "64 bit binary op deserialization failed"
      "64 bit binary op failed" "64 bit binary op serialization failed" lhs rhs
  else (Outcome.panicked, [])

/-- One `case` of the switch of `executeTernaryCiphertextOperation`.  In every case
`first` is deserialized by `C.deserialize_fhe_uint8`, and when that gives nil
`lhs_ptr` and `rhs_ptr` are released by `C.destroy_fhe_uint8`; no call releases
`first_ptr`. -/
def ternaryCase (X : Ext) (width : FheUintType)
    (opN : List Byte → List Byte → List Byte → NativeResult)
    (msgDeser msgOp msgSer : String) (first lhs rhs : tfheCiphertext) :
    Outcome tfheCiphertext × List NativeCall :=
  if lhs.serialization = [] then (Outcome.panicked, [])
  else if X.deserializeAccepts width lhs.serialization = false then
    (Outcome.error msgDeser, [NativeCall.deserialize width NativePtr.lhs_ptr false])
  else if rhs.serialization = [] then
    (Outcome.panicked, [NativeCall.deserialize width NativePtr.lhs_ptr true])
  else if X.deserializeAccepts width rhs.serialization = false then
    (Outcome.error msgDeser,
      [NativeCall.deserialize width NativePtr.lhs_ptr true,
       NativeCall.deserialize width NativePtr.rhs_ptr false,
       NativeCall.destroy width NativePtr.lhs_ptr])
  else if first.serialization = [] then
    (Outcome.panicked,
      [NativeCall.deserialize width NativePtr.lhs_ptr true,
       NativeCall.deserialize width NativePtr.rhs_ptr true])
  else if X.deserializeAccepts FheUint8 first.serialization = false then
    (Outcome.error "8 bit binary op deserialization failed",
      [NativeCall.deserialize width NativePtr.lhs_ptr true,
       NativeCall.deserialize width NativePtr.rhs_ptr true,
       NativeCall.deserialize FheUint8 NativePtr.first_ptr false,
       NativeCall.destroy FheUint8 NativePtr.lhs_ptr,
       NativeCall.destroy FheUint8 NativePtr.rhs_ptr])
  else
    finishCase width lhs.fheUintType
      (opN first.serialization lhs.serialization rhs.serialization)
      [NativeCall.deserialize width NativePtr.lhs_ptr true,
       NativeCall.deserialize width NativePtr.rhs_ptr true,
       NativeCall.deserialize FheUint8 NativePtr.first_ptr true]
      [NativeCall.destroy width NativePtr.lhs_ptr, NativeCall.destroy width NativePtr.rhs_ptr]
      msgOp msgSer

/-- Go: `executeTernaryCiphertextOperation` (tfhe.go), with the library calls it
makes.  The error messages say "binary" in the source. -/
def executeTernaryCiphertextOperation (X : Ext) (first lhs rhs : tfheCiphertext)
    (op8 op16 op32 op64 : List Byte → List Byte → List Byte → NativeResult) :
    Outcome tfheCiphertext × List NativeCall :=
  if lhs.fheUintType ≠ rhs.fheUintType then
    (Outcome.error "ternary operations are only well-defined for identical types", [])
  else if lhs.fheUintType = FheUint8 then
    ternaryCase X FheUint8 op8 "8 bit binary op deserialization failed"
      "8 bit binary op failed" "8 bit binary op serialization failed" first lhs rhs
  else if lhs.fheUintType = FheUint16 then
    ternaryCase X FheUint16 op16 "16 bit binary op deserialization failed"
      "16 bit binary op failed" "16 bit binary op serialization failed" first lhs rhs
  else if lhs.fheUintType = FheUint32 then
    ternaryCase X FheUint32 op32 "32 bit binary op deserialization failed"
      "32 bit binary op failed" "32 bit binary op serialization failed" first lhs rhs
  else if lhs.fheUintType = FheUint64 then
    ternaryCase X FheUint64 op64 "64 bit binary op deserialization failed"
      "64 bit binary op failed" "64 bit binary op serialization failed" first lhs rhs
  else (Outcome.panicked, [])

/-- One `case` of the switch of `executeBinaryScalarOperation`; `bits` is the width of
the C integer type the scalar is converted to. -/
def scalarCase (X : Ext) (width : FheUintType) (bits : Nat) (opN : List Byte → Nat → NativeResult)
    (msgDeser msgOp msgSer : String) (lhs : tfheCiphertext) (rhs : Nat) :
    Outcome tfheCiphertext × List NativeCall :=
  if lhs.serialization = [] then (Outcome.panicked, [])
  else if X.deserializeAccepts width lhs.serialization = false then
    (Outcome.error msgDeser, [NativeCall.deserialize width NativePtr.lhs_ptr false])
  else
    let scalar := rhs % 2 ^ bits
    finishCase width lhs.fheUintType (opN lhs.serialization scalar)
      [NativeCall.deserialize width NativePtr.lhs_ptr true]
      [NativeCall.destroy width NativePtr.lhs_ptr] msgOp msgSer

/-- Go: `executeBinaryScalarOperation` (tfhe.go), with the library calls it makes;
`rhs` is a `uint64`. -/
def executeBinaryScalarOperation (X : Ext) (lhs : tfheCiphertext) (rhs : Nat)
    (op8 op16 op32 op64 : List Byte → Nat → NativeResult) :
    Outcome tfheCiphertext × List NativeCall :=
  if lhs.fheUintType = FheUint8 then
    scalarCase X FheUint8 8 op8 "8 bit scalar op deserialization failed"
      "8 bit scalar op failed" "8 bit scalar op serialization failed" lhs rhs
  else if lhs.fheUintType = FheUint16 then
    scalarCase X FheUint16 16 op16 "16 bit scalar op deserialization failed"
      "16 bit scalar op failed" "16 bit scalar op serialization failed" lhs rhs
  else if lhs.fheUintType = FheUint32 then
    scalarCase X FheUint32 32 op32 "32 bit scalar op deserialization failed"
      "32 bit scalar op failed" "32 bit scalar op serialization failed" lhs rhs
  else if lhs.fheUintType = FheUint64 then
    scalarCase X FheUint64 64 op64 "64 bit scalar op deserialization failed"
      "64 bit scalar op failed" "64 bit scalar op serialization failed" lhs rhs
  else (Outcome.panicked, [])

/-- The pointers that the library handed out in a sequence of calls, each with the
width it was made at. -/
def obtained : List NativeCall → List (FheUintType × NativePtr)
  | [] => []
  | NativeCall.deserialize width ptr true :: calls => (width, ptr) :: obtained calls
  | NativeCall.op width true :: calls => (width, NativePtr.res_ptr) :: obtained calls
  | _ :: calls => obtained calls

/-- The widths of the `destroy` calls made on a pointer, in order. -/
def destroyedAt (ptr : NativePtr) : List NativeCall → List FheUintType
  | [] => []
  | NativeCall.destroy width q :: calls =>
    if q = ptr then width :: destroyedAt ptr calls else destroyedAt ptr calls
  | _ :: calls => destroyedAt ptr calls

/-- Every pointer handed out is destroyed exactly once, by the destroy function of
its own width. -/
def releasedOnce (calls : List NativeCall) : Prop :=
  ∀ p ∈ obtained calls, destroyedAt p.2 calls = [p.1]

/-- An operation of the library that succeeds and whose result serializes to the
demo bytes. -/
def demoResult : NativeResult := some (some demoBytes)

/-- The 33-byte demo ciphertext at the given type. -/
def demoCiphertext (t : FheUintType) : tfheCiphertext :=
  { serialization := demoBytes, fheUintType := t }

/-- Flags and reference counts agree, on the locations `L` and the handles `H`; `prot`
and `reg` are the slots of the protected storage and of the contract.  Where the flag
slot of a location holds `FLAG` the location holds a handle of `H`; and the locations
that hold one handle with `FLAG` in their flag slot are at most as many as the
reference count in its metadata slot says. -/
def coherent (X : Ext) (L H : Nat → Prop) (prot reg : Nat → Nat) : Prop :=
  (∀ loc, L loc → prot (Keccak256Hash X (Keccak256Hash X loc)) = flag → H (reg loc)) ∧
  (∀ h, H h → ∀ l : List Nat, l.Nodup →
    (∀ loc ∈ l, L loc ∧ prot (Keccak256Hash X (Keccak256Hash X loc)) = flag ∧ reg loc = h) →
    l.length ≤ (newCiphertextMetadata (prot (Keccak256Hash X h))).refCount)

/-- The call `c` on the state `st` is free of slot clashes, for the locations `L` and
the handles `H`: its location is in `L`; when it garbage-collects (the flag slot of
its location holds `FLAG`), neither the old metadata word, used as a key, nor a
ciphertext slot of the old value is the metadata slot of a handle; when its new value
is a verified ciphertext, that value is in `H`, its reference count is not
`2 ^ 64 - 1`, and none of the ciphertext slots written for it is the flag slot of a
location or the metadata slot of a handle. -/
def stepClear (X : Ext) (contract : Address) (L H : Nat → Prop) (st : StateDB)
    (c : SstoreCall) : Prop :=
  L c.loc ∧
  (st (CreateProtectedStorageContractAddress X contract)
      (Keccak256Hash X (Keccak256Hash X c.loc)) = flag →
    ∀ h, H h →
      Keccak256Hash X h ≠ st (CreateProtectedStorageContractAddress X contract)
        (Keccak256Hash X (st contract c.loc)) ∧
      ∀ i, i < ((newCiphertextMetadata (st (CreateProtectedStorageContractAddress X contract)
          (Keccak256Hash X (st contract c.loc)))).length + 31) / 32 →
        Keccak256Hash X h ≠ (Keccak256Hash X (st contract c.loc) + 1 + i) % 2 ^ 256) ∧
  (∀ v, getVerifiedCiphertextFromEVM (c.env st) c.newVal = some v →
    H c.newVal ∧
    (newCiphertextMetadata (st (CreateProtectedStorageContractAddress X contract)
      (Keccak256Hash X c.newVal))).refCount ≠ 2 ^ 64 - 1 ∧
    ∀ i, i < slabCount v.ciphertext.serialization.length →
      (∀ loc, L loc →
        Keccak256Hash X (Keccak256Hash X loc) ≠ (Keccak256Hash X c.newVal + 1 + i) % 2 ^ 256) ∧
      (∀ h, H h → Keccak256Hash X h ≠ (Keccak256Hash X c.newVal + 1 + i) % 2 ^ 256))

/-- Every call of the sequence is free of slot clashes. -/
def runClear (X : Ext) (contract : Address) (L H : Nat → Prop) :
    StateDB → List SstoreCall → Prop
  | _, [] => True
  | st, c :: cs =>
    stepClear X contract L H st c ∧ runClear X contract L H (sstoreStep X contract st c) cs

/-- Three committing SSTOREs at depth 1 with handle 7 verified: handle 7 to location
1, handle 7 to location 2, then 0 to location 1. -/
def demoRun : List SstoreCall := [demoCall 1 7, demoCall 2 7, demoCall 1 0]

/-- The world state with every slot zero. -/
def demoZeroState : StateDB := fun _ _ => 0

/-! ## Lemmas -/

@[simp] theorem setState_same (st : StateDB) (a : Address) (k v : Nat) :
    setState st a k v a k = v := by
  simp [setState]

theorem setState_other (st : StateDB) (a a' : Address) (k k' v : Nat)
    (h : a' ≠ a ∨ k' ≠ k) : setState st a k v a' k' = st a' k' := by
  unfold setState
  rw [if_neg]
  rintro ⟨h1, h2⟩
  rcases h with h | h
  · exact h h1
  · exact h h2

@[simp] theorem SetState_state (env : EVMEnvironment) (a : Address) (k v : Nat) :
    (env.SetState a k v).state = setState env.state a k v := rfl

@[simp] theorem SetState_GetState_same (env : EVMEnvironment) (a : Address) (k v : Nat) :
    (env.SetState a k v).GetState a k = v := by
  simp [EVMEnvironment.GetState]

theorem SetState_GetState_other (env : EVMEnvironment) (a a' : Address) (k k' v : Nat)
    (h : a' ≠ a ∨ k' ≠ k) : (env.SetState a k v).GetState a' k' = env.GetState a' k' := by
  simp [EVMEnvironment.GetState, setState_other _ _ _ _ _ _ h]

@[simp] theorem SetState_verified (env : EVMEnvironment) (a : Address) (k v : Nat) :
    (env.SetState a k v).verifiedCiphertexts = env.verifiedCiphertexts := rfl

@[simp] theorem SetState_depth (env : EVMEnvironment) (a : Address) (k v : Nat) :
    (env.SetState a k v).depth = env.depth := rfl

/-! ### Bytes and words -/

theorem fromBytesBE_append_singleton (l : List Byte) (b : Byte) :
    fromBytesBE (l ++ [b]) = fromBytesBE l * 256 + b.val := by
  simp [fromBytesBE, List.foldl_append]

theorem toBytesBE_length (n v : Nat) : (toBytesBE n v).length = n := by
  induction n generalizing v with
  | zero => simp [toBytesBE]
  | succ n ih => simp [toBytesBE, ih]

theorem toBytesBE_fromBytesBE (l : List Byte) : toBytesBE l.length (fromBytesBE l) = l := by
  induction l using List.reverseRecOn with
  | nil => simp [toBytesBE]
  | append_singleton l b ih =>
    rw [List.length_append, List.length_singleton, fromBytesBE_append_singleton, toBytesBE]
    have h1 : (fromBytesBE l * 256 + b.val) / 256 = fromBytesBE l := by omega
    have h2 : (fromBytesBE l * 256 + b.val) % 256 = b.val := by omega
    rw [h1, h2, ih]
    congr 2
    ext
    simp [Fin.ofNat]

theorem hashBytes_length (h : Nat) : (hashBytes h).length = 32 :=
  toBytesBE_length 32 h

theorem hashBytes_BytesToHash (l : List Byte) (hl : l.length = 32) :
    hashBytes (BytesToHash l) = l := by
  have h := toBytesBE_fromBytesBE l
  rw [hl] at h
  simpa [hashBytes, BytesToHash, hl] using h

/-! ### Metadata words -/

theorem newCiphertextMetadata_serialize (m : ciphertextMetadata) :
    newCiphertextMetadata m.serialize =
      { refCount := m.refCount % 2 ^ 64, length := m.length % 2 ^ 64,
        fheUintType := m.fheUintType } := by
  obtain ⟨r, l, t⟩ := m
  have ht := t.isLt
  simp only [newCiphertextMetadata, ciphertextMetadata.serialize]
  congr 1
  · omega
  · omega
  · ext
    simp only [Fin.ofNat]
    omega

/-! ### The sharding loop -/

theorem pad32_length (l : List Byte) (h : l.length ≤ 32) : (pad32 l).length = 32 := by
  simp [pad32]
  omega

theorem pad32_nil : pad32 [] = make32 := rfl

theorem pad32_set (cur : List Byte) (b : Byte) (h : cur.length < 32) :
    (pad32 cur).set cur.length b = pad32 (cur ++ [b]) := by
  unfold pad32
  rw [List.set_append_right _ _ (le_refl _)]
  simp only [Nat.sub_self, List.length_append, List.length_singleton, List.append_assoc]
  congr 1
  obtain ⟨m, hm⟩ : ∃ m, 32 - cur.length = m + 1 := ⟨31 - cur.length, by omega⟩
  rw [hm, List.replicate_succ, List.set_cons_zero]
  have : 32 - (cur.length + 1) = m := by omega
  rw [this]
  rfl

theorem slabs_short (cur : List Byte) (h : cur.length ≤ 32) : slabs cur = [pad32 cur] := by
  have : (cur.length - 1) / 32 = 0 := by omega
  simp [slabs, this, slabsFrom]

theorem slabs_long (cur rest : List Byte) (h : cur.length = 32) (hr : rest ≠ []) :
    slabs (cur ++ rest) = pad32 cur :: slabs rest := by
  have hr1 : 0 < rest.length := List.length_pos.mpr hr
  have : (cur.length + rest.length - 1) / 32 = (rest.length - 1) / 32 + 1 := by omega
  simp only [slabs, List.length_append, this, slabsFrom]
  rw [List.take_left' h, List.drop_left' h]

/-- What the final `if len(ctPart32) != 0 { SetState ... }` leaves behind. -/
theorem shardLoop_spec (P : Address) (rest : List Byte) :
    ∀ (i : Nat) (s : ShardState) (cur : List Byte),
      cur.length ≤ 32 → i % 32 = cur.length % 32 → (i = 0 ↔ cur.length = 0) →
      s.ctPart32 = pad32 cur → s.partIdx = cur.length →
      let s1 := shardLoop P rest i s
      (if s1.ctPart32.length ≠ 0 then
          s1.env.SetState P s1.ciphertextSlot (BytesToHash s1.ctPart32)
        else s1.env) =
        writeSlabs P (slabs (cur ++ rest)) s.ciphertextSlot s.env := by
  induction rest with
  | nil =>
    intro i s cur hle _ _ hbuf _
    simp only [shardLoop, List.append_nil]
    rw [slabs_short cur hle, hbuf, pad32_length cur hle]
    simp [writeSlabs]
  | cons b rest ih =>
    intro i s cur hle hmod hz hbuf hidx
    by_cases hc : i % 32 = 0 ∧ i ≠ 0
    · have hlen : cur.length = 32 := by omega
      simp only [shardLoop, if_pos hc]
      have h := ih (i + 1)
        { ctPart32 := make32.set 0 b, partIdx := 0 + 1,
          ciphertextSlot := addUint64One s.ciphertextSlot,
          env := s.env.SetState P s.ciphertextSlot (BytesToHash s.ctPart32) }
        [b] (by simp) (by simp; omega) (by simp) (by
          rw [← pad32_nil]
          exact pad32_set [] b (by simp)) (by simp)
      simp only at h
      rw [h, slabs_long cur (b :: rest) hlen (by simp), hbuf]
      simp [writeSlabs]
    · have hlen : cur.length < 32 := by omega
      simp only [shardLoop, if_neg hc]
      have h := ih (i + 1)
        { s with ctPart32 := s.ctPart32.set s.partIdx b, partIdx := s.partIdx + 1 }
        (cur ++ [b]) (by simp; omega) (by simp; omega) (by simp) (by
          simp only
          rw [hbuf, hidx]
          exact pad32_set cur b hlen) (by simp [hidx])
      simp only at h
      rw [h]
      simp

theorem addUint64One_lt (slot : Nat) : addUint64One slot < 2 ^ 256 :=
  Nat.mod_lt _ (by norm_num)

theorem Keccak256Hash_lt (X : Ext) (h : Nat) : Keccak256Hash X h < 2 ^ 256 :=
  Nat.mod_lt _ (by norm_num)

theorem writeSlabs_GetState_other (P : Address) (cs : List (List Byte)) :
    ∀ (slot : Nat) (env : EVMEnvironment) (a : Address) (key : Nat), slot < 2 ^ 256 →
      (a ≠ P ∨ ∀ j, j < cs.length → key ≠ (slot + j) % 2 ^ 256) →
      (writeSlabs P cs slot env).GetState a key = env.GetState a key := by
  induction cs with
  | nil => intro slot env a key _ _; rfl
  | cons c cs ih =>
    intro slot env a key hs h
    simp only [writeSlabs]
    rw [ih (addUint64One slot) _ a key (addUint64One_lt slot)]
    · apply SetState_GetState_other
      rcases h with h | h
      · exact Or.inl h
      · right
        have := h 0 (by simp)
        rw [Nat.add_zero, Nat.mod_eq_of_lt hs] at this
        exact this
    · rcases h with h | h
      · exact Or.inl h
      · right
        intro j hj
        have := h (j + 1) (by simp; omega)
        unfold addUint64One
        omega

theorem writeSlabs_GetState (P : Address) (cs : List (List Byte)) :
    ∀ (slot : Nat) (env : EVMEnvironment) (k : Nat) (c : List Byte), slot < 2 ^ 256 →
      cs.length ≤ 2 ^ 256 → cs[k]? = some c →
      (writeSlabs P cs slot env).GetState P ((slot + k) % 2 ^ 256) = BytesToHash c := by
  induction cs with
  | nil => intro slot env k c _ _ h; simp at h
  | cons c0 cs ih =>
    intro slot env k c hs hlen h
    simp only [writeSlabs]
    simp only [List.length_cons] at hlen
    cases k with
    | zero =>
      simp only [List.getElem?_cons_zero, Option.some.injEq] at h
      rw [Nat.add_zero, Nat.mod_eq_of_lt hs,
        writeSlabs_GetState_other P cs _ _ P slot (addUint64One_lt slot), h]
      · simp
      · right
        intro j hj
        unfold addUint64One
        omega
    | succ k =>
      simp only [List.getElem?_cons_succ] at h
      have := ih (addUint64One slot) (env.SetState P slot (BytesToHash c0)) k c
        (addUint64One_lt slot) (by omega) h
      have hkey : (addUint64One slot + k) % 2 ^ 256 = (slot + (k + 1)) % 2 ^ 256 := by
        unfold addUint64One
        omega
      rw [hkey] at this
      exact this

theorem slabsFrom_length (n : Nat) : ∀ l : List Byte, (slabsFrom n l).length = n + 1 := by
  induction n with
  | zero => intro l; rfl
  | succ n ih => intro l; simp [slabsFrom, ih]

theorem slabs_length (l : List Byte) : (slabs l).length = slabCount l.length :=
  slabsFrom_length _ l

theorem slabsFrom_getElem? (n : Nat) :
    ∀ (l : List Byte) (k : Nat), k ≤ n → l.length ≤ 32 * (n + 1) →
      (slabsFrom n l)[k]? = some (pad32 ((l.drop (32 * k)).take 32)) := by
  induction n with
  | zero =>
    intro l k hk hl
    have hk0 : k = 0 := by omega
    subst hk0
    simp only [slabsFrom, List.getElem?_cons_zero, Nat.mul_zero, List.drop_zero]
    rw [List.take_of_length_le (by omega)]
  | succ n ih =>
    intro l k hk hl
    cases k with
    | zero => simp [slabsFrom]
    | succ k =>
      simp only [slabsFrom, List.getElem?_cons_succ]
      rw [ih (l.drop 32) k (by omega) (by simp; omega), List.drop_drop]
      have : 32 * k + 32 = 32 * (k + 1) := by ring
      rw [Nat.add_comm, this]

theorem slabs_getElem? (l : List Byte) (k : Nat) (hk : k < slabCount l.length) :
    (slabs l)[k]? = some (pad32 ((l.drop (32 * k)).take 32)) := by
  unfold slabCount at hk
  exact slabsFrom_getElem? _ l k (by omega) (by omega)

/-! ### `persistIfVerifiedCiphertext`, case by case -/

theorem persist_unverified (X : Ext) (flagLoc handle : Nat) (P : Address)
    (env : EVMEnvironment) (hv : getVerifiedCiphertextFromEVM env handle = none) :
    persistIfVerifiedCiphertext X flagLoc handle P env = env := by
  simp [persistIfVerifiedCiphertext, hv]

theorem persist_new (X : Ext) (flagLoc handle : Nat) (P : Address) (env : EVMEnvironment)
    (v : verifiedCiphertext) (hv : getVerifiedCiphertextFromEVM env handle = some v)
    (hz : env.GetState P (Keccak256Hash X handle) = 0) :
    persistIfVerifiedCiphertext X flagLoc handle P env =
      (writeSlabs P (slabs v.ciphertext.serialization) (addUint64One (Keccak256Hash X handle))
        (env.SetState P flagLoc flag)).SetState P (Keccak256Hash X handle)
        (ciphertextMetadata.serialize
          { refCount := 1
            length := X.expandedFheCiphertextSize v.ciphertext.fheUintType % 2 ^ 64
            fheUintType := v.ciphertext.fheUintType }) := by
  simp only [persistIfVerifiedCiphertext, hv, hz, if_true]
  have h := shardLoop_spec P v.ciphertext.serialize 0
    { ctPart32 := make32, partIdx := 0,
      ciphertextSlot := addUint64One (Keccak256Hash X handle),
      env := env.SetState P flagLoc flag } [] (by simp) (by simp) (by simp) pad32_nil.symm
    (by simp)
  simp only [List.nil_append] at h
  rw [h]
  rfl

theorem persist_existing (X : Ext) (flagLoc handle : Nat) (P : Address)
    (env : EVMEnvironment) (v : verifiedCiphertext)
    (hv : getVerifiedCiphertextFromEVM env handle = some v)
    (hnz : env.GetState P (Keccak256Hash X handle) ≠ 0) :
    persistIfVerifiedCiphertext X flagLoc handle P env =
      (env.SetState P flagLoc flag).SetState P (Keccak256Hash X handle)
        (ciphertextMetadata.serialize
          { newCiphertextMetadata
              ((env.SetState P flagLoc flag).GetState P (Keccak256Hash X handle)) with
            refCount :=
              ((newCiphertextMetadata
                ((env.SetState P flagLoc flag).GetState P (Keccak256Hash X handle))).refCount
                + 1) % 2 ^ 64 }) := by
  simp only [persistIfVerifiedCiphertext, hv, hnz, if_false]

/-! ### The loading loop -/

theorem minUint64_eq_min (a b : Nat) : minUint64 a b = min a b := by
  unfold minUint64
  split <;> omega

theorem readLoop_slabs (env : EVMEnvironment) (P : Address) (b : List Byte) (slot0 : Nat)
    (hslots : ∀ k, k < slabCount b.length →
      env.GetState P ((slot0 + k) % 2 ^ 256) = BytesToHash (pad32 ((b.drop (32 * k)).take 32))) :
    ∀ (fuel j : Nat) (acc : List Byte), b.length - 32 * j ≤ fuel →
      readLoop env P fuel (b.length - 32 * j) ((slot0 + j) % 2 ^ 256) acc =
        acc ++ b.drop (32 * j) := by
  intro fuel
  induction fuel with
  | zero =>
    intro j acc hf
    have : b.drop (32 * j) = [] := List.drop_eq_nil_of_le (by omega)
    simp [readLoop, this]
  | succ fuel ih =>
    intro j acc hf
    by_cases hleft : b.length - 32 * j = 0
    · have : b.drop (32 * j) = [] := List.drop_eq_nil_of_le (by omega)
      simp [readLoop, hleft, this]
    · have hj : j < slabCount b.length := by
        unfold slabCount
        omega
      have hchunk : ((b.drop (32 * j)).take 32).length = min 32 (b.length - 32 * j) := by
        simp
      simp only [readLoop, if_neg hleft, hslots j hj]
      rw [hashBytes_BytesToHash _ (pad32_length _ (by rw [hchunk]; omega)),
        pad32_length _ (by rw [hchunk]; omega), minUint64_eq_min]
      have htake : (pad32 ((b.drop (32 * j)).take 32)).take (min 32 (b.length - 32 * j)) =
          (b.drop (32 * j)).take 32 := by
        unfold pad32
        rw [← hchunk, List.take_left]
      have hslot : addUint64One ((slot0 + j) % 2 ^ 256) = (slot0 + (j + 1)) % 2 ^ 256 := by
        unfold addUint64One
        omega
      have hrest : b.length - 32 * j - min 32 (b.length - 32 * j) = b.length - 32 * (j + 1) := by
        omega
      rw [htake, hslot, hrest, ih (j + 1) _ (by omega), List.append_assoc]
      congr 1
      have : 32 * (j + 1) = 32 * j + 32 := by ring
      rw [this, ← List.drop_drop, List.take_append_drop]

/-! ### What the storage operations leave untouched -/

theorem sameContext_refl (env : EVMEnvironment) : sameContext env env :=
  ⟨rfl, rfl, rfl, rfl⟩

theorem sameContext_SetState (env env1 : EVMEnvironment) (a : Address) (k v : Nat)
    (h : sameContext env env1) : sameContext env (env1.SetState a k v) := h

theorem zeroCiphertextSlots_sameContext (P : Address) (n : Nat) :
    ∀ (slot : Nat) (env env1 : EVMEnvironment), sameContext env env1 →
      sameContext env (zeroCiphertextSlots P n slot env1) := by
  induction n with
  | zero => intro slot env env1 h; exact h
  | succ n ih =>
    intro slot env env1 h
    exact ih _ env _ (sameContext_SetState env env1 P slot zero h)

theorem writeSlabs_sameContext (P : Address) (cs : List (List Byte)) :
    ∀ (slot : Nat) (env env1 : EVMEnvironment), sameContext env env1 →
      sameContext env (writeSlabs P cs slot env1) := by
  induction cs with
  | nil => intro slot env env1 h; exact h
  | cons c cs ih =>
    intro slot env env1 h
    exact ih _ env _ (sameContext_SetState env env1 P slot _ h)

theorem garbageCollect_sameContext (X : Ext) (flagLoc handle : Nat) (P : Address)
    (env : EVMEnvironment) :
    sameContext env (garbageCollectProtectedStorage X flagLoc handle P env) := by
  unfold garbageCollectProtectedStorage
  simp only
  split
  · split
    · exact sameContext_refl env
    · split
      · exact zeroCiphertextSlots_sameContext P _ _ env _ (sameContext_refl env)
      · split
        · exact sameContext_refl env
        · exact sameContext_refl env
  · exact sameContext_refl env

theorem getVerified_sameContext (env env1 : EVMEnvironment) (h : sameContext env env1)
    (handle : Nat) :
    getVerifiedCiphertextFromEVM env1 handle = getVerifiedCiphertextFromEVM env handle := by
  unfold getVerifiedCiphertextFromEVM isVerifiedAtCurrentDepth
  rw [h.2.2.2, h.1]

theorem persist_sameContext (X : Ext) (flagLoc handle : Nat) (P : Address)
    (env : EVMEnvironment) :
    sameContext env (persistIfVerifiedCiphertext X flagLoc handle P env) := by
  cases hv : getVerifiedCiphertextFromEVM env handle with
  | none => rw [persist_unverified X flagLoc handle P env hv]; exact sameContext_refl env
  | some v =>
    by_cases hz : env.GetState P (Keccak256Hash X handle) = 0
    · rw [persist_new X flagLoc handle P env v hv hz]
      exact writeSlabs_sameContext P _ _ env _ (sameContext_refl env)
    · rw [persist_existing X flagLoc handle P env v hv hz]
      exact sameContext_refl env

theorem zeroCiphertextSlots_GetState_other (P : Address) (n : Nat) :
    ∀ (slot : Nat) (env : EVMEnvironment) (a : Address) (key : Nat), a ≠ P →
      (zeroCiphertextSlots P n slot env).GetState a key = env.GetState a key := by
  induction n with
  | zero => intro slot env a key _; rfl
  | succ n ih =>
    intro slot env a key h
    simp only [zeroCiphertextSlots]
    rw [ih _ _ a key h, SetState_GetState_other _ _ _ _ _ _ (Or.inl h)]

/-- `garbageCollectProtectedStorage` writes to the protected storage account only. -/
theorem garbageCollect_GetState_other (X : Ext) (flagLoc handle : Nat) (P : Address)
    (env : EVMEnvironment) (a : Address) (key : Nat) (h : a ≠ P) :
    (garbageCollectProtectedStorage X flagLoc handle P env).GetState a key =
      env.GetState a key := by
  unfold garbageCollectProtectedStorage
  simp only
  split
  · split
    · rfl
    · split
      · rw [zeroCiphertextSlots_GetState_other P _ _ _ a key h,
          SetState_GetState_other _ _ _ _ _ _ (Or.inl h),
          SetState_GetState_other _ _ _ _ _ _ (Or.inl h)]
      · split
        · rw [SetState_GetState_other _ _ _ _ _ _ (Or.inl h),
            SetState_GetState_other _ _ _ _ _ _ (Or.inl h)]
        · rw [SetState_GetState_other _ _ _ _ _ _ (Or.inl h)]
  · rfl

/-- `persistIfVerifiedCiphertext` writes to the protected storage account only. -/
theorem persist_GetState_other (X : Ext) (flagLoc handle : Nat) (P : Address)
    (env : EVMEnvironment) (a : Address) (key : Nat) (h : a ≠ P) :
    (persistIfVerifiedCiphertext X flagLoc handle P env).GetState a key =
      env.GetState a key := by
  cases hv : getVerifiedCiphertextFromEVM env handle with
  | none => rw [persist_unverified X flagLoc handle P env hv]
  | some v =>
    by_cases hz : env.GetState P (Keccak256Hash X handle) = 0
    · rw [persist_new X flagLoc handle P env v hv hz,
        SetState_GetState_other _ _ _ _ _ _ (Or.inl h),
        writeSlabs_GetState_other P _ _ _ a key (addUint64One_lt _) (Or.inl h),
        SetState_GetState_other _ _ _ _ _ _ (Or.inl h)]
    · rw [persist_existing X flagLoc handle P env v hv hz,
        SetState_GetState_other _ _ _ _ _ _ (Or.inl h),
        SetState_GetState_other _ _ _ _ _ _ (Or.inl h)]

/-- The environment an SSTORE leaves behind, when the frame is not read-only. -/
theorem execSstore_eq (X : Ext) (contract : Address) (env : EVMEnvironment) (loc newVal : Nat)
    (hro : env.isReadOnly = false) :
    execSstore X contract env loc newVal =
      (if newVal ≠ env.GetState contract loc ∧ env.isCommitting = true then
        persistIfVerifiedCiphertext X (Keccak256Hash X (Keccak256Hash X loc)) newVal
          (CreateProtectedStorageContractAddress X contract)
          (garbageCollectProtectedStorage X (Keccak256Hash X (Keccak256Hash X loc))
            (env.GetState contract loc) (CreateProtectedStorageContractAddress X contract) env)
      else env).SetState contract loc newVal := by
  simp [execSstore, OpSstore, hro]

theorem execSstore_sameContext (X : Ext) (contract : Address) (env : EVMEnvironment)
    (loc newVal : Nat) : sameContext env (execSstore X contract env loc newVal) := by
  cases hro : env.isReadOnly with
  | true =>
    simp only [execSstore, OpSstore, hro, if_true]
    exact sameContext_refl env
  | false =>
    rw [execSstore_eq X contract env loc newVal hro]
    apply sameContext_SetState
    split
    · have h1 := garbageCollect_sameContext X (Keccak256Hash X (Keccak256Hash X loc))
        (env.GetState contract loc) (CreateProtectedStorageContractAddress X contract) env
      have h2 := persist_sameContext X (Keccak256Hash X (Keccak256Hash X loc)) newVal
        (CreateProtectedStorageContractAddress X contract)
        (garbageCollectProtectedStorage X (Keccak256Hash X (Keccak256Hash X loc))
          (env.GetState contract loc) (CreateProtectedStorageContractAddress X contract) env)
      exact ⟨h2.1.trans h1.1, h2.2.1.trans h1.2.1, h2.2.2.1.trans h1.2.2.1,
        h2.2.2.2.trans h1.2.2.2⟩
    · exact sameContext_refl env

/-- The contract's own storage after an SSTORE: the written slot holds the new value,
every other slot is as before (the protected storage being another account). -/
theorem execSstore_GetState_contract (X : Ext) (contract : Address) (env : EVMEnvironment)
    (loc newVal : Nat) (hro : env.isReadOnly = false)
    (hP : contract ≠ CreateProtectedStorageContractAddress X contract) (key : Nat) :
    (execSstore X contract env loc newVal).GetState contract key =
      if key = loc then newVal else env.GetState contract key := by
  rw [execSstore_eq X contract env loc newVal hro]
  by_cases hk : key = loc
  · subst hk
    simp
  · rw [SetState_GetState_other _ _ _ _ _ _ (Or.inr hk), if_neg hk]
    split
    · rw [persist_GetState_other _ _ _ _ _ _ _ hP, garbageCollect_GetState_other _ _ _ _ _ _ _ hP]
    · rfl

theorem serialize_lt (m : ciphertextMetadata) : m.serialize < 2 ^ 136 := by
  have ht := m.fheUintType.isLt
  unfold ciphertextMetadata.serialize
  omega

theorem flag_ge : 2 ^ 136 ≤ flag := by decide

theorem zeroCiphertextSlots_GetState_cases (P : Address) (n : Nat) :
    ∀ (slot : Nat) (env : EVMEnvironment) (key : Nat),
      (zeroCiphertextSlots P n slot env).GetState P key = env.GetState P key ∨
      (zeroCiphertextSlots P n slot env).GetState P key = 0 := by
  induction n with
  | zero => intro slot env key; exact Or.inl rfl
  | succ n ih =>
    intro slot env key
    simp only [zeroCiphertextSlots]
    rcases ih (addUint64One slot) (env.SetState P slot zero) key with h | h
    · by_cases hk : key = slot
      · right
        rw [h, hk]
        simp [zero]
      · left
        rw [h, SetState_GetState_other _ _ _ _ _ _ (Or.inr hk)]
    · exact Or.inr h

/-- After garbage collection the flag slot does not hold `FLAG`, if beforehand it held
`FLAG` only together with non-zero metadata for the old value. -/
theorem garbageCollect_flag_cleared (X : Ext) (flagLoc handle : Nat) (P : Address)
    (env : EVMEnvironment)
    (hpre : env.GetState P flagLoc = flag → env.GetState P (Keccak256Hash X handle) ≠ 0) :
    (garbageCollectProtectedStorage X flagLoc handle P env).GetState P flagLoc ≠ flag := by
  have hflag0 : (0 : Nat) ≠ flag := by decide
  unfold garbageCollectProtectedStorage
  simp only
  split
  · next hnz =>
    split
    · next hf => exact hf
    · next hf =>
      split
      · rcases zeroCiphertextSlots_GetState_cases P
          (if (newCiphertextMetadata (env.GetState P (Keccak256Hash X handle))).length > 0 ∧
              (newCiphertextMetadata (env.GetState P (Keccak256Hash X handle))).length < 32 then
            (newCiphertextMetadata (env.GetState P (Keccak256Hash X handle))).length / 32 + 1
          else (newCiphertextMetadata (env.GetState P (Keccak256Hash X handle))).length / 32)
          (addUint64One (Keccak256Hash X handle))
          ((env.SetState P flagLoc zero).SetState P (Keccak256Hash X handle) zero)
          flagLoc with h | h
        · rw [h]
          by_cases hk : flagLoc = Keccak256Hash X handle
          · rw [hk]
            simpa [zero] using hflag0
          · rw [SetState_GetState_other _ _ _ _ _ _ (Or.inr hk)]
            simpa [zero] using hflag0
        · rw [h]
          exact hflag0
      · split
        · by_cases hk : flagLoc = env.GetState P (Keccak256Hash X handle)
          · rw [hk, SetState_GetState_same]
            exact Nat.ne_of_lt (lt_of_lt_of_le (serialize_lt _) flag_ge)
          · rw [SetState_GetState_other _ _ _ _ _ _ (Or.inr hk)]
            simpa [zero] using hflag0
        · simpa [zero] using hflag0
  · next hz =>
    intro hf
    exact hpre hf (by simpa using hz)

/-- Persisting a verified handle leaves `FLAG` in the flag slot, when the flag
location is none of the slots of the handle. -/
theorem persist_flag (X : Ext) (flagLoc handle : Nat) (P : Address) (env : EVMEnvironment)
    (v : verifiedCiphertext) (hv : getVerifiedCiphertextFromEVM env handle = some v)
    (hK : flagLoc ≠ Keccak256Hash X handle)
    (hS : ∀ k, k < slabCount v.ciphertext.serialization.length →
      flagLoc ≠ (Keccak256Hash X handle + 1 + k) % 2 ^ 256) :
    (persistIfVerifiedCiphertext X flagLoc handle P env).GetState P flagLoc = flag := by
  by_cases hz : env.GetState P (Keccak256Hash X handle) = 0
  · rw [persist_new X flagLoc handle P env v hv hz,
      SetState_GetState_other _ _ _ _ _ _ (Or.inr hK),
      writeSlabs_GetState_other P _ _ _ P flagLoc (addUint64One_lt _)]
    · simp
    · right
      intro j hj
      rw [slabs_length] at hj
      have := hS j hj
      unfold addUint64One
      omega
  · rw [persist_existing X flagLoc handle P env v hv hz,
      SetState_GetState_other _ _ _ _ _ _ (Or.inr hK)]
    simp

/-- Persisting a verified handle leaves its metadata slot non-zero, unless the
reference count wraps around. -/
theorem persist_metadata_ne_zero (X : Ext) (flagLoc handle : Nat) (P : Address)
    (env : EVMEnvironment) (v : verifiedCiphertext)
    (hv : getVerifiedCiphertextFromEVM env handle = some v)
    (hK : flagLoc ≠ Keccak256Hash X handle)
    (hroom : (newCiphertextMetadata (env.GetState P (Keccak256Hash X handle))).refCount
      ≠ 2 ^ 64 - 1) :
    (persistIfVerifiedCiphertext X flagLoc handle P env).GetState P (Keccak256Hash X handle)
      ≠ 0 := by
  by_cases hz : env.GetState P (Keccak256Hash X handle) = 0
  · rw [persist_new X flagLoc handle P env v hv hz, SetState_GetState_same]
    unfold ciphertextMetadata.serialize
    simp only
    omega
  · rw [persist_existing X flagLoc handle P env v hv hz, SetState_GetState_same,
      SetState_GetState_other _ _ _ _ _ _ (Or.inr (Ne.symm hK))]
    have hlt : (newCiphertextMetadata (env.GetState P (Keccak256Hash X handle))).refCount
        < 2 ^ 64 := Nat.mod_lt _ (by norm_num)
    unfold ciphertextMetadata.serialize
    simp only
    omega

/-- The loading loop reads back what the sharding loop wrote, when the recorded size
is the length of the serialization. -/
theorem loadCiphertextBytes_after_persist (X : Ext)
    (flagHandleLocation handle : Nat) (P : Address) (env : EVMEnvironment)
    (v : verifiedCiphertext)
    (hv : getVerifiedCiphertextFromEVM env handle = some v)
    (hz : env.GetState P (Keccak256Hash X handle) = 0)
    (hsize : X.expandedFheCiphertextSize v.ciphertext.fheUintType =
      v.ciphertext.serialize.length)
    (hlen : v.ciphertext.serialize.length < 2 ^ 63) :
    (persistIfVerifiedCiphertext X flagHandleLocation handle P env).GetState P
        (Keccak256Hash X handle) ≠ 0 ∧
    ∀ env2 : EVMEnvironment,
      env2.state = (persistIfVerifiedCiphertext X flagHandleLocation handle P env).state →
      loadCiphertextBytes env2 P (Keccak256Hash X handle)
          (newCiphertextMetadata (env2.GetState P (Keccak256Hash X handle))) =
        v.ciphertext.serialize := by
  have hK := Keccak256Hash_lt X handle
  have hmeta : (persistIfVerifiedCiphertext X flagHandleLocation handle P env).GetState P
      (Keccak256Hash X handle) =
      ciphertextMetadata.serialize
        { refCount := 1
          length := X.expandedFheCiphertextSize v.ciphertext.fheUintType % 2 ^ 64
          fheUintType := v.ciphertext.fheUintType } := by
    rw [persist_new X flagHandleLocation handle P env v hv hz]
    simp
  constructor
  · rw [hmeta]
    unfold ciphertextMetadata.serialize
    simp only
    omega
  · intro env2 h2
    have hget : ∀ a k, env2.GetState a k =
        (persistIfVerifiedCiphertext X flagHandleLocation handle P env).GetState a k := by
      intro a k
      simp [EVMEnvironment.GetState, h2]
    rw [hget, hmeta, newCiphertextMetadata_serialize]
    simp only [Nat.mod_mod]
    have hL : X.expandedFheCiphertextSize v.ciphertext.fheUintType % 2 ^ 64 =
        v.ciphertext.serialization.length := by
      rw [hsize]
      exact Nat.mod_eq_of_lt (by unfold tfheCiphertext.serialize at hlen ⊢; omega)
    unfold loadCiphertextBytes
    simp only [hL]
    have hslots : ∀ k, k < slabCount v.ciphertext.serialization.length →
        env2.GetState P ((addUint64One (Keccak256Hash X handle) + k) % 2 ^ 256) =
          BytesToHash (pad32 ((v.ciphertext.serialization.drop (32 * k)).take 32)) := by
      intro k hk
      have hk2 : k < 2 ^ 58 := by
        unfold slabCount at hk
        unfold tfheCiphertext.serialize at hlen
        omega
      rw [hget, persist_new X flagHandleLocation handle P env v hv hz]
      have hne : (addUint64One (Keccak256Hash X handle) + k) % 2 ^ 256 ≠
          Keccak256Hash X handle := by
        unfold addUint64One
        omega
      rw [SetState_GetState_other _ _ _ _ _ _ (Or.inr hne)]
      exact writeSlabs_GetState P _ _ _ k _ (addUint64One_lt _)
        (by
          rw [slabs_length]
          unfold slabCount
          unfold tfheCiphertext.serialize at hlen
          omega)
        (slabs_getElem? _ k hk)
    have h := readLoop_slabs env2 P v.ciphertext.serialization
      (addUint64One (Keccak256Hash X handle)) hslots v.ciphertext.serialization.length 0 []
      (by omega)
    simp only [Nat.mul_zero, Nat.sub_zero, Nat.add_zero, List.drop_zero, List.nil_append] at h
    rw [Nat.mod_eq_of_lt (addUint64One_lt _)] at h
    exact h

/-- A non-read-only `OpSstore` on a stack of at least two words returns no error,
pops the two words and leaves the environment `execSstore` describes. -/
theorem OpSstore_eq_execSstore (X : Ext) (contract : Address) (env : EVMEnvironment)
    (loc newVal : Nat) (rest : List Nat) (hro : env.isReadOnly = false) :
    OpSstore X env contract (loc :: newVal :: rest) =
      some { err := none, env := execSstore X contract env loc newVal, stack := rest } := by
  simp [execSstore, OpSstore, hro]

theorem zeroCiphertextSlots_GetState_notin (P : Address) (n : Nat) :
    ∀ (slot : Nat) (env : EVMEnvironment) (key : Nat), slot < 2 ^ 256 →
      (∀ i, i < n → key ≠ (slot + i) % 2 ^ 256) →
      (zeroCiphertextSlots P n slot env).GetState P key = env.GetState P key := by
  induction n with
  | zero => intro slot env key _ _; rfl
  | succ n ih =>
    intro slot env key hs h
    simp only [zeroCiphertextSlots]
    rw [ih _ _ key (addUint64One_lt slot)]
    · apply SetState_GetState_other
      right
      have := h 0 (by omega)
      rw [Nat.add_zero, Nat.mod_eq_of_lt hs] at this
      exact this
    · intro i hi
      have := h (i + 1) (by omega)
      unfold addUint64One
      omega

theorem depthSet_has_iff (s : List Int) (v : Int) : depthSet.has s v = true ↔ v ∈ s := by
  simp [depthSet.has]

/-! ### `verifyIfCiphertextHandle` -/

theorem importCiphertextToEVM_state (X : Ext) (env : EVMEnvironment) (ct : tfheCiphertext) :
    (importCiphertextToEVM X env ct).state = env.state ∧
    (importCiphertextToEVM X env ct).depth = env.depth := ⟨rfl, rfl⟩

/-- A successful `verifyIfCiphertextHandle` changes neither the world state nor the
depth. -/
theorem verifyIfCiphertextHandle_state (X : Ext) (handle : Nat) (env env1 : EVMEnvironment)
    (contract : Address) (h : verifyIfCiphertextHandle X handle env contract = Outcome.ok env1) :
    env1.state = env.state ∧ env1.depth = env.depth := by
  unfold verifyIfCiphertextHandle at h
  split at h
  · injection h with h
    rw [← h]
    exact importCiphertextToEVM_state X env _
  · simp only at h
    split at h
    · split at h
      · injection h with h
        rw [← h]
        exact importCiphertextToEVM_state X env _
      · cases h
      · cases h
    · injection h with h
      rw [← h]
      exact ⟨rfl, rfl⟩

/-! ### Metadata words along a run of SSTOREs -/

theorem goodWord_zero : goodWord 0 := fun h => absurd rfl h

theorem goodWord_flag : goodWord flag := fun _ => by decide

theorem goodWord_SetState (env : EVMEnvironment) (P : Address) (k v key : Nat)
    (hv : key = k → goodWord v) (h : goodWord (env.GetState P key)) :
    goodWord ((env.SetState P k v).GetState P key) := by
  by_cases hk : key = k
  · subst hk
    rw [SetState_GetState_same]
    exact hv rfl
  · rw [SetState_GetState_other _ _ _ _ _ _ (Or.inr hk)]
    exact h

theorem goodWord_garbageCollect (X : Ext) (flagLoc handle : Nat) (P : Address)
    (env : EVMEnvironment) (key : Nat) (h : goodWord (env.GetState P key)) :
    goodWord ((garbageCollectProtectedStorage X flagLoc handle P env).GetState P key) := by
  unfold garbageCollectProtectedStorage
  simp only
  split
  · split
    · exact h
    · split
      · have hbase : goodWord (((env.SetState P flagLoc zero).SetState P
            (Keccak256Hash X handle) zero).GetState P key) :=
          goodWord_SetState _ P _ _ key (fun _ => goodWord_zero)
            (goodWord_SetState env P _ _ key (fun _ => goodWord_zero) h)
        rcases zeroCiphertextSlots_GetState_cases P
          (if (newCiphertextMetadata (env.GetState P (Keccak256Hash X handle))).length > 0 ∧
              (newCiphertextMetadata (env.GetState P (Keccak256Hash X handle))).length < 32 then
            (newCiphertextMetadata (env.GetState P (Keccak256Hash X handle))).length / 32 + 1
          else (newCiphertextMetadata (env.GetState P (Keccak256Hash X handle))).length / 32)
          (addUint64One (Keccak256Hash X handle))
          ((env.SetState P flagLoc zero).SetState P (Keccak256Hash X handle) zero)
          key with h1 | h1
        · rw [h1]
          exact hbase
        · rw [h1]
          exact goodWord_zero
      · split
        · next hrc =>
          refine goodWord_SetState _ P _ _ key (fun _ => ?_)
            (goodWord_SetState env P _ _ key (fun _ => goodWord_zero) h)
          intro _
          have ht := (newCiphertextMetadata (env.GetState P (Keccak256Hash X handle))).fheUintType.isLt
          have hlt : (newCiphertextMetadata (env.GetState P (Keccak256Hash X handle))).refCount
              < 2 ^ 64 := Nat.mod_lt _ (by norm_num)
          unfold ciphertextMetadata.serialize
          simp only
          omega
        · exact goodWord_SetState env P _ _ key (fun _ => goodWord_zero) h
  · exact h

theorem goodWord_persist (X : Ext) (flagLoc handle : Nat) (P : Address)
    (env : EVMEnvironment) (key : Nat) (h : goodWord (env.GetState P key))
    (hav : ∀ v, getVerifiedCiphertextFromEVM env handle = some v →
      (∀ k, k < slabCount v.ciphertext.serialization.length →
        key ≠ (Keccak256Hash X handle + 1 + k) % 2 ^ 256) ∧
      (Keccak256Hash X handle = key →
        (newCiphertextMetadata (env.GetState P key)).refCount ≠ 2 ^ 64 - 1)) :
    goodWord ((persistIfVerifiedCiphertext X flagLoc handle P env).GetState P key) := by
  cases hv : getVerifiedCiphertextFromEVM env handle with
  | none =>
    rw [persist_unverified X flagLoc handle P env hv]
    exact h
  | some v =>
    have hav := hav v hv
    by_cases hz : env.GetState P (Keccak256Hash X handle) = 0
    · rw [persist_new X flagLoc handle P env v hv hz]
      apply goodWord_SetState
      · intro _ _
        have ht := v.ciphertext.fheUintType.isLt
        unfold ciphertextMetadata.serialize
        simp only
        omega
      · rw [writeSlabs_GetState_other P _ _ _ P key (addUint64One_lt _)]
        · exact goodWord_SetState env P _ _ key (fun _ => goodWord_flag) h
        · right
          intro j hj
          rw [slabs_length] at hj
          have := hav.1 j hj
          unfold addUint64One
          omega
    · rw [persist_existing X flagLoc handle P env v hv hz]
      apply goodWord_SetState
      · intro hk _
        have hrc : ((newCiphertextMetadata ((env.SetState P flagLoc flag).GetState P
            (Keccak256Hash X handle))).refCount + 1) % 2 ^ 64 ≠ 0 := by
          by_cases hf : Keccak256Hash X handle = flagLoc
          · rw [hf, SetState_GetState_same]
            decide
          · rw [SetState_GetState_other _ _ _ _ _ _ (Or.inr hf)]
            have h1 := hav.2 hk.symm
            rw [hk] at h1
            have hlt : (newCiphertextMetadata (env.GetState P (Keccak256Hash X handle))).refCount
                < 2 ^ 64 := Nat.mod_lt _ (by norm_num)
            omega
        have ht := (newCiphertextMetadata ((env.SetState P flagLoc flag).GetState P
            (Keccak256Hash X handle))).fheUintType.isLt
        unfold ciphertextMetadata.serialize
        simp only
        omega
      · exact goodWord_SetState env P _ _ key (fun _ => goodWord_flag) h

theorem goodWord_sstoreStep (X : Ext) (contract : Address) (handle : Nat) (st : StateDB)
    (c : SstoreCall)
    (hP : CreateProtectedStorageContractAddress X contract ≠ contract)
    (h : goodWord (st (CreateProtectedStorageContractAddress X contract)
      (Keccak256Hash X handle)))
    (hav : stepAvoids X contract handle st c) :
    goodWord (sstoreStep X contract st c (CreateProtectedStorageContractAddress X contract)
      (Keccak256Hash X handle)) := by
  have heq : sstoreStep X contract st c (CreateProtectedStorageContractAddress X contract)
      (Keccak256Hash X handle) =
      (execSstore X contract (c.env st) c.loc c.newVal).GetState
        (CreateProtectedStorageContractAddress X contract) (Keccak256Hash X handle) := rfl
  rw [heq, execSstore_eq X contract (c.env st) c.loc c.newVal rfl,
    SetState_GetState_other _ _ _ _ _ _ (Or.inl hP)]
  split
  · apply goodWord_persist
    · exact goodWord_garbageCollect X _ _ _ (c.env st) _ h
    · intro v hv
      rw [getVerified_sameContext (c.env st) _ (garbageCollect_sameContext X _ _ _ (c.env st))]
        at hv
      exact hav v hv
  · exact h

theorem goodWord_runSstores (X : Ext) (contract : Address) (handle : Nat)
    (hP : CreateProtectedStorageContractAddress X contract ≠ contract)
    (calls : List SstoreCall) :
    ∀ st : StateDB,
      goodWord (st (CreateProtectedStorageContractAddress X contract)
        (Keccak256Hash X handle)) →
      runAvoids X contract handle st calls →
      goodWord (runSstores X contract st calls
        (CreateProtectedStorageContractAddress X contract) (Keccak256Hash X handle)) := by
  induction calls with
  | nil => intro st h _; exact h
  | cons c cs ih =>
    intro st h hav
    exact ih _ (goodWord_sstoreStep X contract handle st c hP h hav.1) hav.2

/-! ### The bytes of a word -/

theorem toBytesBE_zero (n : Nat) : toBytesBE n 0 = List.replicate n 0 := by
  induction n with
  | zero => rfl
  | succ n ih =>
    rw [toBytesBE, Nat.zero_div, ih, List.replicate_succ']
    rfl

theorem toBytesBE_take (n : Nat) :
    ∀ k v : Nat, v < 256 ^ k → (toBytesBE (n + k) v).take n = List.replicate n 0 := by
  intro k
  induction k with
  | zero =>
    intro v hv
    have h0 : v = 0 := by simpa using hv
    subst h0
    rw [Nat.add_zero, toBytesBE_zero, List.take_replicate, Nat.min_self]
  | succ k ih =>
    intro v hv
    have hlt : v / 256 < 256 ^ k := by
      rw [Nat.div_lt_iff_lt_mul (by decide)]
      rwa [pow_succ] at hv
    rw [← Nat.add_assoc, toBytesBE,
      List.take_append_of_le_length (by rw [toBytesBE_length]; omega)]
    exact ih (v / 256) hlt

theorem fromBytesBE_toBytesBE (n : Nat) : ∀ v : Nat, fromBytesBE (toBytesBE n v) = v % 256 ^ n := by
  induction n with
  | zero => intro v; simp [toBytesBE, fromBytesBE, Nat.mod_one]
  | succ n ih =>
    intro v
    rw [toBytesBE, fromBytesBE_append_singleton, ih]
    have hb : (Fin.ofNat (v % 256) : Byte).val = v % 256 := by
      simp [Fin.ofNat]
    rw [hb, pow_succ, Nat.mul_comm (256 ^ n) 256, Nat.mod_mul]
    ring

theorem loadCiphertextBytes_zero_length (env : EVMEnvironment) (P : Address) (key : Nat)
    (metadata : ciphertextMetadata) (h : metadata.length = 0) :
    loadCiphertextBytes env P key metadata = [] := by
  simp [loadCiphertextBytes, h, readLoop]

theorem deserialize_nil (X : Ext) (t : FheUintType) :
    tfheCiphertext.deserialize X [] t = Outcome.panicked := by
  unfold tfheCiphertext.deserialize
  split <;> simp

/-! ### Loading from two states -/

theorem readLoop_agree (env env2 : EVMEnvironment) (P : Address) (F : Nat)
    (h : ∀ k, k ≠ F → env2.GetState P k = env.GetState P k) :
    ∀ (fuel left slot : Nat) (acc : List Byte), slot < 2 ^ 256 →
      (∀ j, 32 * j < left → (slot + j) % 2 ^ 256 ≠ F) →
      readLoop env2 P fuel left slot acc = readLoop env P fuel left slot acc := by
  intro fuel
  induction fuel with
  | zero => intro left slot acc _ _; rfl
  | succ fuel ih =>
    intro left slot acc hs hj
    simp only [readLoop]
    by_cases hl : left = 0
    · simp [hl]
    · have h0 : slot ≠ F := by
        have := hj 0 (by omega)
        rwa [Nat.add_zero, Nat.mod_eq_of_lt hs] at this
      rw [if_neg hl, if_neg hl, h slot h0]
      apply ih _ _ _ (addUint64One_lt slot)
      intro j hjl
      have hlen : (hashBytes (env.GetState P slot)).length = 32 := hashBytes_length _
      rw [hlen, minUint64_eq_min] at hjl
      have := hj (j + 1) (by omega)
      unfold addUint64One
      omega

theorem importCiphertextToEVM_with_state (X : Ext) (env : EVMEnvironment) (st : StateDB)
    (ct : tfheCiphertext) :
    importCiphertextToEVM X { env with state := st } ct =
      { importCiphertextToEVM X env ct with state := st } := rfl

/-- `verifyIfCiphertextHandle` on a second world state that agrees with the first on
the metadata slot and on the bytes loaded: the same outcome, on the second state. -/
theorem verifyIfCiphertextHandle_agree (X : Ext) (handle : Nat) (env : EVMEnvironment)
    (st : StateDB) (contract : Address)
    (hmeta : env.verifiedCiphertexts handle = none →
      st (CreateProtectedStorageContractAddress X contract) (Keccak256Hash X handle) =
        env.GetState (CreateProtectedStorageContractAddress X contract) (Keccak256Hash X handle))
    (hbytes : env.verifiedCiphertexts handle = none →
      loadCiphertextBytes { env with state := st }
          (CreateProtectedStorageContractAddress X contract) (Keccak256Hash X handle)
          (newCiphertextMetadata (env.GetState (CreateProtectedStorageContractAddress X contract)
            (Keccak256Hash X handle))) =
        loadCiphertextBytes env
          (CreateProtectedStorageContractAddress X contract) (Keccak256Hash X handle)
          (newCiphertextMetadata (env.GetState (CreateProtectedStorageContractAddress X contract)
            (Keccak256Hash X handle)))) :
    verifyIfCiphertextHandle X handle { env with state := st } contract =
      Outcome.map (fun e => { e with state := st })
        (verifyIfCiphertextHandle X handle env contract) := by
  unfold verifyIfCiphertextHandle
  cases ht : env.verifiedCiphertexts handle with
  | some ct => simp only [ht, Outcome.map]; rfl
  | none =>
    have hm := hmeta ht
    have hb := hbytes ht
    simp only [ht]
    have hm2 : EVMEnvironment.GetState { env with state := st }
        (CreateProtectedStorageContractAddress X contract) (Keccak256Hash X handle) =
        env.GetState (CreateProtectedStorageContractAddress X contract)
          (Keccak256Hash X handle) := hm
    rw [hm2]
    by_cases hz : env.GetState (CreateProtectedStorageContractAddress X contract)
        (Keccak256Hash X handle) = 0
    · simp only [hz, ne_eq, not_true_eq_false, if_false, Outcome.map]
    · simp only [hz, ne_eq, not_false_eq_true, if_true]
      rw [hb]
      cases tfheCiphertext.deserialize X
        (loadCiphertextBytes env (CreateProtectedStorageContractAddress X contract)
          (Keccak256Hash X handle)
          (newCiphertextMetadata (env.GetState (CreateProtectedStorageContractAddress X contract)
            (Keccak256Hash X handle))))
        (newCiphertextMetadata (env.GetState (CreateProtectedStorageContractAddress X contract)
          (Keccak256Hash X handle))).fheUintType with
      | ok ct => simp only [Outcome.map]; rfl
      | error msg => simp only [Outcome.map]
      | panicked => simp only [Outcome.map]

/-! ### The library calls of the `execute...Operation` functions -/

theorem unaryCase_releasedOnce (X : Ext) (width : FheUintType) (opN : List Byte → NativeResult)
    (msgDeser msgOp msgSer : String) (ct : tfheCiphertext) :
    releasedOnce (unaryCase X width opN msgDeser msgOp msgSer ct).2 := by
  unfold unaryCase
  by_cases h1 : ct.serialization = []
  · simp [h1, releasedOnce, obtained]
  · by_cases h2 : X.deserializeAccepts width ct.serialization = false
    · simp [h1, h2, releasedOnce, obtained, destroyedAt]
    · simp only [h1, h2, if_false]
      rcases opN ct.serialization with _ | _ | bytes <;>
        simp [finishCase, releasedOnce, obtained, destroyedAt]

theorem scalarCase_releasedOnce (X : Ext) (width : FheUintType) (bits : Nat)
    (opN : List Byte → Nat → NativeResult)
    (msgDeser msgOp msgSer : String) (lhs : tfheCiphertext) (rhs : Nat) :
    releasedOnce (scalarCase X width bits opN msgDeser msgOp msgSer lhs rhs).2 := by
  unfold scalarCase
  by_cases h1 : lhs.serialization = []
  · simp [h1, releasedOnce, obtained]
  · by_cases h2 : X.deserializeAccepts width lhs.serialization = false
    · simp [h1, h2, releasedOnce, obtained, destroyedAt]
    · simp only [h1, h2, if_false]
      rcases opN lhs.serialization (rhs % 2 ^ bits) with _ | _ | bytes <;>
        simp [finishCase, releasedOnce, obtained, destroyedAt]

theorem binaryCase_releasedOnce (X : Ext) (width : FheUintType)
    (opN : List Byte → List Byte → NativeResult)
    (msgDeser msgOp msgSer : String) (lhs rhs : tfheCiphertext)
    (h : (binaryCase X width opN msgDeser msgOp msgSer lhs rhs).1 ≠ Outcome.panicked) :
    releasedOnce (binaryCase X width opN msgDeser msgOp msgSer lhs rhs).2 := by
  unfold binaryCase at h ⊢
  by_cases h1 : lhs.serialization = []
  · simp [h1, releasedOnce, obtained]
  · by_cases h2 : X.deserializeAccepts width lhs.serialization = false
    · simp [h1, h2, releasedOnce, obtained, destroyedAt]
    · by_cases h3 : rhs.serialization = []
      · simp [h1, h2, h3] at h
      · by_cases h4 : X.deserializeAccepts width rhs.serialization = false
        · simp [h1, h2, h3, h4, releasedOnce, obtained, destroyedAt]
        · simp only [h1, h2, h3, h4, if_false]
          rcases opN lhs.serialization rhs.serialization with _ | _ | bytes <;>
            simp [finishCase, releasedOnce, obtained, destroyedAt]

/-- Whenever a `case` of the ternary function obtains `first_ptr`, it makes no
`destroy` call on it. -/
theorem ternaryCase_first_ptr (X : Ext) (width : FheUintType)
    (opN : List Byte → List Byte → List Byte → NativeResult)
    (msgDeser msgOp msgSer : String) (first lhs rhs : tfheCiphertext)
    (h : (FheUint8, NativePtr.first_ptr) ∈
      obtained (ternaryCase X width opN msgDeser msgOp msgSer first lhs rhs).2) :
    destroyedAt NativePtr.first_ptr
      (ternaryCase X width opN msgDeser msgOp msgSer first lhs rhs).2 = [] := by
  unfold ternaryCase at h ⊢
  by_cases h1 : lhs.serialization = []
  · simp [h1, obtained] at h
  · by_cases h2 : X.deserializeAccepts width lhs.serialization = false
    · simp [h1, h2, obtained] at h
    · by_cases h3 : rhs.serialization = []
      · simp [h1, h2, h3, obtained] at h
      · by_cases h4 : X.deserializeAccepts width rhs.serialization = false
        · simp [h1, h2, h3, h4, obtained] at h
        · by_cases h5 : first.serialization = []
          · simp [h1, h2, h3, h4, h5, obtained] at h
          · by_cases h6 : X.deserializeAccepts FheUint8 first.serialization = false
            · simp [h1, h2, h3, h4, h5, h6, obtained] at h
            · simp only [h1, h2, h3, h4, h5, h6, if_false]
              rcases opN first.serialization lhs.serialization rhs.serialization
                with _ | _ | bytes <;>
                simp [finishCase, destroyedAt]

/-- A `case` of the ternary function on operands the library accepts of which `first`
is rejected: `lhs_ptr` and `rhs_ptr`, made at `width`, are destroyed at `FheUint8`. -/
theorem ternaryCase_first_rejected (X : Ext) (width : FheUintType)
    (opN : List Byte → List Byte → List Byte → NativeResult)
    (msgDeser msgOp msgSer : String) (first lhs rhs : tfheCiphertext)
    (hl : lhs.serialization ≠ []) (hr : rhs.serialization ≠ []) (hf : first.serialization ≠ [])
    (hla : X.deserializeAccepts width lhs.serialization = true)
    (hra : X.deserializeAccepts width rhs.serialization = true)
    (hfa : X.deserializeAccepts FheUint8 first.serialization = false) :
    (ternaryCase X width opN msgDeser msgOp msgSer first lhs rhs).1 =
      Outcome.error "8 bit binary op deserialization failed" ∧
    obtained (ternaryCase X width opN msgDeser msgOp msgSer first lhs rhs).2 =
      [(width, NativePtr.lhs_ptr), (width, NativePtr.rhs_ptr)] ∧
    destroyedAt NativePtr.lhs_ptr
      (ternaryCase X width opN msgDeser msgOp msgSer first lhs rhs).2 = [FheUint8] ∧
    destroyedAt NativePtr.rhs_ptr
      (ternaryCase X width opN msgDeser msgOp msgSer first lhs rhs).2 = [FheUint8] := by
  unfold ternaryCase
  simp [hl, hr, hf, hla, hra, hfa, obtained, destroyedAt]

theorem finishCase_type (width resType : FheUintType) (res : NativeResult)
    (called operands : List NativeCall) (msgOp msgSer : String) (ct : tfheCiphertext)
    (h : (finishCase width resType res called operands msgOp msgSer).1 = Outcome.ok ct) :
    ct.fheUintType = resType := by
  unfold finishCase at h
  rcases res with _ | _ | bytes
  · cases h
  · cases h
  · simp only at h
    injection h with h
    rw [← h]

theorem binaryCase_type (X : Ext) (width : FheUintType)
    (opN : List Byte → List Byte → NativeResult)
    (msgDeser msgOp msgSer : String) (lhs rhs ct : tfheCiphertext)
    (h : (binaryCase X width opN msgDeser msgOp msgSer lhs rhs).1 = Outcome.ok ct) :
    ct.fheUintType = lhs.fheUintType := by
  unfold binaryCase at h
  split at h
  · cases h
  · split at h
    · cases h
    · split at h
      · cases h
      · split at h
        · cases h
        · exact finishCase_type _ _ _ _ _ _ _ _ h

theorem ternaryCase_type (X : Ext) (width : FheUintType)
    (opN : List Byte → List Byte → List Byte → NativeResult)
    (msgDeser msgOp msgSer : String) (first lhs rhs ct : tfheCiphertext)
    (h : (ternaryCase X width opN msgDeser msgOp msgSer first lhs rhs).1 = Outcome.ok ct) :
    ct.fheUintType = lhs.fheUintType := by
  unfold ternaryCase at h
  split at h
  · cases h
  · split at h
    · cases h
    · split at h
      · cases h
      · split at h
        · cases h
        · split at h
          · cases h
          · split at h
            · cases h
            · exact finishCase_type _ _ _ _ _ _ _ _ h

/-! ### Flags and reference counts along a run of SSTOREs -/

theorem garbageCollect_noop (X : Ext) (flagLoc handle : Nat) (P : Address)
    (env : EVMEnvironment)
    (h : env.GetState P flagLoc ≠ flag ∨ env.GetState P (Keccak256Hash X handle) = 0) :
    garbageCollectProtectedStorage X flagLoc handle P env = env := by
  unfold garbageCollectProtectedStorage
  rcases h with h | h
  · simp [h]
  · simp [h]

/-- Garbage collection writes `FLAG` nowhere. -/
theorem garbageCollect_no_new_flag (X : Ext) (flagLoc handle : Nat) (P : Address)
    (env : EVMEnvironment) (k : Nat)
    (h : (garbageCollectProtectedStorage X flagLoc handle P env).GetState P k = flag) :
    env.GetState P k = flag := by
  have hflag0 : (0 : Nat) ≠ flag := by decide
  unfold garbageCollectProtectedStorage at h
  simp only at h
  split at h
  · split at h
    · exact h
    · have hF : ∀ v, v ≠ flag → (env.SetState P flagLoc v).GetState P k = flag →
          env.GetState P k = flag := by
        intro v hv hk
        by_cases hkf : k = flagLoc
        · rw [hkf, SetState_GetState_same] at hk
          exact absurd hk hv
        · rwa [SetState_GetState_other _ _ _ _ _ _ (Or.inr hkf)] at hk
      split at h
      · rcases zeroCiphertextSlots_GetState_cases P _ _ _ k with hc | hc
          <;> rw [hc] at h
        · by_cases hkk : k = Keccak256Hash X handle
          · rw [hkk, SetState_GetState_same] at h
            exact absurd h hflag0
          · rw [SetState_GetState_other _ _ _ _ _ _ (Or.inr hkk)] at h
            exact hF zero hflag0 h
        · exact absurd h hflag0
      · split at h
        · by_cases hkk : k = env.GetState P (Keccak256Hash X handle)
          · rw [hkk, SetState_GetState_same] at h
            exact absurd h (Nat.ne_of_lt (lt_of_lt_of_le (serialize_lt _) flag_ge))
          · rw [SetState_GetState_other _ _ _ _ _ _ (Or.inr hkk)] at h
            exact hF zero hflag0 h
        · exact hF zero hflag0 h
  · exact h

/-- A slot that garbage collection leaves as it is: any slot other than the flag slot,
the slot whose key is the old metadata word, the ciphertext slots, and (when the
reference count is 1) the metadata slot. -/
theorem garbageCollect_GetState_kept (X : Ext) (flagLoc handle : Nat) (P : Address)
    (env : EVMEnvironment) (k : Nat)
    (hf : k ≠ flagLoc) (hw : k ≠ env.GetState P (Keccak256Hash X handle))
    (hk : k = Keccak256Hash X handle →
      (newCiphertextMetadata (env.GetState P (Keccak256Hash X handle))).refCount ≠ 1)
    (hs : ∀ i, i < ((newCiphertextMetadata
          (env.GetState P (Keccak256Hash X handle))).length + 31) / 32 →
      k ≠ (Keccak256Hash X handle + 1 + i) % 2 ^ 256) :
    (garbageCollectProtectedStorage X flagLoc handle P env).GetState P k =
      env.GetState P k := by
  unfold garbageCollectProtectedStorage
  simp only
  split
  · split
    · rfl
    · split
      · next hrc =>
        have hkk : k ≠ Keccak256Hash X handle := fun h => hk h hrc
        rw [zeroCiphertextSlots_GetState_notin P _ _ _ k (addUint64One_lt _),
          SetState_GetState_other _ _ _ _ _ _ (Or.inr hkk),
          SetState_GetState_other _ _ _ _ _ _ (Or.inr hf)]
        intro i hi
        have := hs i (by split at hi <;> omega)
        unfold addUint64One
        omega
      · split
        · rw [SetState_GetState_other _ _ _ _ _ _ (Or.inr hw),
            SetState_GetState_other _ _ _ _ _ _ (Or.inr hf)]
        · rw [SetState_GetState_other _ _ _ _ _ _ (Or.inr hf)]
  · rfl

/-- A slot that `persistIfVerifiedCiphertext` leaves as it is. -/
theorem persist_GetState_kept (X : Ext) (flagLoc handle : Nat) (P : Address)
    (env : EVMEnvironment) (k : Nat)
    (h : ∀ v, getVerifiedCiphertextFromEVM env handle = some v →
      k ≠ flagLoc ∧ k ≠ Keccak256Hash X handle ∧
      ∀ i, i < slabCount v.ciphertext.serialization.length →
        k ≠ (Keccak256Hash X handle + 1 + i) % 2 ^ 256) :
    (persistIfVerifiedCiphertext X flagLoc handle P env).GetState P k =
      env.GetState P k := by
  cases hv : getVerifiedCiphertextFromEVM env handle with
  | none => rw [persist_unverified X flagLoc handle P env hv]
  | some v =>
    obtain ⟨hf, hk, hs⟩ := h v hv
    by_cases hz : env.GetState P (Keccak256Hash X handle) = 0
    · rw [persist_new X flagLoc handle P env v hv hz,
        SetState_GetState_other _ _ _ _ _ _ (Or.inr hk),
        writeSlabs_GetState_other P _ _ _ P k (addUint64One_lt _),
        SetState_GetState_other _ _ _ _ _ _ (Or.inr hf)]
      right
      intro j hj
      rw [slabs_length] at hj
      have := hs j hj
      unfold addUint64One
      omega
    · rw [persist_existing X flagLoc handle P env v hv hz,
        SetState_GetState_other _ _ _ _ _ _ (Or.inr hk),
        SetState_GetState_other _ _ _ _ _ _ (Or.inr hf)]

/-- Persisting a verified handle raises the reference count in its metadata slot by
one, unless it wraps around. -/
theorem persist_refCount (X : Ext) (flagLoc handle : Nat) (P : Address)
    (env : EVMEnvironment) (v : verifiedCiphertext)
    (hv : getVerifiedCiphertextFromEVM env handle = some v)
    (hK : flagLoc ≠ Keccak256Hash X handle)
    (hroom : (newCiphertextMetadata (env.GetState P (Keccak256Hash X handle))).refCount
      ≠ 2 ^ 64 - 1) :
    (newCiphertextMetadata ((persistIfVerifiedCiphertext X flagLoc handle P env).GetState P
        (Keccak256Hash X handle))).refCount =
      (newCiphertextMetadata (env.GetState P (Keccak256Hash X handle))).refCount + 1 := by
  by_cases hz : env.GetState P (Keccak256Hash X handle) = 0
  · rw [persist_new X flagLoc handle P env v hv hz, SetState_GetState_same,
      newCiphertextMetadata_serialize, hz]
    simp [newCiphertextMetadata]
  · rw [persist_existing X flagLoc handle P env v hv hz, SetState_GetState_same,
      SetState_GetState_other _ _ _ _ _ _ (Or.inr (Ne.symm hK)),
      newCiphertextMetadata_serialize]
    have hlt : (newCiphertextMetadata (env.GetState P (Keccak256Hash X handle))).refCount
        < 2 ^ 64 := Nat.mod_lt _ (by norm_num)
    simp only
    omega

/-- One step of the invariant, from what the step does to the flag slots and to the
reference counts. -/
theorem coherent_step (X : Ext) (L H : Nat → Prop) (p0 p2 r0 : Nat → Nat) (loc0 new : Nat)
    (hL0 : L loc0)
    (hI : coherent X L H p0 r0)
    (ha : ∀ loc, L loc → loc ≠ loc0 →
      p2 (Keccak256Hash X (Keccak256Hash X loc)) = flag →
      p0 (Keccak256Hash X (Keccak256Hash X loc)) = flag)
    (hb : p2 (Keccak256Hash X (Keccak256Hash X loc0)) = flag →
      H new ∧
      (newCiphertextMetadata (p0 (Keccak256Hash X new))).refCount + 1 ≤
        (newCiphertextMetadata (p2 (Keccak256Hash X new))).refCount)
    (hc : ∀ h, H h →
      (newCiphertextMetadata (p0 (Keccak256Hash X h))).refCount ≤
        (newCiphertextMetadata (p2 (Keccak256Hash X h))).refCount ∨
      (h = r0 loc0 ∧ p0 (Keccak256Hash X (Keccak256Hash X loc0)) = flag ∧
        (newCiphertextMetadata (p0 (Keccak256Hash X h))).refCount = 1)) :
    coherent X L H p2 (fun loc => if loc = loc0 then new else r0 loc) := by
  obtain ⟨hI1, hI2⟩ := hI
  constructor
  · intro loc hl hf
    by_cases h0 : loc = loc0
    · subst h0
      simp only [if_true]
      exact (hb hf).1
    · simp only [if_neg h0]
      exact hI1 loc hl (ha loc hl h0 hf)
  · intro h hh l hnd hall
    by_cases hm : loc0 ∈ l
    · obtain ⟨_, hf0, hv0⟩ := hall loc0 hm
      simp only [if_true] at hv0
      subst hv0
      have hpre := hI2 new hh (l.erase loc0) (hnd.erase loc0) (by
        intro loc hloc
        have hx := (List.Nodup.mem_erase_iff hnd).mp hloc
        obtain ⟨hl, hf, hv⟩ := hall loc hx.2
        simp only [if_neg hx.1] at hv
        exact ⟨hl, ha loc hl hx.1 hf, hv⟩)
      have hlen : (l.erase loc0).length = l.length - 1 := List.length_erase_of_mem hm
      have hpos : 0 < l.length := List.length_pos_of_mem hm
      have := (hb hf0).2
      omega
    · have hallpre : ∀ loc ∈ l, L loc ∧ p0 (Keccak256Hash X (Keccak256Hash X loc)) = flag ∧
          r0 loc = h := by
        intro loc hloc
        have hx : loc ≠ loc0 := fun e => hm (e ▸ hloc)
        obtain ⟨hl, hf, hv⟩ := hall loc hloc
        simp only [if_neg hx] at hv
        exact ⟨hl, ha loc hl hx hf, hv⟩
      have hpre := hI2 h hh l hnd hallpre
      rcases hc h hh with hle | ⟨hold, hf0, hone⟩
      · omega
      · have := hI2 h hh (loc0 :: l) (List.nodup_cons.mpr ⟨hm, hnd⟩) (by
          intro loc hloc
          rcases List.mem_cons.mp hloc with e | e
          · subst e
            exact ⟨hL0, hf0, hold.symm⟩
          · exact hallpre loc e)
        simp only [List.length_cons] at this
        omega

theorem refCount_zero_word : (newCiphertextMetadata 0).refCount = 0 := rfl

/-- A committing SSTORE that is free of slot clashes keeps flags and reference counts
in agreement. -/
theorem coherent_sstoreStep (X : Ext) (contract : Address) (L H : Nat → Prop) (st : StateDB)
    (c : SstoreCall)
    (hP : CreateProtectedStorageContractAddress X contract ≠ contract)
    (hL : ∀ loc loc1, L loc → L loc1 →
      Keccak256Hash X (Keccak256Hash X loc) = Keccak256Hash X (Keccak256Hash X loc1) →
      loc = loc1)
    (hH : ∀ h h1, H h → H h1 → Keccak256Hash X h = Keccak256Hash X h1 → h = h1)
    (hLH : ∀ h loc, H h → L loc → Keccak256Hash X h ≠ Keccak256Hash X (Keccak256Hash X loc))
    (hI : coherent X L H (st (CreateProtectedStorageContractAddress X contract)) (st contract))
    (hclear : stepClear X contract L H st c) :
    coherent X L H
      (sstoreStep X contract st c (CreateProtectedStorageContractAddress X contract))
      (sstoreStep X contract st c contract) := by
  obtain ⟨P, hPdef⟩ : ∃ P, P = CreateProtectedStorageContractAddress X contract := ⟨_, rfl⟩
  simp only [stepClear, ← hPdef] at hclear
  rw [← hPdef] at hP hI ⊢
  obtain ⟨hL0, hgc, hps⟩ := hclear
  have hstate : ∀ a k, sstoreStep X contract st c a k =
      (execSstore X contract (c.env st) c.loc c.newVal).GetState a k := fun _ _ => rfl
  have hreg : sstoreStep X contract st c contract =
      fun loc => if loc = c.loc then c.newVal else st contract loc := by
    funext loc
    rw [hstate, execSstore_GetState_contract X contract (c.env st) c.loc c.newVal rfl
      (by rw [← hPdef]; exact Ne.symm hP)]
    rfl
  rw [hreg]
  by_cases hne : c.newVal = st contract c.loc
  · have hprot : sstoreStep X contract st c P = st P := by
      funext k
      rw [hstate, execSstore_eq X contract (c.env st) c.loc c.newVal rfl,
        SetState_GetState_other _ _ _ _ _ _ (Or.inl hP),
        if_neg (fun h => h.1 hne)]
      rfl
    have hreg2 : (fun loc => if loc = c.loc then c.newVal else st contract loc) =
        st contract := by
      funext loc
      by_cases h : loc = c.loc
      · rw [if_pos h, hne, h]
      · rw [if_neg h]
    rw [hprot, hreg2]
    exact hI
  · have hprot : ∀ k, sstoreStep X contract st c P k =
        (persistIfVerifiedCiphertext X (Keccak256Hash X (Keccak256Hash X c.loc)) c.newVal P
          (garbageCollectProtectedStorage X (Keccak256Hash X (Keccak256Hash X c.loc))
            (st contract c.loc) P (c.env st))).GetState P k := by
      intro k
      rw [hstate, execSstore_eq X contract (c.env st) c.loc c.newVal rfl,
        SetState_GetState_other _ _ _ _ _ _ (Or.inl hP),
        if_pos ⟨hne, rfl⟩, ← hPdef]
      rfl
    have hctx : ∀ handle, getVerifiedCiphertextFromEVM
        (garbageCollectProtectedStorage X (Keccak256Hash X (Keccak256Hash X c.loc))
          (st contract c.loc) P (c.env st)) handle =
        getVerifiedCiphertextFromEVM (c.env st) handle :=
      getVerified_sameContext (c.env st) _ (garbageCollect_sameContext X _ _ _ (c.env st))
    have hget : ∀ k, (c.env st).GetState P k = st P k := fun _ => rfl
    -- the flag slot of the location holds `FLAG` only with non-zero metadata
    have hpre : st P (Keccak256Hash X (Keccak256Hash X c.loc)) = flag →
        H (st contract c.loc) ∧ st P (Keccak256Hash X (st contract c.loc)) ≠ 0 := by
      intro hf
      have hh := hI.1 c.loc hL0 hf
      have := hI.2 (st contract c.loc) hh [c.loc] (List.nodup_singleton _) (by
        intro loc hloc
        rw [List.mem_singleton.mp hloc]
        exact ⟨hL0, hf, rfl⟩)
      refine ⟨hh, fun hz => ?_⟩
      rw [hz, refCount_zero_word] at this
      simp at this
    -- what garbage collection does to the metadata slot of a handle
    have hg : ∀ h, H h →
        (garbageCollectProtectedStorage X (Keccak256Hash X (Keccak256Hash X c.loc))
          (st contract c.loc) P (c.env st)).GetState P (Keccak256Hash X h) =
          st P (Keccak256Hash X h) ∨
        (h = st contract c.loc ∧ st P (Keccak256Hash X (Keccak256Hash X c.loc)) = flag ∧
          (newCiphertextMetadata (st P (Keccak256Hash X h))).refCount = 1) := by
      intro h hh
      by_cases hf : st P (Keccak256Hash X (Keccak256Hash X c.loc)) = flag
      · obtain ⟨hold, _⟩ := hpre hf
        obtain ⟨hw, hs⟩ := hgc hf h hh
        by_cases hrc : h = st contract c.loc ∧
            (newCiphertextMetadata (st P (Keccak256Hash X h))).refCount = 1
        · exact Or.inr ⟨hrc.1, hf, hrc.2⟩
        · left
          rw [garbageCollect_GetState_kept X _ _ P (c.env st) _ (hLH h c.loc hh hL0) hw
            (fun hk hone => hrc ⟨hH h _ hh hold hk, by
              rw [hH h _ hh hold hk]
              exact hone⟩)
            hs]
          rfl
      · left
        rw [garbageCollect_noop X _ _ P (c.env st) (Or.inl hf)]
        rfl
    apply coherent_step X L H (st P) (sstoreStep X contract st c P) (st contract) c.loc
      c.newVal hL0 hI
    · intro loc hl hx hf
      rw [hprot, persist_GetState_kept] at hf
      · exact garbageCollect_no_new_flag X _ _ P (c.env st) _ hf
      · intro v hv
        rw [hctx] at hv
        obtain ⟨hn, _, hsl⟩ := hps v hv
        exact ⟨fun e => hx (hL loc c.loc hl hL0 e), Ne.symm (hLH c.newVal loc hn hl),
          fun i hi => (hsl i hi).1 loc hl⟩
    · intro hf
      rw [hprot] at hf
      have hcleared := garbageCollect_flag_cleared X (Keccak256Hash X (Keccak256Hash X c.loc))
        (st contract c.loc) P (c.env st) (fun h => (hpre h).2)
      cases hv : getVerifiedCiphertextFromEVM (c.env st) c.newVal with
      | none =>
        rw [persist_unverified X _ _ P _ (by rw [hctx]; exact hv)] at hf
        exact absurd hf hcleared
      | some v =>
        obtain ⟨hn, hroom, _⟩ := hps v hv
        refine ⟨hn, ?_⟩
        rw [hprot]
        have hkeep : (garbageCollectProtectedStorage X (Keccak256Hash X (Keccak256Hash X c.loc))
            (st contract c.loc) P (c.env st)).GetState P (Keccak256Hash X c.newVal) =
            st P (Keccak256Hash X c.newVal) := by
          rcases hg c.newVal hn with h | h
          · exact h
          · exact absurd h.1 hne
        rw [persist_refCount X _ _ P _ v (by rw [hctx]; exact hv)
          (Ne.symm (hLH c.newVal c.loc hn hL0)) (by rw [hkeep]; exact hroom), hkeep]
    · intro h hh
      rcases hg h hh with hk | hk
      · left
        rw [hprot]
        cases hv : getVerifiedCiphertextFromEVM (c.env st) c.newVal with
        | none =>
          rw [persist_unverified X _ _ P _ (by rw [hctx]; exact hv), hk]
        | some v =>
          obtain ⟨hn, hroom, hsl⟩ := hps v hv
          by_cases hnew : h = c.newVal
          · subst hnew
            rw [persist_refCount X _ _ P _ v (by rw [hctx]; exact hv)
              (Ne.symm (hLH _ c.loc hn hL0)) (by rw [hk]; exact hroom), hk]
            omega
          · rw [persist_GetState_kept, hk]
            intro v1 hv1
            rw [hctx, hv] at hv1
            have hv2 : v1 = v := (Option.some.inj hv1).symm
            subst hv2
            exact ⟨hLH h c.loc hh hL0, fun e => hnew (hH h c.newVal hh hn e),
              fun i hi => (hsl i hi).2 h hh⟩
      · exact Or.inr hk

theorem coherent_runSstores (X : Ext) (contract : Address) (L H : Nat → Prop)
    (hP : CreateProtectedStorageContractAddress X contract ≠ contract)
    (hL : ∀ loc loc1, L loc → L loc1 →
      Keccak256Hash X (Keccak256Hash X loc) = Keccak256Hash X (Keccak256Hash X loc1) →
      loc = loc1)
    (hH : ∀ h h1, H h → H h1 → Keccak256Hash X h = Keccak256Hash X h1 → h = h1)
    (hLH : ∀ h loc, H h → L loc → Keccak256Hash X h ≠ Keccak256Hash X (Keccak256Hash X loc))
    (calls : List SstoreCall) :
    ∀ st : StateDB,
      coherent X L H (st (CreateProtectedStorageContractAddress X contract)) (st contract) →
      runClear X contract L H st calls →
      coherent X L H
        (runSstores X contract st calls (CreateProtectedStorageContractAddress X contract))
        (runSstores X contract st calls contract) := by
  induction calls with
  | nil => intro st h _; exact h
  | cons c cs ih =>
    intro st h hrun
    exact ih _ (coherent_sstoreStep X contract L H st c hP hL hH hLH h hrun.1) hrun.2

/-- With no `FLAG` in the protected storage, flags and reference counts agree. -/
theorem coherent_of_no_flag (X : Ext) (L H : Nat → Prop) (prot reg : Nat → Nat)
    (h0 : ∀ k, prot k ≠ flag) : coherent X L H prot reg := by
  constructor
  · intro loc _ hf
    exact absurd hf (h0 _)
  · intro h _ l _ hall
    cases l with
    | nil => simp
    | cons a l => exact absurd (hall a (List.mem_cons_self a l)).2.1 (h0 _)

/-- After a committing, non-read-only SSTORE that changes the value at `loc`, for the
slot just written: the flag slot holds `FLAG` if and only if the new value is verified
at the current depth, and then the metadata slot of the new value is non-zero.
Conditions: beforehand the flag slot held `FLAG` only together with non-zero metadata
for the old value; the flag location is none of the metadata and ciphertext slots of
the new value; the reference count of the new value is not `2 ^ 64 - 1`. -/
theorem execSstore_flag_iff_verified (X : Ext) (contract : Address) (env : EVMEnvironment)
    (loc newVal : Nat)
    (hro : env.isReadOnly = false) (hcom : env.isCommitting = true)
    (hne : newVal ≠ env.GetState contract loc)
    (hP : contract ≠ CreateProtectedStorageContractAddress X contract)
    (hpre : env.GetState (CreateProtectedStorageContractAddress X contract)
        (Keccak256Hash X (Keccak256Hash X loc)) = flag →
      env.GetState (CreateProtectedStorageContractAddress X contract)
        (Keccak256Hash X (env.GetState contract loc)) ≠ 0)
    (hclash : ∀ v, getVerifiedCiphertextFromEVM env newVal = some v →
      Keccak256Hash X (Keccak256Hash X loc) ≠ Keccak256Hash X newVal ∧
      ∀ k, k < slabCount v.ciphertext.serialization.length →
        Keccak256Hash X (Keccak256Hash X loc) ≠ (Keccak256Hash X newVal + 1 + k) % 2 ^ 256)
    (hroom : (newCiphertextMetadata
      ((garbageCollectProtectedStorage X (Keccak256Hash X (Keccak256Hash X loc))
        (env.GetState contract loc) (CreateProtectedStorageContractAddress X contract)
        env).GetState (CreateProtectedStorageContractAddress X contract)
        (Keccak256Hash X newVal))).refCount ≠ 2 ^ 64 - 1) :
    (execSstore X contract env loc newVal).GetState contract loc = newVal ∧
    ((execSstore X contract env loc newVal).GetState
        (CreateProtectedStorageContractAddress X contract)
        (Keccak256Hash X (Keccak256Hash X loc)) = flag ↔
      getVerifiedCiphertextFromEVM env newVal ≠ none) ∧
    ((execSstore X contract env loc newVal).GetState
        (CreateProtectedStorageContractAddress X contract)
        (Keccak256Hash X (Keccak256Hash X loc)) = flag →
      (execSstore X contract env loc newVal).GetState
        (CreateProtectedStorageContractAddress X contract)
        (Keccak256Hash X ((execSstore X contract env loc newVal).GetState contract loc)) ≠ 0) := by
  have hval : (execSstore X contract env loc newVal).GetState contract loc = newVal := by
    rw [execSstore_GetState_contract X contract env loc newVal hro hP, if_pos rfl]
  rw [hval]
  refine ⟨rfl, ?_⟩
  rw [execSstore_eq X contract env loc newVal hro, if_pos ⟨hne, hcom⟩]
  have hPs : ∀ key, CreateProtectedStorageContractAddress X contract ≠ contract ∨ key ≠ loc :=
    fun _ => Or.inl (Ne.symm hP)
  rw [SetState_GetState_other _ _ _ _ _ _ (hPs _), SetState_GetState_other _ _ _ _ _ _ (hPs _)]
  have hgc := garbageCollect_flag_cleared X (Keccak256Hash X (Keccak256Hash X loc))
    (env.GetState contract loc) (CreateProtectedStorageContractAddress X contract) env hpre
  have hctx := getVerified_sameContext env _
    (garbageCollect_sameContext X (Keccak256Hash X (Keccak256Hash X loc))
      (env.GetState contract loc) (CreateProtectedStorageContractAddress X contract) env) newVal
  cases hv : getVerifiedCiphertextFromEVM env newVal with
  | none =>
    rw [hv] at hctx
    rw [persist_unverified _ _ _ _ _ hctx]
    exact ⟨⟨fun h => absurd h hgc, fun h => absurd rfl h⟩, fun h => absurd h hgc⟩
  | some v =>
    rw [hv] at hctx
    have hc := hclash v hv
    have hflag := persist_flag X (Keccak256Hash X (Keccak256Hash X loc)) newVal
      (CreateProtectedStorageContractAddress X contract) _ v hctx hc.1 hc.2
    have hmeta := persist_metadata_ne_zero X (Keccak256Hash X (Keccak256Hash X loc)) newVal
      (CreateProtectedStorageContractAddress X contract) _ v hctx hc.1 hroom
    exact ⟨⟨fun _ => by simp, fun _ => hflag⟩, fun _ => hmeta⟩

/-! ## The claims -/

/-- C1 (amended): when `persistIfVerifiedCiphertext` is called on a handle that is
verified at the current depth and whose metadata slot `Keccak256(handle)` is zero,
the metadata slot afterwards decodes to `refCount = 1` and the ciphertext's type; and
the flag slot holds `FLAG` provided the flag location is neither the metadata slot
nor one of the ciphertext slots `Keccak256(handle) + 1 + k` that the call writes. -/
theorem persistIfVerifiedCiphertext_new_flag_and_metadata (X : Ext)
    (flagHandleLocation handle : Nat) (P : Address) (env : EVMEnvironment)
    (v : verifiedCiphertext)
    (hv : getVerifiedCiphertextFromEVM env handle = some v)
    (hz : env.GetState P (Keccak256Hash X handle) = 0) :
    (newCiphertextMetadata ((persistIfVerifiedCiphertext X flagHandleLocation handle P env).GetState
        P (Keccak256Hash X handle))).refCount = 1 ∧
    (newCiphertextMetadata ((persistIfVerifiedCiphertext X flagHandleLocation handle P env).GetState
        P (Keccak256Hash X handle))).fheUintType = v.ciphertext.fheUintType ∧
    (flagHandleLocation ≠ Keccak256Hash X handle →
      (∀ k, k < slabCount v.ciphertext.serialization.length →
        flagHandleLocation ≠ (Keccak256Hash X handle + 1 + k) % 2 ^ 256) →
      (persistIfVerifiedCiphertext X flagHandleLocation handle P env).GetState
        P flagHandleLocation = flag) := by
  rw [persist_new X flagHandleLocation handle P env v hv hz]
  simp only [SetState_GetState_same, newCiphertextMetadata_serialize]
  refine ⟨by norm_num, trivial, ?_⟩
  intro hK hS
  rw [SetState_GetState_other _ _ _ _ _ _ (Or.inr hK),
    writeSlabs_GetState_other P _ _ _ P flagHandleLocation (addUint64One_lt _)]
  · simp
  · right
    intro j hj
    rw [slabs_length] at hj
    have := hS j hj
    unfold addUint64One
    omega

/-- C1, witness: the 33-byte ciphertext with handle 7, flag location 99. -/
theorem persistIfVerifiedCiphertext_new_flag_and_metadata_witness :
    (newCiphertextMetadata ((persistIfVerifiedCiphertext demoExt 99 7 21 demoEnv).GetState
        21 (Keccak256Hash demoExt 7))).refCount = 1 ∧
    (newCiphertextMetadata ((persistIfVerifiedCiphertext demoExt 99 7 21 demoEnv).GetState
        21 (Keccak256Hash demoExt 7))).fheUintType = 2 ∧
    (persistIfVerifiedCiphertext demoExt 99 7 21 demoEnv).GetState 21 99 = flag :=
  have h := persistIfVerifiedCiphertext_new_flag_and_metadata demoExt 99 7 21 demoEnv
    demoVerified rfl rfl
  ⟨h.1, h.2.1, h.2.2 (by decide) (by decide)⟩

/-- C1, counterexample: with the flag location on the first ciphertext slot
(`Keccak256(handle) + 1`), or on the metadata slot, the call satisfies the claim's
conditions (handle verified, metadata slot zero) and the flag slot does not hold
`FLAG` afterwards: it holds the first 32 ciphertext bytes, or the metadata. -/
theorem persistIfVerifiedCiphertext_flag_clash :
    getVerifiedCiphertextFromEVM demoEnv 7 = some demoVerified ∧
    demoEnv.GetState 21 (Keccak256Hash demoExt 7) = 0 ∧
    (persistIfVerifiedCiphertext demoExt (Keccak256Hash demoExt 7 + 1) 7 21 demoEnv).GetState
      21 (Keccak256Hash demoExt 7 + 1) = BytesToHash (List.replicate 32 7) ∧
    (persistIfVerifiedCiphertext demoExt (Keccak256Hash demoExt 7 + 1) 7 21 demoEnv).GetState
      21 (Keccak256Hash demoExt 7 + 1) ≠ flag ∧
    (persistIfVerifiedCiphertext demoExt (Keccak256Hash demoExt 7) 7 21 demoEnv).GetState
      21 (Keccak256Hash demoExt 7) ≠ flag :=
  ⟨rfl, rfl, by decide, by decide, by decide⟩

/-- C2 (amended): when `persistIfVerifiedCiphertext` is called on a handle that is
verified at the current depth, whose metadata slot is non-zero, with a flag location
other than the metadata slot, it rewrites the metadata with `refCount` increased by
one modulo `2 ^ 64` (by exactly one unless `refCount` was `2 ^ 64 - 1`) and with
`length` and type unchanged, sets the flag slot to `FLAG`, and leaves every other
slot (so every ciphertext slot) as it was. -/
theorem persistIfVerifiedCiphertext_existing_bumps_refCount (X : Ext)
    (flagHandleLocation handle : Nat) (P : Address) (env : EVMEnvironment)
    (v : verifiedCiphertext)
    (hv : getVerifiedCiphertextFromEVM env handle = some v)
    (hnz : env.GetState P (Keccak256Hash X handle) ≠ 0)
    (hflag : flagHandleLocation ≠ Keccak256Hash X handle) :
    (newCiphertextMetadata ((persistIfVerifiedCiphertext X flagHandleLocation handle P env).GetState
        P (Keccak256Hash X handle))).refCount =
      ((newCiphertextMetadata (env.GetState P (Keccak256Hash X handle))).refCount + 1) % 2 ^ 64 ∧
    ((newCiphertextMetadata (env.GetState P (Keccak256Hash X handle))).refCount ≠ 2 ^ 64 - 1 →
      (newCiphertextMetadata ((persistIfVerifiedCiphertext X flagHandleLocation handle P env).GetState
          P (Keccak256Hash X handle))).refCount =
        (newCiphertextMetadata (env.GetState P (Keccak256Hash X handle))).refCount + 1) ∧
    (newCiphertextMetadata ((persistIfVerifiedCiphertext X flagHandleLocation handle P env).GetState
        P (Keccak256Hash X handle))).length =
      (newCiphertextMetadata (env.GetState P (Keccak256Hash X handle))).length ∧
    (newCiphertextMetadata ((persistIfVerifiedCiphertext X flagHandleLocation handle P env).GetState
        P (Keccak256Hash X handle))).fheUintType =
      (newCiphertextMetadata (env.GetState P (Keccak256Hash X handle))).fheUintType ∧
    (persistIfVerifiedCiphertext X flagHandleLocation handle P env).GetState
      P flagHandleLocation = flag ∧
    (∀ (a : Address) (key : Nat),
      a ≠ P ∨ (key ≠ flagHandleLocation ∧ key ≠ Keccak256Hash X handle) →
      (persistIfVerifiedCiphertext X flagHandleLocation handle P env).GetState a key =
        env.GetState a key) := by
  rw [persist_existing X flagHandleLocation handle P env v hv hnz]
  have hnew : (env.SetState P flagHandleLocation flag).GetState P (Keccak256Hash X handle) =
      env.GetState P (Keccak256Hash X handle) :=
    SetState_GetState_other _ _ _ _ _ _ (Or.inr (Ne.symm hflag))
  rw [hnew]
  simp only [SetState_GetState_same, newCiphertextMetadata_serialize]
  have hlt : (newCiphertextMetadata (env.GetState P (Keccak256Hash X handle))).refCount
      < 2 ^ 64 := Nat.mod_lt _ (by norm_num)
  have hlen : (newCiphertextMetadata (env.GetState P (Keccak256Hash X handle))).length
      < 2 ^ 64 := Nat.mod_lt _ (by norm_num)
  refine ⟨by omega, fun h => by omega, Nat.mod_eq_of_lt hlen, trivial, ?_, ?_⟩
  · rw [SetState_GetState_other _ _ _ _ _ _ (Or.inr hflag)]
    simp
  · intro a key h
    rw [SetState_GetState_other, SetState_GetState_other]
    · rcases h with h | h
      · exact Or.inl h
      · exact Or.inr h.1
    · rcases h with h | h
      · exact Or.inl h
      · exact Or.inr h.2

/-- C2, witness: handle 7 with the record `{refCount 1, length 33, type 2}` already in
its metadata slot, flag location 99. -/
theorem persistIfVerifiedCiphertext_existing_bumps_refCount_witness :
    (newCiphertextMetadata ((persistIfVerifiedCiphertext demoExt 99 7 21
        (demoEnvWithMetadata 1)).GetState 21 (Keccak256Hash demoExt 7))).refCount = 2 ∧
    (persistIfVerifiedCiphertext demoExt 99 7 21 (demoEnvWithMetadata 1)).GetState 21 99 = flag :=
  have h := persistIfVerifiedCiphertext_existing_bumps_refCount demoExt 99 7 21
    (demoEnvWithMetadata 1) demoVerified rfl (by decide) (by decide)
  ⟨h.2.1 (by decide), h.2.2.2.2.1⟩

/-- C2, counterexample: (a) with `refCount = 2 ^ 64 - 1` in the metadata slot the
increment wraps around and the rewritten record has `refCount = 0`, not
`refCount + 1`; (b) with the flag location on the metadata slot the flag slot does not
hold `FLAG` afterwards.  Both calls satisfy the claim's conditions (handle verified,
metadata slot non-zero). -/
theorem persistIfVerifiedCiphertext_refCount_wraps :
    getVerifiedCiphertextFromEVM (demoEnvWithMetadata (2 ^ 64 - 1)) 7 = some demoVerified ∧
    (demoEnvWithMetadata (2 ^ 64 - 1)).GetState 21 (Keccak256Hash demoExt 7) ≠ 0 ∧
    (newCiphertextMetadata ((demoEnvWithMetadata (2 ^ 64 - 1)).GetState 21
        (Keccak256Hash demoExt 7))).refCount = 2 ^ 64 - 1 ∧
    (newCiphertextMetadata ((persistIfVerifiedCiphertext demoExt 99 7 21
        (demoEnvWithMetadata (2 ^ 64 - 1))).GetState 21 (Keccak256Hash demoExt 7))).refCount = 0 ∧
    (demoEnvWithMetadata 1).GetState 21 (Keccak256Hash demoExt 7) ≠ 0 ∧
    (persistIfVerifiedCiphertext demoExt (Keccak256Hash demoExt 7) 7 21
        (demoEnvWithMetadata 1)).GetState 21 (Keccak256Hash demoExt 7) ≠ flag :=
  ⟨rfl, by decide, by decide, by decide, by decide, by decide⟩

/-- C3 (the code at the claim's inputs): for a handle whose metadata has
`refCount > 1` and whose flag slot holds `FLAG`, `garbageCollectProtectedStorage`
writes the decremented record to the slot whose key is the old metadata word
(`existingMetadataHash`), not to `Keccak256(handle)`: unless that word happens to be
its own key, the metadata slot keeps its word, `refCount` included.  The flag slot is
zeroed (unless it is the slot written by mistake) and every slot other than these
two, so every ciphertext slot, is unchanged. -/
theorem garbageCollect_decrement_misses_metadata_slot (X : Ext)
    (flagHandleLocation handle : Nat) (P : Address) (env : EVMEnvironment)
    (hnz : env.GetState P (Keccak256Hash X handle) ≠ 0)
    (hflag : env.GetState P flagHandleLocation = flag)
    (hrc : 1 < (newCiphertextMetadata (env.GetState P (Keccak256Hash X handle))).refCount)
    (hkey : env.GetState P (Keccak256Hash X handle) ≠ Keccak256Hash X handle)
    (hfk : flagHandleLocation ≠ Keccak256Hash X handle) :
    (garbageCollectProtectedStorage X flagHandleLocation handle P env).GetState P
        (Keccak256Hash X handle) = env.GetState P (Keccak256Hash X handle) ∧
    (garbageCollectProtectedStorage X flagHandleLocation handle P env).GetState P
        (env.GetState P (Keccak256Hash X handle)) =
      ciphertextMetadata.serialize
        { newCiphertextMetadata (env.GetState P (Keccak256Hash X handle)) with
          refCount :=
            (newCiphertextMetadata (env.GetState P (Keccak256Hash X handle))).refCount - 1 } ∧
    (flagHandleLocation ≠ env.GetState P (Keccak256Hash X handle) →
      (garbageCollectProtectedStorage X flagHandleLocation handle P env).GetState P
        flagHandleLocation = 0) ∧
    (∀ (a : Address) (key : Nat),
      a ≠ P ∨ (key ≠ flagHandleLocation ∧ key ≠ env.GetState P (Keccak256Hash X handle)) →
      (garbageCollectProtectedStorage X flagHandleLocation handle P env).GetState a key =
        env.GetState a key) := by
  have h1 : ¬ (newCiphertextMetadata (env.GetState P (Keccak256Hash X handle))).refCount = 1 := by
    omega
  have hgc : garbageCollectProtectedStorage X flagHandleLocation handle P env =
      (env.SetState P flagHandleLocation zero).SetState P
        (env.GetState P (Keccak256Hash X handle))
        (ciphertextMetadata.serialize
          { newCiphertextMetadata (env.GetState P (Keccak256Hash X handle)) with
            refCount :=
              (newCiphertextMetadata (env.GetState P (Keccak256Hash X handle))).refCount - 1 }) := by
    unfold garbageCollectProtectedStorage
    simp only [hflag, ne_eq, not_true_eq_false, if_false, if_neg h1, if_pos hrc, if_pos hnz]
  rw [hgc]
  refine ⟨?_, by simp, ?_, ?_⟩
  · rw [SetState_GetState_other _ _ _ _ _ _ (Or.inr (Ne.symm hkey)),
      SetState_GetState_other _ _ _ _ _ _ (Or.inr (Ne.symm hfk))]
  · intro hne
    rw [SetState_GetState_other _ _ _ _ _ _ (Or.inr hne)]
    simp [zero]
  · intro a key h
    rw [SetState_GetState_other, SetState_GetState_other]
    · rcases h with h | h
      · exact Or.inl h
      · exact Or.inr h.1
    · rcases h with h | h
      · exact Or.inl h
      · exact Or.inr h.2

/-- C3, witness: after two SSTOREs of handle 7 (locations 1 and 2) its metadata has
`refCount = 2`; garbage collection for location 1 leaves `refCount = 2` in the
metadata slot. -/
theorem garbageCollect_decrement_misses_metadata_slot_witness :
    (newCiphertextMetadata (demoStored12.GetState 21 (Keccak256Hash demoExt 7))).refCount = 2 ∧
    (newCiphertextMetadata ((garbageCollectProtectedStorage demoExt
        (Keccak256Hash demoExt (Keccak256Hash demoExt 1)) 7 21 demoStored12).GetState 21
        (Keccak256Hash demoExt 7))).refCount = 2 :=
  ⟨by decide,
    by
      rw [(garbageCollect_decrement_misses_metadata_slot demoExt
        (Keccak256Hash demoExt (Keccak256Hash demoExt 1)) 7 21 demoStored12
        (by decide) (by decide) (by decide) (by decide) (by decide)).1]
      decide⟩

/-- C4 (the code at the claim's inputs): for a handle whose metadata has
`refCount = 1` and a `length` of at least 32 that is not a multiple of 32, with the
flag slot holding `FLAG`, `garbageCollectProtectedStorage` zeroes `length / 32`
ciphertext slots only: the slot `Keccak256(handle) + ⌈length / 32⌉`, which holds the
last bytes of the ciphertext, keeps its word. -/
theorem garbageCollect_leaves_last_slot (X : Ext)
    (flagHandleLocation handle : Nat) (P : Address) (env : EVMEnvironment)
    (hnz : env.GetState P (Keccak256Hash X handle) ≠ 0)
    (hflag : env.GetState P flagHandleLocation = flag)
    (hrc : (newCiphertextMetadata (env.GetState P (Keccak256Hash X handle))).refCount = 1)
    (hlen : 32 ≤ (newCiphertextMetadata (env.GetState P (Keccak256Hash X handle))).length)
    (hmod : (newCiphertextMetadata (env.GetState P (Keccak256Hash X handle))).length % 32 ≠ 0)
    (hfl : flagHandleLocation ≠ (Keccak256Hash X handle +
      ((newCiphertextMetadata (env.GetState P (Keccak256Hash X handle))).length + 31) / 32)
        % 2 ^ 256) :
    (garbageCollectProtectedStorage X flagHandleLocation handle P env).GetState P
        ((Keccak256Hash X handle +
          ((newCiphertextMetadata (env.GetState P (Keccak256Hash X handle))).length + 31) / 32)
            % 2 ^ 256) =
      env.GetState P
        ((Keccak256Hash X handle +
          ((newCiphertextMetadata (env.GetState P (Keccak256Hash X handle))).length + 31) / 32)
            % 2 ^ 256) := by
  have hK := Keccak256Hash_lt X handle
  have hL : (newCiphertextMetadata (env.GetState P (Keccak256Hash X handle))).length
      < 2 ^ 64 := Nat.mod_lt _ (by norm_num)
  generalize hLdef : (newCiphertextMetadata (env.GetState P (Keccak256Hash X handle))).length
    = L at hlen hmod hfl hL ⊢
  have hgc : garbageCollectProtectedStorage X flagHandleLocation handle P env =
      zeroCiphertextSlots P (L / 32) (addUint64One (Keccak256Hash X handle))
        ((env.SetState P flagHandleLocation zero).SetState P (Keccak256Hash X handle) zero) := by
    unfold garbageCollectProtectedStorage
    have hnot : ¬ (L > 0 ∧ L < 32) := by omega
    simp only [hflag, ne_eq, not_true_eq_false, if_false, if_pos hrc, if_pos hnz, hLdef,
      if_neg hnot]
  rw [hgc, zeroCiphertextSlots_GetState_notin P _ _ _ _ (addUint64One_lt _)]
  · rw [SetState_GetState_other _ _ _ _ _ _ (Or.inr (by omega)),
      SetState_GetState_other _ _ _ _ _ _ (Or.inr (Ne.symm hfl))]
  · intro i hi
    unfold addUint64One
    omega

/-- C4, witness: after SSTORE of the 33-byte ciphertext's handle 7 to location 1, the
metadata is `{refCount 1, length 33, type 2}` and the slot `Keccak256(7) + 2` holds
byte 33; garbage collection for location 1 leaves that slot as it is. -/
theorem garbageCollect_leaves_last_slot_witness :
    (garbageCollectProtectedStorage demoExt (Keccak256Hash demoExt (Keccak256Hash demoExt 1))
        7 21 demoStored1).GetState 21 ((Keccak256Hash demoExt 7 + (33 + 31) / 32) % 2 ^ 256) =
      BytesToHash (9 :: List.replicate 31 0) :=
  (garbageCollect_leaves_last_slot demoExt (Keccak256Hash demoExt (Keccak256Hash demoExt 1))
    7 21 demoStored1 (by decide) (by decide) (by decide) (by decide) (by decide)
    (by decide)).trans (by decide)

/-- C4, the whole scenario run: SSTORE of handle 7 (33 bytes, `refCount` 1) to location
1, then SSTORE of 0 to location 1.  The flag slot, the metadata slot and the first
ciphertext slot are zero afterwards; the second ciphertext slot,
`Keccak256(7) + ⌈33 / 32⌉`, still holds byte 33 of the ciphertext. -/
theorem sstore_overwrite_leaves_last_slot :
    demoStored1.GetState 10 1 = 7 ∧
    demoStored1.GetState 21 (Keccak256Hash demoExt (Keccak256Hash demoExt 1)) = flag ∧
    newCiphertextMetadata (demoStored1.GetState 21 (Keccak256Hash demoExt 7)) =
      { refCount := 1, length := 33, fheUintType := 2 } ∧
    demoCollected.GetState 21 (Keccak256Hash demoExt (Keccak256Hash demoExt 1)) = 0 ∧
    demoCollected.GetState 21 (Keccak256Hash demoExt 7) = 0 ∧
    demoCollected.GetState 21 (Keccak256Hash demoExt 7 + 1) = 0 ∧
    hashBytes (demoCollected.GetState 21 (Keccak256Hash demoExt 7 + 2)) =
      9 :: List.replicate 31 0 :=
  ⟨by decide, by decide, by decide, by decide, by decide, by decide, by decide⟩

/-- C5 (the code at a reachable state): from all-zero storage, SSTORE of handle 7 to
locations 1 and 2 and then SSTORE of 0 to location 1 (all committing).  Location 2
is then the only slot of the contract that holds the handle with its flag slot on
`FLAG`, and the metadata of the handle still says `refCount = 2`. -/
theorem refCount_exceeds_flagged_slots :
    (newCiphertextMetadata (demoStored2.GetState 21 (Keccak256Hash demoExt 7))).refCount = 2 ∧
    ∀ loc : Nat,
      (demoStored2.GetState 10 loc = 7 ∧
        demoStored2.GetState 21 (Keccak256Hash demoExt (Keccak256Hash demoExt loc)) = flag) ↔
      loc = 2 := by
  refine ⟨by decide, fun loc => ⟨fun h => ?_, fun h => ?_⟩⟩
  · have h1 := h.1
    unfold demoStored2 demoStored12 demoStored1 at h1
    rw [execSstore_GetState_contract _ _ _ _ _ (by decide) (by decide),
      execSstore_GetState_contract _ _ _ _ _ (by decide) (by decide),
      execSstore_GetState_contract _ _ _ _ _ (by decide) (by decide)] at h1
    by_cases h2 : loc = 2
    · exact h2
    · by_cases h3 : loc = 1
      · simp [h3] at h1
      · simp [h2, h3, demoEnv, EVMEnvironment.GetState] at h1
  · subst h
    exact ⟨by decide, by decide⟩

/-- C6 (amended): start from a protected storage `P(C)` that is all zero and run any
sequence of committing SSTOREs of the contract `C`.  Afterwards, for every location
`loc` of `C`: if the flag slot `Keccak256(Keccak256(loc))` holds `FLAG`, the metadata
slot `Keccak256(GetState(C, loc))` is non-zero.  The locations `L` and the handles `H`
of the statement are any sets free of slot clashes: `P(C)` is another account than
`C`; two locations of `L` have two flag slots, two handles of `H` two metadata slots,
and no metadata slot of a handle is the flag slot of a location; every call is at a
location of `L`, stores only handles of `H` as verified ciphertexts, and writes no
flag slot of `L` and no metadata slot of `H` through a ciphertext slot or through the
key of the misplaced decrement (`runClear`); no reference count reaches `2 ^ 64`.
The converse direction of the claim is not part of the statement: a value stored
while it is not verified gets no `FLAG` whatever its metadata slot holds. -/
theorem flag_implies_metadata_along_run (X : Ext) (contract : Address) (L H : Nat → Prop)
    (calls : List SstoreCall) (st : StateDB)
    (hP : CreateProtectedStorageContractAddress X contract ≠ contract)
    (hL : ∀ loc loc1, L loc → L loc1 →
      Keccak256Hash X (Keccak256Hash X loc) = Keccak256Hash X (Keccak256Hash X loc1) →
      loc = loc1)
    (hH : ∀ h h1, H h → H h1 → Keccak256Hash X h = Keccak256Hash X h1 → h = h1)
    (hLH : ∀ h loc, H h → L loc → Keccak256Hash X h ≠ Keccak256Hash X (Keccak256Hash X loc))
    (h0 : ∀ k, st (CreateProtectedStorageContractAddress X contract) k = 0)
    (hrun : runClear X contract L H st calls) :
    ∀ loc, L loc →
      runSstores X contract st calls (CreateProtectedStorageContractAddress X contract)
        (Keccak256Hash X (Keccak256Hash X loc)) = flag →
      runSstores X contract st calls (CreateProtectedStorageContractAddress X contract)
        (Keccak256Hash X (runSstores X contract st calls contract loc)) ≠ 0 := by
  intro loc hl hf
  have hI := coherent_runSstores X contract L H hP hL hH hLH calls st
    (coherent_of_no_flag X L H _ _ (fun k => by
      rw [h0 k]
      decide)) hrun
  have hh := hI.1 loc hl hf
  have hcount := hI.2 _ hh [loc] (List.nodup_singleton _) (by
    intro loc1 hloc1
    rw [List.mem_singleton.mp hloc1]
    exact ⟨hl, hf, rfl⟩)
  intro hz
  rw [hz, refCount_zero_word] at hcount
  simp at hcount

/-- C6, witness: from all-zero storage, SSTORE of the verified handle 7 to locations 1
and 2 of contract 10, then SSTORE of 0 to location 1.  Location 2 still holds the
handle with `FLAG` in its flag slot, and the metadata slot of the handle is
non-zero. -/
theorem flag_implies_metadata_along_run_witness :
    runSstores demoExt 10 demoZeroState demoRun 10 2 = 7 ∧
    runSstores demoExt 10 demoZeroState demoRun 21
      (Keccak256Hash demoExt (Keccak256Hash demoExt 2)) = flag ∧
    runSstores demoExt 10 demoZeroState demoRun 21
      (Keccak256Hash demoExt (runSstores demoExt 10 demoZeroState demoRun 10 2)) ≠ 0 := by
  have hK : Keccak256Hash demoExt 7 = 7500 := by decide
  have hF1 : Keccak256Hash demoExt (Keccak256Hash demoExt 1) = 1500500 := by decide
  have hF2 : Keccak256Hash demoExt (Keccak256Hash demoExt 2) = 2500500 := by decide
  have hslab : slabCount demoVerified.ciphertext.serialization.length = 2 := by decide
  have hstore : ∀ (st : StateDB) (loc : Nat),
      (newCiphertextMetadata (st 21 7500)).refCount ≠ 2 ^ 64 - 1 →
      (loc = 1 ∨ loc = 2) →
      (st 21 (Keccak256Hash demoExt (Keccak256Hash demoExt loc)) = flag → False) →
      stepClear demoExt 10 (fun l => l = 1 ∨ l = 2) (fun h => h = 7) st (demoCall loc 7) := by
    intro st loc hroom hloc hnf
    refine ⟨hloc, fun hf => absurd hf hnf, fun v hv => ?_⟩
    have hget : getVerifiedCiphertextFromEVM ((demoCall loc 7).env st) 7 =
        some demoVerified := rfl
    have hv2 : getVerifiedCiphertextFromEVM ((demoCall loc 7).env st) 7 = some v := hv
    rw [hget] at hv2
    obtain rfl := Option.some.inj hv2
    refine ⟨rfl, ?_, fun i hi => ⟨?_, ?_⟩⟩
    · show (newCiphertextMetadata (st 21 (Keccak256Hash demoExt 7))).refCount ≠ 2 ^ 64 - 1
      rw [hK]
      exact hroom
    · rw [hslab] at hi
      intro l hl
      show Keccak256Hash demoExt (Keccak256Hash demoExt l) ≠
        (Keccak256Hash demoExt 7 + 1 + i) % 2 ^ 256
      rw [hK]
      rcases hl with hl | hl <;> subst hl
      · rw [hF1]; omega
      · rw [hF2]; omega
    · rw [hslab] at hi
      intro h hh
      show Keccak256Hash demoExt h ≠ (Keccak256Hash demoExt 7 + 1 + i) % 2 ^ 256
      rw [hh, hK]
      omega
  have hzero : ∀ st : StateDB, st 10 1 = 7 →
      ((newCiphertextMetadata (st 21 7500)).length + 31) / 32 = 2 →
      st 21 7500 ≠ 7500 →
      stepClear demoExt 10 (fun l => l = 1 ∨ l = 2) (fun h => h = 7) st (demoCall 1 0) := by
    intro st hold hlen hw
    refine ⟨Or.inl rfl, fun _ h hh => ?_, fun v hv => ?_⟩
    · show Keccak256Hash demoExt h ≠ st 21 (Keccak256Hash demoExt (st 10 1)) ∧
        ∀ i, i < ((newCiphertextMetadata
            (st 21 (Keccak256Hash demoExt (st 10 1)))).length + 31) / 32 →
          Keccak256Hash demoExt h ≠ (Keccak256Hash demoExt (st 10 1) + 1 + i) % 2 ^ 256
      rw [hh, hold, hK, hlen]
      exact ⟨Ne.symm hw, fun i hi => by omega⟩
    · have hget : getVerifiedCiphertextFromEVM ((demoCall 1 0).env st) 0 = none := rfl
      have hv2 : getVerifiedCiphertextFromEVM ((demoCall 1 0).env st) 0 = some v := hv
      rw [hget] at hv2
      cases hv2
  have hL : ∀ loc loc1 : Nat, (loc = 1 ∨ loc = 2) → (loc1 = 1 ∨ loc1 = 2) →
      Keccak256Hash demoExt (Keccak256Hash demoExt loc) =
        Keccak256Hash demoExt (Keccak256Hash demoExt loc1) → loc = loc1 := by
    intro loc loc1 hl hl1 he
    rcases hl with hl | hl <;> rcases hl1 with hl1 | hl1 <;> subst hl <;> subst hl1
    · rfl
    · rw [hF1, hF2] at he
      omega
    · rw [hF1, hF2] at he
      omega
    · rfl
  have hLH : ∀ h loc : Nat, h = 7 → (loc = 1 ∨ loc = 2) →
      Keccak256Hash demoExt h ≠ Keccak256Hash demoExt (Keccak256Hash demoExt loc) := by
    intro h loc hh hl
    rw [hh, hK]
    rcases hl with hl | hl <;> subst hl
    · rw [hF1]; omega
    · rw [hF2]; omega
  exact ⟨by decide, by decide,
    flag_implies_metadata_along_run demoExt 10 (fun l => l = 1 ∨ l = 2) (fun h => h = 7)
      demoRun demoZeroState (by decide) hL (fun h h1 hh hh1 _ => hh.trans hh1.symm) hLH
      (fun _ => rfl)
      ⟨hstore _ 1 (by decide) (Or.inl rfl) (by decide),
       hstore _ 2 (by decide) (Or.inr rfl) (by decide),
       hzero _ (by decide) (by decide) (by decide),
       trivial⟩
      2 (Or.inr rfl) (by decide)⟩

/-- C6, counterexample: handle 7 has been persisted through location 1 (its metadata
slot is non-zero).  In a later transaction, where the handle is not verified, a
committing SSTORE writes the same 32 bytes to location 3: the call returns no error,
location 3 holds the value, its metadata slot is non-zero, and the flag slot of
location 3 does not hold `FLAG`. -/
theorem unverified_store_of_persisted_handle :
    getVerifiedCiphertextFromEVM demoLater 7 = none ∧
    (OpSstore demoExt demoLater 10 [3, 7]).isSome = true ∧
    (execSstore demoExt 10 demoLater 3 7).GetState 10 3 = 7 ∧
    (execSstore demoExt 10 demoLater 3 7).GetState 21
      (Keccak256Hash demoExt ((execSstore demoExt 10 demoLater 3 7).GetState 10 3)) ≠ 0 ∧
    (execSstore demoExt 10 demoLater 3 7).GetState 21
      (Keccak256Hash demoExt (Keccak256Hash demoExt 3)) ≠ flag :=
  ⟨rfl, by decide, by decide, by decide, by decide⟩

/-- C7 (amended): when `persistIfVerifiedCiphertext` persists a ciphertext with
serialization `b` (handle verified at the current depth, metadata slot zero) and `b`
has the size that `expandedFheCiphertextSize` records for its type (`len b < 2 ^ 63`
as for every Go slice), then the metadata slot is non-zero afterwards; the bytes
that `verifyIfCiphertextHandle` reassembles from the metadata and the slots after it
(in any environment with that storage) are exactly `b`; and a later
`verifyIfCiphertextHandle` on that storage, with the handle not yet in the table of
verified ciphertexts, hands exactly `b` and the ciphertext's type to the deserializer:
it does what the deserializer's verdict on `b` makes it do. -/
theorem persist_then_load_roundtrip (X : Ext)
    (flagHandleLocation handle : Nat) (P : Address) (env : EVMEnvironment)
    (v : verifiedCiphertext)
    (hv : getVerifiedCiphertextFromEVM env handle = some v)
    (hz : env.GetState P (Keccak256Hash X handle) = 0)
    (hsize : X.expandedFheCiphertextSize v.ciphertext.fheUintType =
      v.ciphertext.serialize.length)
    (hlen : v.ciphertext.serialize.length < 2 ^ 63) :
    (persistIfVerifiedCiphertext X flagHandleLocation handle P env).GetState P
        (Keccak256Hash X handle) ≠ 0 ∧
    (∀ env2 : EVMEnvironment,
      env2.state = (persistIfVerifiedCiphertext X flagHandleLocation handle P env).state →
      loadCiphertextBytes env2 P (Keccak256Hash X handle)
          (newCiphertextMetadata (env2.GetState P (Keccak256Hash X handle))) =
        v.ciphertext.serialize) ∧
    (∀ (env2 : EVMEnvironment) (contract : Address),
      env2.state = (persistIfVerifiedCiphertext X flagHandleLocation handle P env).state →
      env2.verifiedCiphertexts handle = none →
      CreateProtectedStorageContractAddress X contract = P →
      verifyIfCiphertextHandle X handle env2 contract =
        match tfheCiphertext.deserialize X v.ciphertext.serialize v.ciphertext.fheUintType with
        | Outcome.ok ct => Outcome.ok (importCiphertextToEVM X env2 ct)
        | Outcome.error _ => Outcome.error "opSload failed to deserialize a ciphertext"
        | Outcome.panicked => Outcome.panicked) := by
  have h := loadCiphertextBytes_after_persist X flagHandleLocation handle P env v hv hz hsize hlen
  refine ⟨h.1, h.2, ?_⟩
  intro env2 contract h2 htab hP
  have hget : ∀ a k, env2.GetState a k =
      (persistIfVerifiedCiphertext X flagHandleLocation handle P env).GetState a k := by
    intro a k
    simp [EVMEnvironment.GetState, h2]
  have hnz : env2.GetState P (Keccak256Hash X handle) ≠ 0 := by
    rw [hget]
    exact h.1
  have hty : (newCiphertextMetadata (env2.GetState P (Keccak256Hash X handle))).fheUintType =
      v.ciphertext.fheUintType := by
    rw [hget, persist_new X flagHandleLocation handle P env v hv hz, SetState_GetState_same,
      newCiphertextMetadata_serialize]
  unfold verifyIfCiphertextHandle
  simp only [htab, hP, hnz, ne_eq, not_false_eq_true, if_true, h.2 env2 h2, hty]

/-- C7, witness: the 33-byte ciphertext with handle 7 is read back from the storage
that persisting it leaves behind. -/
theorem persist_then_load_roundtrip_witness :
    loadCiphertextBytes (persistIfVerifiedCiphertext demoExt 99 7 21 demoEnv) 21
        (Keccak256Hash demoExt 7)
        (newCiphertextMetadata ((persistIfVerifiedCiphertext demoExt 99 7 21 demoEnv).GetState
          21 (Keccak256Hash demoExt 7))) = demoBytes :=
  (persist_then_load_roundtrip demoExt 99 7 21 demoEnv demoVerified rfl rfl rfl
    (by decide)).2.1 _ rfl

/-- C7, counterexample: with the size table never filled the metadata records
`length = 0`, and from the storage that persisting the 33-byte ciphertext leaves
behind the loading loop reassembles the empty byte string, not the 33 bytes. -/
theorem persist_then_load_loses_bytes :
    getVerifiedCiphertextFromEVM demoEnv 7 = some demoVerified ∧
    demoEnv.GetState 21 (Keccak256Hash demoExtNoSizes 7) = 0 ∧
    loadCiphertextBytes (persistIfVerifiedCiphertext demoExtNoSizes 99 7 21 demoEnv) 21
        (Keccak256Hash demoExtNoSizes 7)
        (newCiphertextMetadata
          ((persistIfVerifiedCiphertext demoExtNoSizes 99 7 21 demoEnv).GetState
            21 (Keccak256Hash demoExtNoSizes 7))) = [] ∧
    demoVerified.ciphertext.serialize ≠ [] :=
  ⟨rfl, rfl, by decide, by decide⟩

/-- C8: when `persistIfVerifiedCiphertext` persists a new ciphertext of `L > 0` bytes
(handle verified at the current depth, metadata slot zero; `L < 2 ^ 63` as for every
Go slice), then for every `k < ⌈L / 32⌉` the slot `Keccak256(handle) + 1 + k` holds the
bytes `[32k, min(32k + 32, L))` of the serialization, left-aligned and right-padded
with zero bytes to 32; and apart from these `⌈L / 32⌉` slots, the flag slot and the
metadata slot, no slot of any account changes. -/
theorem persistIfVerifiedCiphertext_sharding_layout (X : Ext)
    (flagHandleLocation handle : Nat) (P : Address) (env : EVMEnvironment)
    (v : verifiedCiphertext)
    (hv : getVerifiedCiphertextFromEVM env handle = some v)
    (hz : env.GetState P (Keccak256Hash X handle) = 0)
    (hpos : 0 < v.ciphertext.serialization.length)
    (hlen : v.ciphertext.serialization.length < 2 ^ 63) :
    (∀ k, k < (v.ciphertext.serialization.length + 31) / 32 →
      hashBytes ((persistIfVerifiedCiphertext X flagHandleLocation handle P env).GetState P
          ((Keccak256Hash X handle + 1 + k) % 2 ^ 256)) =
        (v.ciphertext.serialization.drop (32 * k)).take 32 ++
          List.replicate (32 - ((v.ciphertext.serialization.drop (32 * k)).take 32).length) 0) ∧
    (∀ (a : Address) (key : Nat),
      a ≠ P ∨ (key ≠ flagHandleLocation ∧ key ≠ Keccak256Hash X handle ∧
        ∀ k, k < (v.ciphertext.serialization.length + 31) / 32 →
          key ≠ (Keccak256Hash X handle + 1 + k) % 2 ^ 256) →
      (persistIfVerifiedCiphertext X flagHandleLocation handle P env).GetState a key =
        env.GetState a key) := by
  rw [persist_new X flagHandleLocation handle P env v hv hz]
  have hK := Keccak256Hash_lt X handle
  have hcount : slabCount v.ciphertext.serialization.length =
      (v.ciphertext.serialization.length + 31) / 32 := by
    unfold slabCount
    omega
  constructor
  · intro k hk
    have hne : (Keccak256Hash X handle + 1 + k) % 2 ^ 256 ≠ Keccak256Hash X handle := by
      omega
    rw [SetState_GetState_other _ _ _ _ _ _ (Or.inr hne)]
    have hkey : (Keccak256Hash X handle + 1 + k) % 2 ^ 256 =
        (addUint64One (Keccak256Hash X handle) + k) % 2 ^ 256 := by
      unfold addUint64One
      omega
    rw [hkey, writeSlabs_GetState P _ _ _ k _ (addUint64One_lt _)
      (by rw [slabs_length, hcount]; omega)
      (slabs_getElem? _ k (by rw [hcount]; exact hk))]
    rw [hashBytes_BytesToHash _ (pad32_length _ (by simp))]
    rfl
  · intro a key h
    rw [SetState_GetState_other, writeSlabs_GetState_other P _ _ _ a key (addUint64One_lt _),
      SetState_GetState_other]
    · rcases h with h | h
      · exact Or.inl h
      · exact Or.inr h.1
    · rcases h with h | h
      · exact Or.inl h
      · right
        intro j hj
        rw [slabs_length, hcount] at hj
        have := h.2.2 j hj
        unfold addUint64One
        omega
    · rcases h with h | h
      · exact Or.inl h
      · exact Or.inr h.2.1

/-- C8, witness: the 33-byte ciphertext with handle 7 takes two slots; the second one
holds the byte `9` followed by 31 zero bytes. -/
theorem persistIfVerifiedCiphertext_sharding_layout_witness :
    hashBytes ((persistIfVerifiedCiphertext demoExt 99 7 21 demoEnv).GetState 21
        ((Keccak256Hash demoExt 7 + 1 + 1) % 2 ^ 256)) = 9 :: List.replicate 31 0 :=
  (persistIfVerifiedCiphertext_sharding_layout demoExt 99 7 21 demoEnv demoVerified rfl rfl
    (by decide) (by decide)).1 1 (by decide)

/-- C9 (amended): when `persistIfVerifiedCiphertext` persists a new ciphertext, the
`length` field of the metadata it writes is the entry of `expandedFheCiphertextSize`
for the ciphertext's type (as a `uint64`); it is the byte length of the serialization
that is sharded whenever the serialization has that recorded size. -/
theorem persistIfVerifiedCiphertext_new_length (X : Ext)
    (flagHandleLocation handle : Nat) (P : Address) (env : EVMEnvironment)
    (v : verifiedCiphertext)
    (hv : getVerifiedCiphertextFromEVM env handle = some v)
    (hz : env.GetState P (Keccak256Hash X handle) = 0) :
    (newCiphertextMetadata ((persistIfVerifiedCiphertext X flagHandleLocation handle P env).GetState
        P (Keccak256Hash X handle))).length =
      X.expandedFheCiphertextSize v.ciphertext.fheUintType % 2 ^ 64 ∧
    (X.expandedFheCiphertextSize v.ciphertext.fheUintType = v.ciphertext.serialize.length →
      v.ciphertext.serialize.length < 2 ^ 64 →
      (newCiphertextMetadata ((persistIfVerifiedCiphertext X flagHandleLocation handle P env).GetState
          P (Keccak256Hash X handle))).length = v.ciphertext.serialize.length) := by
  rw [persist_new X flagHandleLocation handle P env v hv hz]
  simp only [SetState_GetState_same, newCiphertextMetadata_serialize, Nat.mod_mod]
  refine ⟨trivial, fun h1 h2 => ?_⟩
  rw [h1]
  exact Nat.mod_eq_of_lt h2

/-- C9, witness: the recorded size of type 2 is 33 and the ciphertext has 33 bytes. -/
theorem persistIfVerifiedCiphertext_new_length_witness :
    (newCiphertextMetadata ((persistIfVerifiedCiphertext demoExt 99 7 21 demoEnv).GetState
        21 (Keccak256Hash demoExt 7))).length = 33 :=
  (persistIfVerifiedCiphertext_new_length demoExt 99 7 21 demoEnv demoVerified rfl rfl).2
    rfl (by decide)

/-- C9, counterexample: with the size table never filled, persisting the 33-byte
ciphertext writes `length = 0` to the metadata, while 33 bytes are sharded into the
ciphertext slots (the second slot holds byte 33). -/
theorem persistIfVerifiedCiphertext_length_from_table :
    getVerifiedCiphertextFromEVM demoEnv 7 = some demoVerified ∧
    demoEnv.GetState 21 (Keccak256Hash demoExtNoSizes 7) = 0 ∧
    demoVerified.ciphertext.serialize.length = 33 ∧
    (newCiphertextMetadata ((persistIfVerifiedCiphertext demoExtNoSizes 99 7 21 demoEnv).GetState
        21 (Keccak256Hash demoExtNoSizes 7))).length = 0 ∧
    hashBytes ((persistIfVerifiedCiphertext demoExtNoSizes 99 7 21 demoEnv).GetState 21
        (Keccak256Hash demoExtNoSizes 7 + 2)) = 9 :: List.replicate 31 0 :=
  ⟨rfl, rfl, rfl, by decide, by decide⟩

/-- C10: in a read-only environment `OpSstore` returns `ErrWriteProtection` and leaves
the stack and the whole environment (so the contract's storage and the protected
storage) as they were. -/
theorem OpSstore_readOnly (X : Ext) (env : EVMEnvironment) (contract : Address)
    (stack : List Nat) (hro : env.isReadOnly = true) :
    OpSstore X env contract stack =
      some { err := some VMError.ErrWriteProtection, env := env, stack := stack } := by
  simp [OpSstore, hro]

/-- C10, witness: a read-only environment with the stack `[1, 7]`. -/
theorem OpSstore_readOnly_witness :
    OpSstore demoExt { demoEnv with isReadOnly := true } 10 [1, 7] =
      some { err := some VMError.ErrWriteProtection,
             env := { demoEnv with isReadOnly := true }, stack := [1, 7] } :=
  OpSstore_readOnly demoExt { demoEnv with isReadOnly := true } 10 [1, 7] rfl

/-- C11: a non-read-only `OpSstore` with the operands `loc` and `newVal` on top of the
stack returns no error, pops the two operands, and afterwards `GetState(C, loc)` is
`newVal`, whatever was done to the protected storage. -/
theorem OpSstore_sets_value (X : Ext) (env : EVMEnvironment) (contract : Address)
    (loc newVal : Nat) (rest : List Nat) (hro : env.isReadOnly = false) :
    ∃ r, OpSstore X env contract (loc :: newVal :: rest) = some r ∧ r.err = none ∧
      r.stack = rest ∧ r.env.GetState contract loc = newVal := by
  refine ⟨_, OpSstore_eq_execSstore X contract env loc newVal rest hro, rfl, rfl, ?_⟩
  rw [execSstore_eq X contract env loc newVal hro]
  simp

/-- C11, witness: SSTORE of handle 7 to location 1 of contract 10 (protected-storage
work is done), as run by `OpSstore`. -/
theorem OpSstore_sets_value_witness :
    ∃ r, OpSstore demoExt demoEnv 10 [1, 7] = some r ∧ r.err = none ∧
      r.stack = [] ∧ r.env.GetState 10 1 = 7 :=
  OpSstore_sets_value demoExt demoEnv 10 1 7 [] rfl

/-- C12: an `OpSstore` whose new value equals the value stored at `loc`, or that runs
with `IsCommitting` false, leaves every slot of the protected storage `P(C)` as it
was.  When the call changes the value at `loc`, the protected storage is taken to be
another account than the contract, whose slot `loc` the call does write.  This holds
for a read-only frame as well. -/
theorem OpSstore_skips_protected_storage (X : Ext) (env : EVMEnvironment)
    (contract : Address) (loc newVal : Nat) (rest : List Nat) (r : OpResult)
    (hskip : newVal = env.GetState contract loc ∨ env.isCommitting = false)
    (hP : CreateProtectedStorageContractAddress X contract ≠ contract ∨
      newVal = env.GetState contract loc)
    (hr : OpSstore X env contract (loc :: newVal :: rest) = some r) :
    ∀ key : Nat,
      r.env.GetState (CreateProtectedStorageContractAddress X contract) key =
        env.GetState (CreateProtectedStorageContractAddress X contract) key := by
  intro key
  cases hro : env.isReadOnly with
  | true =>
    simp only [OpSstore, hro, if_true, Option.some.injEq] at hr
    rw [← hr]
  | false =>
    rw [OpSstore_eq_execSstore X contract env loc newVal rest hro, Option.some.injEq] at hr
    rw [← hr, execSstore_eq X contract env loc newVal hro]
    have hcond : ¬ (newVal ≠ env.GetState contract loc ∧ env.isCommitting = true) := by
      rintro ⟨h1, h2⟩
      rcases hskip with h | h
      · exact h1 h
      · rw [h] at h2
        exact Bool.noConfusion h2
    rw [if_neg hcond]
    rcases hP with hP | hsame
    · exact SetState_GetState_other _ _ _ _ _ _ (Or.inl hP)
    · by_cases hk : CreateProtectedStorageContractAddress X contract = contract ∧ key = loc
      · rw [hk.1, hk.2, SetState_GetState_same, hsame]
      · apply SetState_GetState_other
        by_cases h1 : CreateProtectedStorageContractAddress X contract = contract
        · exact Or.inr (fun h2 => hk ⟨h1, h2⟩)
        · exact Or.inl h1

/-- C12, witness: a non-committing SSTORE of the verified handle 7 to location 1 leaves
the flag slot of location 1, the metadata slot of the handle and its first ciphertext
slot zero. -/
theorem OpSstore_skips_protected_storage_witness :
    (execSstore demoExt 10 { demoEnv with isCommitting := false } 1 7).GetState 21
        (Keccak256Hash demoExt (Keccak256Hash demoExt 1)) = 0 ∧
    (execSstore demoExt 10 { demoEnv with isCommitting := false } 1 7).GetState 21
        (Keccak256Hash demoExt 7) = 0 ∧
    (execSstore demoExt 10 { demoEnv with isCommitting := false } 1 7).GetState 21
        (Keccak256Hash demoExt 7 + 1) = 0 :=
  have h := OpSstore_skips_protected_storage demoExt { demoEnv with isCommitting := false }
    10 1 7 []
    { err := none, env := execSstore demoExt 10 { demoEnv with isCommitting := false } 1 7,
      stack := [] }
    (Or.inr rfl) (Or.inl (by decide)) (OpSstore_eq_execSstore demoExt 10 _ 1 7 [] rfl)
  ⟨h _, h _, h _⟩

/-- C13: when the flag slot `flagHandleLocation` does not hold `FLAG`,
`garbageCollectProtectedStorage` changes nothing, whatever the metadata of the handle
is: it returns the environment it was given. -/
theorem garbageCollect_false_alarm (X : Ext) (flagHandleLocation handle : Nat)
    (P : Address) (env : EVMEnvironment)
    (hflag : env.GetState P flagHandleLocation ≠ flag) :
    garbageCollectProtectedStorage X flagHandleLocation handle P env = env := by
  unfold garbageCollectProtectedStorage
  simp only [hflag, ne_eq, not_false_eq_true, if_true, ite_self]

/-- C13, witness: handle 7 has metadata with `refCount = 2` and the flag slot 99 is
zero. -/
theorem garbageCollect_false_alarm_witness :
    garbageCollectProtectedStorage demoExt 99 7 21 (demoEnvWithMetadata 2) =
      demoEnvWithMetadata 2 :=
  garbageCollect_false_alarm demoExt 99 7 21 (demoEnvWithMetadata 2) (by decide)

/-- C14: for a handle that is not verified at the current depth (absent from the
table of verified ciphertexts, or present with a depth set that does not contain the
current depth), `persistIfVerifiedCiphertext` changes nothing, whatever the metadata
slot of the handle holds: it returns the environment it was given. -/
theorem persistIfVerifiedCiphertext_unverified (X : Ext) (flagHandleLocation handle : Nat)
    (P : Address) (env : EVMEnvironment)
    (hv : env.verifiedCiphertexts handle = none ∨
      ∃ ct, env.verifiedCiphertexts handle = some ct ∧ env.depth ∉ ct.verifiedDepths) :
    persistIfVerifiedCiphertext X flagHandleLocation handle P env = env := by
  apply persist_unverified
  unfold getVerifiedCiphertextFromEVM isVerifiedAtCurrentDepth depthSet.has
  rcases hv with h | ⟨ct, h, hd⟩
  · rw [h]
  · rw [h]
    simp [hd]

/-- C14, witness: handle 7 is verified at depth 1 only, the call runs at depth 2, and
metadata for the handle exists. -/
theorem persistIfVerifiedCiphertext_unverified_witness :
    persistIfVerifiedCiphertext demoExt 99 7 21 { demoEnvWithMetadata 1 with depth := 2 } =
      { demoEnvWithMetadata 1 with depth := 2 } :=
  persistIfVerifiedCiphertext_unverified demoExt 99 7 21
    { demoEnvWithMetadata 1 with depth := 2 }
    (Or.inr ⟨demoVerified, rfl, by decide⟩)

/-- C15: start from a world state whose protected storage `P(C)` is all zero and run
any sequence of committing, non-read-only SSTOREs of contract `C` (each at its own
depth and with its own table of verified ciphertexts; `P(C)` another account than
`C`).  For every handle `h` whose metadata slot the run keeps clear of (no
ciphertext slot written in the run has the key `Keccak256(h)`, and no increment of
the reference count wraps around), the metadata slot `Keccak256(h)` is non-zero
afterwards if and only if its `refCount` field is greater than 0. -/
theorem metadata_nonzero_iff_refCount_pos (X : Ext) (contract : Address) (handle : Nat)
    (st0 : StateDB) (calls : List SstoreCall)
    (hP : CreateProtectedStorageContractAddress X contract ≠ contract)
    (hzero : ∀ key, st0 (CreateProtectedStorageContractAddress X contract) key = 0)
    (hav : runAvoids X contract handle st0 calls) :
    runSstores X contract st0 calls (CreateProtectedStorageContractAddress X contract)
        (Keccak256Hash X handle) ≠ 0 ↔
      0 < (newCiphertextMetadata
        (runSstores X contract st0 calls (CreateProtectedStorageContractAddress X contract)
          (Keccak256Hash X handle))).refCount := by
  have hgood := goodWord_runSstores X contract handle hP calls st0
    (by rw [hzero]; exact goodWord_zero) hav
  constructor
  · intro hnz
    exact Nat.pos_of_ne_zero (hgood hnz)
  · intro hpos hz
    rw [hz] at hpos
    exact absurd hpos (by decide)

/-- C15, witness: from all-zero storage, SSTORE of handle 7 to locations 1 and 2, then
SSTORE of 0 to location 1; the metadata slot of handle 7 is non-zero and its
`refCount` is positive. -/
theorem metadata_nonzero_iff_refCount_pos_witness :
    runSstores demoExt 10 demoEnv.state [demoCall 1 7, demoCall 2 7, demoCall 1 0] 21
        (Keccak256Hash demoExt 7) ≠ 0 ∧
    0 < (newCiphertextMetadata
      (runSstores demoExt 10 demoEnv.state [demoCall 1 7, demoCall 2 7, demoCall 1 0] 21
        (Keccak256Hash demoExt 7))).refCount :=
  have hstore : ∀ (st : StateDB) (loc : Nat),
      (newCiphertextMetadata
        ((garbageCollectProtectedStorage demoExt
          (Keccak256Hash demoExt (Keccak256Hash demoExt loc))
          (((demoCall loc 7).env st).GetState 10 loc)
          (CreateProtectedStorageContractAddress demoExt 10) ((demoCall loc 7).env st)).GetState
          (CreateProtectedStorageContractAddress demoExt 10)
          (Keccak256Hash demoExt 7))).refCount ≠ 2 ^ 64 - 1 →
      stepAvoids demoExt 10 7 st (demoCall loc 7) := fun st loc hrc v hv => by
    have hget : getVerifiedCiphertextFromEVM ((demoCall loc 7).env st) 7 = some demoVerified :=
      rfl
    have hv2 : getVerifiedCiphertextFromEVM ((demoCall loc 7).env st) 7 = some v := hv
    rw [hget] at hv2
    obtain rfl := Option.some.inj hv2
    have hk : ∀ k, k < slabCount demoVerified.ciphertext.serialization.length →
        Keccak256Hash demoExt 7 ≠ (Keccak256Hash demoExt 7 + 1 + k) % 2 ^ 256 := by decide
    exact ⟨hk, fun _ => hrc⟩
  have hzero : ∀ (st : StateDB) (loc : Nat), stepAvoids demoExt 10 7 st (demoCall loc 0) :=
    fun st loc v hv => by
      have hget : getVerifiedCiphertextFromEVM ((demoCall loc 0).env st) 0 = none := rfl
      have hv2 : getVerifiedCiphertextFromEVM ((demoCall loc 0).env st) 0 = some v := hv
      rw [hget] at hv2
      cases hv2
  have h := metadata_nonzero_iff_refCount_pos demoExt 10 7 demoEnv.state
    [demoCall 1 7, demoCall 2 7, demoCall 1 0] (by decide) (fun _ => rfl)
    ⟨hstore _ 1 (by decide), hstore _ 2 (by decide), hzero _ 1, trivial⟩
  ⟨by decide, h.1 (by decide)⟩

/-- C16: `getVerifiedCiphertextFromEVM` returns the entry `ct` for a hash if and only
if the table of verified ciphertexts maps the hash to `ct` and the current depth is
a member of the depth set of `ct`; an entry with depth set `{1}` is not returned at
depth 2. -/
theorem getVerifiedCiphertextFromEVM_iff :
    (∀ (env : EVMEnvironment) (ciphertextHash : Nat) (ct : verifiedCiphertext),
      getVerifiedCiphertextFromEVM env ciphertextHash = some ct ↔
        env.verifiedCiphertexts ciphertextHash = some ct ∧ env.depth ∈ ct.verifiedDepths) ∧
    (∀ (env : EVMEnvironment) (ciphertextHash : Nat),
      getVerifiedCiphertextFromEVM env ciphertextHash = none ↔
        env.verifiedCiphertexts ciphertextHash = none ∨
        ∃ ct, env.verifiedCiphertexts ciphertextHash = some ct ∧
          env.depth ∉ ct.verifiedDepths) ∧
    (∀ (env : EVMEnvironment) (ciphertextHash : Nat) (ct : verifiedCiphertext),
      env.verifiedCiphertexts ciphertextHash = some ct → ct.verifiedDepths = [1] →
      env.depth = 2 → getVerifiedCiphertextFromEVM env ciphertextHash = none) := by
  refine ⟨?_, ?_, ?_⟩
  · intro env h ct
    unfold getVerifiedCiphertextFromEVM isVerifiedAtCurrentDepth
    cases ht : env.verifiedCiphertexts h with
    | none => simp
    | some c =>
      simp only
      by_cases hd : depthSet.has c.verifiedDepths env.depth = true
      · rw [if_pos hd]
        constructor
        · intro hc
          obtain rfl := Option.some.inj hc
          exact ⟨rfl, (depthSet_has_iff _ _).1 hd⟩
        · rintro ⟨hc, _⟩
          exact hc
      · rw [if_neg hd]
        constructor
        · intro hc
          cases hc
        · rintro ⟨hc, hm⟩
          obtain rfl := Option.some.inj hc
          exact absurd ((depthSet_has_iff _ _).2 hm) hd
  · intro env h
    unfold getVerifiedCiphertextFromEVM isVerifiedAtCurrentDepth
    cases ht : env.verifiedCiphertexts h with
    | none => simp
    | some c =>
      simp only
      by_cases hd : depthSet.has c.verifiedDepths env.depth = true
      · rw [if_pos hd]
        simp only [false_or, Option.some.injEq, exists_eq_left', false_iff, reduceCtorEq]
        exact fun hm => hm ((depthSet_has_iff _ _).1 hd)
      · rw [if_neg hd]
        simp only [false_or, Option.some.injEq, exists_eq_left', true_iff, reduceCtorEq]
        exact fun hm => hd ((depthSet_has_iff _ _).2 hm)
  · intro env h ct ht hd h2
    unfold getVerifiedCiphertextFromEVM isVerifiedAtCurrentDepth depthSet.has
    simp only [ht, hd, h2]
    rfl

/-- C17: when `OpSload` succeeds (returns no error), the stack had a word `loc` on top,
that word is replaced by `GetState(C, loc)`, the rest of the stack and the stack
height are unchanged, and the world state (the storage of the contract, of the
protected storage and of every other account) is unchanged. -/
theorem OpSload_success (X : Ext) (env : EVMEnvironment) (contract : Address)
    (stack : List Nat) (r : OpResult) (hr : OpSload X env contract stack = some r)
    (herr : r.err = none) :
    ∃ loc rest, stack = loc :: rest ∧ r.stack = env.GetState contract loc :: rest ∧
      r.stack.length = stack.length ∧ r.env.state = env.state := by
  cases stack with
  | nil => simp [OpSload] at hr
  | cons loc rest =>
    refine ⟨loc, rest, rfl, ?_⟩
    simp only [OpSload] at hr
    cases hv : verifyIfCiphertextHandle X (env.GetState contract loc) env contract with
    | ok env1 =>
      rw [hv] at hr
      simp only [Option.some.injEq] at hr
      rw [← hr]
      exact ⟨rfl, rfl, (verifyIfCiphertextHandle_state X _ env env1 contract hv).1⟩
    | error msg =>
      rw [hv] at hr
      simp only [Option.some.injEq] at hr
      rw [← hr] at herr
      cases herr
    | panicked =>
      rw [hv] at hr
      cases hr

/-- C17, witness: in a later transaction, SLOAD of location 1, which holds the
persisted handle 7: the stack `[1, 55]` becomes `[7, 55]`. -/
theorem OpSload_success_witness :
    ∃ loc rest, [1, 55] = loc :: rest ∧ [7, 55] = demoLater.GetState 10 loc :: rest ∧
      [7, 55].length = [1, 55].length ∧ demoLoaded.state = demoLater.state :=
  OpSload_success demoExt demoLater 10 [1, 55]
    { err := none, env := demoLoaded, stack := [7, 55] } rfl rfl

/-- C18: after `verifyIfCiphertextHandle(handle, contract)` returns without error at
depth `d`, in a state where the ciphertext with content hash `handle` was already in
the table of verified ciphertexts (the entry of `handle` holds a ciphertext with that
hash) or was not in the table and had non-zero metadata in `P(contract)` (the bytes
reassembled from the slots after it hash to `handle`): the table has an entry for
`handle` whose ciphertext has content hash `handle`, and it is verified at depth
`d`.  When the handle was already in the table, its entry keeps its ciphertext and its
depth set gains `d` and nothing else.  No other entry of the table changes, and
neither does the world state. -/
theorem verifyIfCiphertextHandle_verifies (X : Ext) (handle : Nat)
    (env env1 : EVMEnvironment) (contract : Address)
    (hok : verifyIfCiphertextHandle X handle env contract = Outcome.ok env1)
    (hstate :
      (∃ e, env.verifiedCiphertexts handle = some e ∧ e.ciphertext.getHash X = handle) ∨
      (env.verifiedCiphertexts handle = none ∧
        env.GetState (CreateProtectedStorageContractAddress X contract)
          (Keccak256Hash X handle) ≠ 0 ∧
        X.keccak256 (loadCiphertextBytes env (CreateProtectedStorageContractAddress X contract)
          (Keccak256Hash X handle)
          (newCiphertextMetadata (env.GetState (CreateProtectedStorageContractAddress X contract)
            (Keccak256Hash X handle)))) % 2 ^ 256 = handle)) :
    (∃ e1, getVerifiedCiphertextFromEVM env1 handle = some e1 ∧
      e1.ciphertext.getHash X = handle ∧ env1.depth ∈ e1.verifiedDepths) ∧
    env1.depth = env.depth ∧
    (∀ e, env.verifiedCiphertexts handle = some e →
      ∃ e1, env1.verifiedCiphertexts handle = some e1 ∧ e1.ciphertext = e.ciphertext ∧
        ∀ d : Int, d ∈ e1.verifiedDepths ↔ d = env.depth ∨ d ∈ e.verifiedDepths) ∧
    (∀ k, k ≠ handle → env1.verifiedCiphertexts k = env.verifiedCiphertexts k) ∧
    env1.state = env.state := by
  have hst := verifyIfCiphertextHandle_state X handle env env1 contract hok
  have key : ∀ ct : tfheCiphertext, ct.getHash X = handle →
      env1 = importCiphertextToEVM X env ct →
      (∀ e, env.verifiedCiphertexts handle = some e → e.ciphertext.getHash X = handle) →
      (∃ e1, getVerifiedCiphertextFromEVM env1 handle = some e1 ∧
        e1.ciphertext.getHash X = handle ∧ env1.depth ∈ e1.verifiedDepths) ∧
      (∀ e, env.verifiedCiphertexts handle = some e →
        ∃ e1, env1.verifiedCiphertexts handle = some e1 ∧ e1.ciphertext = e.ciphertext ∧
          ∀ d : Int, d ∈ e1.verifiedDepths ↔ d = env.depth ∨ d ∈ e.verifiedDepths) ∧
      (∀ k, k ≠ handle → env1.verifiedCiphertexts k = env.verifiedCiphertexts k) := by
    intro ct hct henv hwf
    subst henv
    refine ⟨?_, ?_, ?_⟩
    · cases ht : env.verifiedCiphertexts handle with
      | none =>
        refine ⟨{ verifiedDepths := [env.depth], ciphertext := ct }, ?_, hct,
          List.mem_singleton.mpr hst.2⟩
        unfold getVerifiedCiphertextFromEVM isVerifiedAtCurrentDepth depthSet.has
        simp [importCiphertextToEVM, hct, ht]
      | some e =>
        refine ⟨{ e with verifiedDepths := env.depth :: e.verifiedDepths }, ?_, hwf e ht,
          by simp [importCiphertextToEVM]⟩
        unfold getVerifiedCiphertextFromEVM isVerifiedAtCurrentDepth depthSet.has
        simp [importCiphertextToEVM, hct, ht]
    · intro e ht
      refine ⟨{ e with verifiedDepths := env.depth :: e.verifiedDepths }, ?_, rfl, ?_⟩
      · simp [importCiphertextToEVM, hct, ht]
      · intro d
        simp
    · intro k hk
      simp [importCiphertextToEVM, hct, hk]
  unfold verifyIfCiphertextHandle at hok
  rcases hstate with ⟨e, he, hhash⟩ | ⟨hnone, hnz, hhash⟩
  · simp only [he] at hok
    injection hok with hok
    have h := key e.ciphertext hhash hok.symm (by
      intro e2 he2
      rw [he] at he2
      obtain rfl := Option.some.inj he2
      exact hhash)
    exact ⟨h.1, hst.2, h.2.1, h.2.2, hst.1⟩
  · simp only [hnone, hnz, ne_eq, not_false_eq_true, if_true] at hok
    split at hok
    · next ct hdes =>
      injection hok with hok
      have hser : ct.getHash X = handle := by
        unfold tfheCiphertext.deserialize at hdes
        split at hdes
        · split at hdes
          · cases hdes
          · split at hdes
            · injection hdes with hdes
              rw [← hdes]
              exact hhash
            · cases hdes
        · cases hdes
      have h := key ct hser hok.symm (by
        intro e2 he2
        rw [hnone] at he2
        cases he2)
      exact ⟨h.1, hst.2, h.2.1, h.2.2, hst.1⟩
    · cases hok
    · cases hok

/-- C18, witness: in a later transaction (empty table), the handle of the 33-byte
ciphertext is loaded from the protected storage that persisting it left behind, at
depth 1. -/
theorem verifyIfCiphertextHandle_verifies_witness :
    ∃ e1, getVerifiedCiphertextFromEVM demoKeyedLoaded demoHandle = some e1 ∧
      e1.ciphertext.getHash demoExt = demoHandle ∧ demoKeyedLoaded.depth ∈ e1.verifiedDepths :=
  (verifyIfCiphertextHandle_verifies demoExt demoHandle demoKeyedLater demoKeyedLoaded 10 rfl
    (Or.inr ⟨rfl, by decide, by decide⟩)).1

/-- C19: for a handle that is not in the table of verified ciphertexts and whose
metadata slot `Keccak256(handle)` in `P(contract)` is zero, `verifyIfCiphertextHandle`
returns no error and leaves the environment, the table included, as it was.  The
statement holds for every state of the other slots and every deserializer, neither
of which the result depends on. -/
theorem verifyIfCiphertextHandle_absent (X : Ext) (handle : Nat) (env : EVMEnvironment)
    (contract : Address)
    (ht : env.verifiedCiphertexts handle = none)
    (hz : env.GetState (CreateProtectedStorageContractAddress X contract)
      (Keccak256Hash X handle) = 0) :
    verifyIfCiphertextHandle X handle env contract = Outcome.ok env := by
  unfold verifyIfCiphertextHandle
  simp [ht, hz]

/-- C19, witness: the scalar 55 in `demoEnv` (all storage zero, 55 not in the table),
with a deserializer that rejects everything. -/
theorem verifyIfCiphertextHandle_absent_witness :
    verifyIfCiphertextHandle demoExtRejecting 55 demoEnv 10 = Outcome.ok demoEnv :=
  verifyIfCiphertextHandle_absent demoExtRejecting 55 demoEnv 10 rfl rfl

/-- C20: `OpSload` of a location whose value is not in the table of verified
ciphertexts, has non-zero metadata in `P(C)`, and whose reassembled bytes the
deserializer rejects (`tfheCiphertext.deserialize` returns an error):
`verifyIfCiphertextHandle` returns an error, `OpSload` returns that error, and the
stack (so its top word) and the environment (so the table of verified ciphertexts)
are as before. -/
theorem OpSload_deserialization_failed (X : Ext) (env : EVMEnvironment) (contract : Address)
    (loc : Nat) (rest : List Nat) (msg : String)
    (ht : env.verifiedCiphertexts (env.GetState contract loc) = none)
    (hnz : env.GetState (CreateProtectedStorageContractAddress X contract)
      (Keccak256Hash X (env.GetState contract loc)) ≠ 0)
    (hrej : tfheCiphertext.deserialize X
      (loadCiphertextBytes env (CreateProtectedStorageContractAddress X contract)
        (Keccak256Hash X (env.GetState contract loc))
        (newCiphertextMetadata (env.GetState (CreateProtectedStorageContractAddress X contract)
          (Keccak256Hash X (env.GetState contract loc)))))
      (newCiphertextMetadata (env.GetState (CreateProtectedStorageContractAddress X contract)
        (Keccak256Hash X (env.GetState contract loc)))).fheUintType = Outcome.error msg) :
    verifyIfCiphertextHandle X (env.GetState contract loc) env contract =
      Outcome.error "opSload failed to deserialize a ciphertext" ∧
    OpSload X env contract (loc :: rest) =
      some { err := some (VMError.errorsNew "opSload failed to deserialize a ciphertext"),
             env := env, stack := loc :: rest } := by
  have hv : verifyIfCiphertextHandle X (env.GetState contract loc) env contract =
      Outcome.error "opSload failed to deserialize a ciphertext" := by
    unfold verifyIfCiphertextHandle
    simp only [ht, hnz, ne_eq, not_false_eq_true, if_true, hrej]
  refine ⟨hv, ?_⟩
  simp only [OpSload, hv]

/-- C20, witness: in a later transaction, SLOAD of location 1, which holds the
persisted handle 7, with a deserializer that rejects the bytes. -/
theorem OpSload_deserialization_failed_witness :
    OpSload demoExtRejecting demoLater 10 [1, 55] =
      some { err := some (VMError.errorsNew "opSload failed to deserialize a ciphertext"),
             env := demoLater, stack := [1, 55] } :=
  (OpSload_deserialization_failed demoExtRejecting demoLater 10 1 [55]
    "ciphertext deserialization failed" rfl (by decide) rfl).2

/-- C21 (the code at the claim's inputs): when the value is not in the table of
verified ciphertexts and its metadata slot in `P(contract)` is non-zero with length
field 0, `verifyIfCiphertextHandle` reads no ciphertext slot (the bytes it reassembles
are empty whatever the storage holds), hands the empty buffer to
`tfheCiphertext.deserialize`, and does not complete: for a type 0..3
`toDynamicBufferView` takes `&in[0]` of the empty slice, an index out of range, and for
any other type the deserializer panics on the type.  `OpSload` of a location holding
such a value panics with it. -/
theorem verifyIfCiphertextHandle_empty_ciphertext_panics (X : Ext) (handle : Nat)
    (env : EVMEnvironment) (contract : Address)
    (ht : env.verifiedCiphertexts handle = none)
    (hnz : env.GetState (CreateProtectedStorageContractAddress X contract)
      (Keccak256Hash X handle) ≠ 0)
    (hlen : (newCiphertextMetadata (env.GetState (CreateProtectedStorageContractAddress X contract)
      (Keccak256Hash X handle))).length = 0) :
    (∀ env1 : EVMEnvironment,
      loadCiphertextBytes env1 (CreateProtectedStorageContractAddress X contract)
        (Keccak256Hash X handle)
        (newCiphertextMetadata (env.GetState (CreateProtectedStorageContractAddress X contract)
          (Keccak256Hash X handle))) = []) ∧
    verifyIfCiphertextHandle X handle env contract = Outcome.panicked := by
  refine ⟨fun env1 => loadCiphertextBytes_zero_length env1 _ _ _ hlen, ?_⟩
  unfold verifyIfCiphertextHandle
  simp only [ht, hnz, ne_eq, not_false_eq_true, if_true,
    loadCiphertextBytes_zero_length env _ _ _ hlen, deserialize_nil]

/-- C21, witness: handle 7 with metadata `{refCount 1, length 0, type 0}` in
the protected storage 21 of contract 10, and nothing in the table. -/
theorem verifyIfCiphertextHandle_empty_ciphertext_panics_witness :
    verifyIfCiphertextHandle demoExt 7 (demoEnvEmptyCiphertext 0) 10 = Outcome.panicked :=
  (verifyIfCiphertextHandle_empty_ciphertext_panics demoExt 7 (demoEnvEmptyCiphertext 0) 10
    rfl (by decide) (by decide)).2

/-- C22 (amended): let two environments differ only in the value of the flag slot
`Keccak256(Keccak256(loc))` of `P(contract)`, a slot other than the loaded slot `loc`
of the contract itself.  Unless the loaded value is in the table of verified
ciphertexts (then no storage is read), let that flag slot be neither the metadata slot
`Keccak256(val)` of the loaded value `val` nor one of the ciphertext slots
`Keccak256(val) + 1 + j`, `32 * j < length`, read for it.  Then `OpSload` on `loc`
fails or succeeds alike in both, with the same error, the same stack and the same
table of verified ciphertexts. -/
theorem OpSload_flag_slot_independent (X : Ext) (env env2 : EVMEnvironment)
    (contract : Address) (loc : Nat) (rest : List Nat)
    (hctx : sameContext env env2)
    (hdiff : ∀ a k, ¬ (a = CreateProtectedStorageContractAddress X contract ∧
        k = Keccak256Hash X (Keccak256Hash X loc)) →
      env2.GetState a k = env.GetState a k)
    (hloc : ¬ (contract = CreateProtectedStorageContractAddress X contract ∧
      loc = Keccak256Hash X (Keccak256Hash X loc)))
    (hkeys : env.verifiedCiphertexts (env.GetState contract loc) = none →
      Keccak256Hash X (env.GetState contract loc) ≠ Keccak256Hash X (Keccak256Hash X loc) ∧
      ∀ j, 32 * j < (newCiphertextMetadata
            (env.GetState (CreateProtectedStorageContractAddress X contract)
              (Keccak256Hash X (env.GetState contract loc)))).length →
        (Keccak256Hash X (env.GetState contract loc) + 1 + j) % 2 ^ 256 ≠
          Keccak256Hash X (Keccak256Hash X loc)) :
    (OpSload X env2 contract (loc :: rest)).map OpResult.err =
      (OpSload X env contract (loc :: rest)).map OpResult.err ∧
    (OpSload X env2 contract (loc :: rest)).map OpResult.stack =
      (OpSload X env contract (loc :: rest)).map OpResult.stack ∧
    (OpSload X env2 contract (loc :: rest)).map (fun r => r.env.verifiedCiphertexts) =
      (OpSload X env contract (loc :: rest)).map (fun r => r.env.verifiedCiphertexts) := by
  obtain ⟨hd, hc, hr, ht⟩ := hctx
  have he : env2 = { env with state := env2.state } := by
    obtain ⟨st, d, c, r, tbl⟩ := env
    obtain ⟨st2, d2, c2, r2, tbl2⟩ := env2
    simp only at hd hc hr ht
    subst hd hc hr ht
    rfl
  have hval : env2.GetState contract loc = env.GetState contract loc := hdiff _ _ hloc
  have hv := verifyIfCiphertextHandle_agree X (env.GetState contract loc) env env2.state
    contract
    (fun hnone => hdiff _ _ (fun h => (hkeys hnone).1 h.2))
    (fun hnone => by
      unfold loadCiphertextBytes
      apply readLoop_agree _ _ _ (Keccak256Hash X (Keccak256Hash X loc))
      · intro k hk
        exact hdiff _ _ (fun h => hk h.2)
      · exact addUint64One_lt _
      · intro j hj
        have := (hkeys hnone).2 j hj
        unfold addUint64One
        omega)
  rw [← he] at hv
  have hS : OpSload X env2 contract (loc :: rest) =
      (OpSload X env contract (loc :: rest)).map
        (fun r => { r with env := { r.env with state := env2.state } }) := by
    simp only [OpSload, hval, hv]
    cases verifyIfCiphertextHandle X (env.GetState contract loc) env contract with
    | ok e => simp only [Outcome.map, Option.map]
    | error msg =>
      simp only [Outcome.map, Option.map]
      rw [he]
    | panicked => simp only [Outcome.map, Option.map]
  rw [hS]
  cases OpSload X env contract (loc :: rest) with
  | none => exact ⟨rfl, rfl, rfl⟩
  | some r => exact ⟨rfl, rfl, rfl⟩

/-- C22, witness: in a later transaction location 1 of contract 10 holds the persisted
handle 7; the flag slot of location 1 holds `FLAG` in the first state and zero in the
second.  SLOAD of location 1 loads the ciphertext in both. -/
theorem OpSload_flag_slot_independent_witness :
    demoLater.GetState 21 (Keccak256Hash demoExt (Keccak256Hash demoExt 1)) = flag ∧
    (OpSload demoExt
        (demoLater.SetState 21 (Keccak256Hash demoExt (Keccak256Hash demoExt 1)) 0)
        10 [1]).map (fun r => r.env.verifiedCiphertexts) =
      (OpSload demoExt demoLater 10 [1]).map (fun r => r.env.verifiedCiphertexts) :=
  ⟨by decide,
  (OpSload_flag_slot_independent demoExt demoLater
    (demoLater.SetState 21 (Keccak256Hash demoExt (Keccak256Hash demoExt 1)) 0) 10 1 []
    ⟨rfl, rfl, rfl, rfl⟩
    (fun a k h => SetState_GetState_other demoLater 21 a _ k 0
      (by
        by_cases ha : a = 21
        · right
          intro hk
          exact h ⟨ha, hk⟩
        · exact Or.inl ha))
    (by decide)
    (fun _ => by
      have hv : demoLater.GetState 10 1 = 7 := by decide
      have hk : Keccak256Hash demoExt 7 = 7500 := by decide
      have hf : Keccak256Hash demoExt (Keccak256Hash demoExt 1) = 1500500 := by decide
      have hm : (newCiphertextMetadata
          (demoLater.GetState (CreateProtectedStorageContractAddress demoExt 10) 7500)).length =
          33 := by decide
      rw [hv, hk, hf, hm]
      exact ⟨by decide, fun j hj => by omega⟩)).2.2⟩

/-- C22, counterexample: contract 10 holds at location 5 the value `Keccak256(5)`, so
the flag slot of location 5, `Keccak256(Keccak256(5))`, is the metadata slot that
SLOAD reads for that value.  The two states differ only in that slot (zero, or the
record `{refCount 1, length 33, type 2}`): in the first, SLOAD leaves the table of
verified ciphertexts empty, in the second it loads 33 bytes and enters a ciphertext
under their hash. -/
theorem OpSload_flag_slot_is_metadata_slot :
    demoSelfKeyedFlagged =
      demoSelfKeyed.SetState (CreateProtectedStorageContractAddress demoExt 10)
        (Keccak256Hash demoExt (Keccak256Hash demoExt 5)) (demoMetadataWord 1) ∧
    (OpSload demoExt demoSelfKeyed 10 [5]).map
      (fun r => (r.env.verifiedCiphertexts 500).isSome) = some false ∧
    (OpSload demoExt demoSelfKeyedFlagged 10 [5]).map
      (fun r => (r.env.verifiedCiphertexts 500).isSome) = some true :=
  ⟨rfl, by decide, by decide⟩

/-- C23: for a metadata record whose `refCount` and `length` are `uint64` values, the
word `serialize` returns is the integer `refCount + length * 2^64 + type * 2^128`: its
64-bit limbs 0, 1, 2 are `refCount`, `length` and the type code, limb 3 is zero; its
32 bytes are the big-endian encoding of that integer, and the first 15 of them (all
but the low 17) are zero. -/
theorem ciphertextMetadata_serialize_layout (m : ciphertextMetadata)
    (hr : m.refCount < 2 ^ 64) (hl : m.length < 2 ^ 64) :
    m.serialize = m.refCount + m.length * 2 ^ 64 + m.fheUintType.val * 2 ^ 128 ∧
    m.serialize % 2 ^ 64 = m.refCount ∧
    m.serialize / 2 ^ 64 % 2 ^ 64 = m.length ∧
    m.serialize / 2 ^ 128 % 2 ^ 64 = m.fheUintType.val ∧
    m.serialize / 2 ^ 192 = 0 ∧
    (hashBytes m.serialize).length = 32 ∧
    fromBytesBE (hashBytes m.serialize) = m.serialize ∧
    (hashBytes m.serialize).take 15 = List.replicate 15 0 := by
  have hlt := serialize_lt m
  obtain ⟨r, l, t⟩ := m
  have ht := t.isLt
  simp only [ciphertextMetadata.serialize] at hlt ⊢
  simp only at hr hl
  refine ⟨by omega, by omega, by omega, by omega, by omega, hashBytes_length _, ?_, ?_⟩
  · rw [hashBytes, fromBytesBE_toBytesBE]
    omega
  · exact toBytesBE_take 15 17 _ (by omega)

/-- C23, witness: the record `{refCount 2, length 33, type 2}`. -/
theorem ciphertextMetadata_serialize_layout_witness :
    (hashBytes (demoMetadataWord 2)).take 15 = List.replicate 15 0 ∧
    demoMetadataWord 2 / 2 ^ 192 = 0 :=
  have h := ciphertextMetadata_serialize_layout
    { refCount := 2, length := 33, fheUintType := 2 } (by decide) (by decide)
  ⟨h.2.2.2.2.2.2.2, h.2.2.2.2.1⟩

/-- C24: for a type `t` among `FheUint8 .. FheUint64` and a non-empty byte sequence
that the library's deserializer of that type accepts, `tfheCiphertext.deserialize`
returns a ciphertext whose `serialize()` is that sequence, whose type is `t` and whose
`getHash()` is the Keccak-256 of the sequence; hence deserializing `serialize(ct)` at
the type of `ct` returns `ct` again, with the same hash. -/
theorem tfheCiphertext_deserialize_roundtrip (X : Ext) (inp : List Byte) (t : FheUintType)
    (ht : t.val ≤ 3) (hne : inp ≠ [])
    (hacc : X.deserializeAccepts t inp = true) :
    (∃ ct : tfheCiphertext,
      tfheCiphertext.deserialize X inp t = Outcome.ok ct ∧
      ct.serialize = inp ∧ ct.fheUintType = t ∧
      ct.getHash X = X.keccak256 inp % 2 ^ 256 ∧
      tfheCiphertext.deserialize X ct.serialize ct.fheUintType = Outcome.ok ct) ∧
    (∀ ct : tfheCiphertext, ct.serialization = inp → ct.fheUintType = t →
      tfheCiphertext.deserialize X ct.serialize ct.fheUintType = Outcome.ok ct) := by
  have hd : tfheCiphertext.deserialize X inp t =
      Outcome.ok { serialization := inp, fheUintType := t } := by
    unfold tfheCiphertext.deserialize
    simp [ht, hne, hacc]
  refine ⟨⟨{ serialization := inp, fheUintType := t }, hd, rfl, rfl, rfl, hd⟩, ?_⟩
  rintro ⟨s, ty⟩ hs hty
  simp only at hs hty
  subst hs hty
  exact hd

/-- C24, witness: the 33-byte demo ciphertext of type 2. -/
theorem tfheCiphertext_deserialize_roundtrip_witness :
    tfheCiphertext.deserialize demoExt demoVerified.ciphertext.serialize
      demoVerified.ciphertext.fheUintType = Outcome.ok demoVerified.ciphertext :=
  (tfheCiphertext_deserialize_roundtrip demoExt demoBytes 2 (by decide) (by decide) rfl).2
    demoVerified.ciphertext rfl rfl

/-- C25 (the code at the claim's inputs): in `executeUnaryCiphertextOperation`,
`executeBinaryScalarOperation` and (on every path that returns)
`executeBinaryCiphertextOperation`, every pointer obtained from the library is passed
exactly once to the destroy function of its own width.  In
`executeTernaryCiphertextOperation` it is not: whenever `first_ptr` is obtained, no
destroy call is made on it, on the success path and on the error paths alike; and in
the 16, 32 and 64-bit cases, when the library rejects `first`, the pointers `lhs_ptr`
and `rhs_ptr` are passed to the 8-bit destroy function. -/
theorem native_pointers_released_except_first_ptr (X : Ext) :
    (∀ (ct : tfheCiphertext) (op8 op16 op32 op64 : List Byte → NativeResult),
      releasedOnce (executeUnaryCiphertextOperation X ct op8 op16 op32 op64).2) ∧
    (∀ (lhs : tfheCiphertext) (rhs : Nat) (op8 op16 op32 op64 : List Byte → Nat → NativeResult),
      releasedOnce (executeBinaryScalarOperation X lhs rhs op8 op16 op32 op64).2) ∧
    (∀ (lhs rhs : tfheCiphertext) (op8 op16 op32 op64 : List Byte → List Byte → NativeResult),
      (executeBinaryCiphertextOperation X lhs rhs op8 op16 op32 op64).1 ≠ Outcome.panicked →
      releasedOnce (executeBinaryCiphertextOperation X lhs rhs op8 op16 op32 op64).2) ∧
    (∀ (first lhs rhs : tfheCiphertext)
        (op8 op16 op32 op64 : List Byte → List Byte → List Byte → NativeResult),
      (FheUint8, NativePtr.first_ptr) ∈
        obtained (executeTernaryCiphertextOperation X first lhs rhs op8 op16 op32 op64).2 →
      destroyedAt NativePtr.first_ptr
        (executeTernaryCiphertextOperation X first lhs rhs op8 op16 op32 op64).2 = [] ∧
      ¬ releasedOnce
        (executeTernaryCiphertextOperation X first lhs rhs op8 op16 op32 op64).2) ∧
    (∀ (first lhs rhs : tfheCiphertext)
        (op8 op16 op32 op64 : List Byte → List Byte → List Byte → NativeResult),
      lhs.fheUintType = rhs.fheUintType →
      lhs.fheUintType = FheUint16 ∨ lhs.fheUintType = FheUint32 ∨
        lhs.fheUintType = FheUint64 →
      lhs.serialization ≠ [] → rhs.serialization ≠ [] → first.serialization ≠ [] →
      X.deserializeAccepts lhs.fheUintType lhs.serialization = true →
      X.deserializeAccepts lhs.fheUintType rhs.serialization = true →
      X.deserializeAccepts FheUint8 first.serialization = false →
      (executeTernaryCiphertextOperation X first lhs rhs op8 op16 op32 op64).1 =
        Outcome.error "8 bit binary op deserialization failed" ∧
      obtained (executeTernaryCiphertextOperation X first lhs rhs op8 op16 op32 op64).2 =
        [(lhs.fheUintType, NativePtr.lhs_ptr), (lhs.fheUintType, NativePtr.rhs_ptr)] ∧
      destroyedAt NativePtr.lhs_ptr
        (executeTernaryCiphertextOperation X first lhs rhs op8 op16 op32 op64).2 =
        [FheUint8] ∧
      destroyedAt NativePtr.rhs_ptr
        (executeTernaryCiphertextOperation X first lhs rhs op8 op16 op32 op64).2 =
        [FheUint8]) := by
  refine ⟨?_, ?_, ?_, ?_, ?_⟩
  · intro ct op8 op16 op32 op64
    unfold executeUnaryCiphertextOperation
    split_ifs
    · exact unaryCase_releasedOnce _ _ _ _ _ _ _
    · exact unaryCase_releasedOnce _ _ _ _ _ _ _
    · exact unaryCase_releasedOnce _ _ _ _ _ _ _
    · exact unaryCase_releasedOnce _ _ _ _ _ _ _
    · simp [releasedOnce, obtained]
  · intro lhs rhs op8 op16 op32 op64
    unfold executeBinaryScalarOperation
    split_ifs
    · exact scalarCase_releasedOnce _ _ _ _ _ _ _ _ _
    · exact scalarCase_releasedOnce _ _ _ _ _ _ _ _ _
    · exact scalarCase_releasedOnce _ _ _ _ _ _ _ _ _
    · exact scalarCase_releasedOnce _ _ _ _ _ _ _ _ _
    · simp [releasedOnce, obtained]
  · intro lhs rhs op8 op16 op32 op64
    unfold executeBinaryCiphertextOperation
    split_ifs
    · intro _; simp [releasedOnce, obtained]
    · exact binaryCase_releasedOnce _ _ _ _ _ _ _ _
    · exact binaryCase_releasedOnce _ _ _ _ _ _ _ _
    · exact binaryCase_releasedOnce _ _ _ _ _ _ _ _
    · exact binaryCase_releasedOnce _ _ _ _ _ _ _ _
    · intro _; simp [releasedOnce, obtained]
  · intro first lhs rhs op8 op16 op32 op64 h
    have hd : destroyedAt NativePtr.first_ptr
        (executeTernaryCiphertextOperation X first lhs rhs op8 op16 op32 op64).2 = [] := by
      unfold executeTernaryCiphertextOperation at h ⊢
      split_ifs at h ⊢
      · rfl
      · exact ternaryCase_first_ptr _ _ _ _ _ _ _ _ _ h
      · exact ternaryCase_first_ptr _ _ _ _ _ _ _ _ _ h
      · exact ternaryCase_first_ptr _ _ _ _ _ _ _ _ _ h
      · exact ternaryCase_first_ptr _ _ _ _ _ _ _ _ _ h
      · rfl
    refine ⟨hd, fun hr => ?_⟩
    have := hr _ h
    rw [hd] at this
    cases this
  · intro first lhs rhs op8 op16 op32 op64 heq hw hl hr hf hla hra hfa
    have h8 : FheUint16 ≠ FheUint8 ∧ FheUint32 ≠ FheUint8 ∧ FheUint64 ≠ FheUint8 ∧
        FheUint32 ≠ FheUint16 ∧ FheUint64 ≠ FheUint16 ∧ FheUint64 ≠ FheUint32 := by decide
    unfold executeTernaryCiphertextOperation
    rw [if_neg (not_not.mpr heq)]
    rcases hw with hw | hw | hw
    · rw [hw] at hla hra ⊢
      simp only [h8.1, if_false, if_true]
      exact ternaryCase_first_rejected _ _ _ _ _ _ _ _ _ hl hr hf hla hra hfa
    · rw [hw] at hla hra ⊢
      simp only [h8.2.1, h8.2.2.2.1, if_false, if_true]
      exact ternaryCase_first_rejected _ _ _ _ _ _ _ _ _ hl hr hf hla hra hfa
    · rw [hw] at hla hra ⊢
      simp only [h8.2.2.1, h8.2.2.2.2.1, h8.2.2.2.2.2, if_false, if_true]
      exact ternaryCase_first_rejected _ _ _ _ _ _ _ _ _ hl hr hf hla hra hfa

/-- C25, witness: `executeTernaryCiphertextOperation` on three 8-bit
ciphertexts that the library accepts, with an operation that succeeds.  The function
returns a ciphertext; of the four pointers obtained, `lhs_ptr`, `rhs_ptr` and
`res_ptr` are destroyed and `first_ptr` is not. -/
theorem native_pointers_released_except_first_ptr_witness :
    (executeTernaryCiphertextOperation demoExt (demoCiphertext 0) (demoCiphertext 0)
        (demoCiphertext 0) (fun _ _ _ => demoResult) (fun _ _ _ => demoResult)
        (fun _ _ _ => demoResult) (fun _ _ _ => demoResult)).2 =
      [NativeCall.deserialize 0 NativePtr.lhs_ptr true,
       NativeCall.deserialize 0 NativePtr.rhs_ptr true,
       NativeCall.deserialize 0 NativePtr.first_ptr true,
       NativeCall.op 0 true,
       NativeCall.destroy 0 NativePtr.lhs_ptr,
       NativeCall.destroy 0 NativePtr.rhs_ptr,
       NativeCall.serialize 0 NativePtr.res_ptr,
       NativeCall.destroy 0 NativePtr.res_ptr,
       NativeCall.destroy_dynamic_buffer] ∧
    destroyedAt NativePtr.first_ptr
      (executeTernaryCiphertextOperation demoExt (demoCiphertext 0) (demoCiphertext 0)
        (demoCiphertext 0) (fun _ _ _ => demoResult) (fun _ _ _ => demoResult)
        (fun _ _ _ => demoResult) (fun _ _ _ => demoResult)).2 = [] :=
  ⟨by decide,
   ((native_pointers_released_except_first_ptr demoExt).2.2.2.1 (demoCiphertext 0)
      (demoCiphertext 0) (demoCiphertext 0) (fun _ _ _ => demoResult)
      (fun _ _ _ => demoResult) (fun _ _ _ => demoResult) (fun _ _ _ => demoResult)
      (by decide)).1⟩

/-- C26: when the type tags of `lhs` and `rhs` differ,
`executeBinaryCiphertextOperation` and `executeTernaryCiphertextOperation` return an
error and have made no call into the library; when either returns a ciphertext, the
tags of `lhs` and `rhs` are equal and the result carries that tag. -/
theorem execute_type_mismatch (X : Ext) (first lhs rhs : tfheCiphertext)
    (b8 b16 b32 b64 : List Byte → List Byte → NativeResult)
    (t8 t16 t32 t64 : List Byte → List Byte → List Byte → NativeResult) :
    (lhs.fheUintType ≠ rhs.fheUintType →
      executeBinaryCiphertextOperation X lhs rhs b8 b16 b32 b64 =
        (Outcome.error "binary operations are only well-defined for identical types", []) ∧
      executeTernaryCiphertextOperation X first lhs rhs t8 t16 t32 t64 =
        (Outcome.error "ternary operations are only well-defined for identical types", [])) ∧
    (∀ ct, (executeBinaryCiphertextOperation X lhs rhs b8 b16 b32 b64).1 = Outcome.ok ct →
      lhs.fheUintType = rhs.fheUintType ∧ ct.fheUintType = lhs.fheUintType) ∧
    (∀ ct, (executeTernaryCiphertextOperation X first lhs rhs t8 t16 t32 t64).1 =
        Outcome.ok ct →
      lhs.fheUintType = rhs.fheUintType ∧ ct.fheUintType = lhs.fheUintType) := by
  refine ⟨fun h => ⟨?_, ?_⟩, fun ct h => ?_, fun ct h => ?_⟩
  · unfold executeBinaryCiphertextOperation
    rw [if_pos h]
  · unfold executeTernaryCiphertextOperation
    rw [if_pos h]
  · unfold executeBinaryCiphertextOperation at h
    split_ifs at h with h0
    · exact ⟨not_not.mp h0, binaryCase_type _ _ _ _ _ _ _ _ _ h⟩
    · exact ⟨not_not.mp h0, binaryCase_type _ _ _ _ _ _ _ _ _ h⟩
    · exact ⟨not_not.mp h0, binaryCase_type _ _ _ _ _ _ _ _ _ h⟩
    · exact ⟨not_not.mp h0, binaryCase_type _ _ _ _ _ _ _ _ _ h⟩
  · unfold executeTernaryCiphertextOperation at h
    split_ifs at h with h0
    · exact ⟨not_not.mp h0, ternaryCase_type _ _ _ _ _ _ _ _ _ _ h⟩
    · exact ⟨not_not.mp h0, ternaryCase_type _ _ _ _ _ _ _ _ _ _ h⟩
    · exact ⟨not_not.mp h0, ternaryCase_type _ _ _ _ _ _ _ _ _ _ h⟩
    · exact ⟨not_not.mp h0, ternaryCase_type _ _ _ _ _ _ _ _ _ _ h⟩

/-- C26, witness: an 8-bit and a 16-bit operand give the error with no library call;
two 32-bit operands give a 32-bit result. -/
theorem execute_type_mismatch_witness :
    executeBinaryCiphertextOperation demoExt (demoCiphertext 0) (demoCiphertext 1)
        (fun _ _ => demoResult) (fun _ _ => demoResult) (fun _ _ => demoResult)
        (fun _ _ => demoResult) =
      (Outcome.error "binary operations are only well-defined for identical types", []) ∧
    executeTernaryCiphertextOperation demoExt (demoCiphertext 0) (demoCiphertext 0)
        (demoCiphertext 1) (fun _ _ _ => demoResult) (fun _ _ _ => demoResult)
        (fun _ _ _ => demoResult) (fun _ _ _ => demoResult) =
      (Outcome.error "ternary operations are only well-defined for identical types", []) ∧
    (demoCiphertext 2).fheUintType = 2 :=
  ⟨((execute_type_mismatch demoExt (demoCiphertext 0) (demoCiphertext 0) (demoCiphertext 1)
      (fun _ _ => demoResult) (fun _ _ => demoResult) (fun _ _ => demoResult)
      (fun _ _ => demoResult) (fun _ _ _ => demoResult) (fun _ _ _ => demoResult)
      (fun _ _ _ => demoResult) (fun _ _ _ => demoResult)).1 (by decide)).1,
   ((execute_type_mismatch demoExt (demoCiphertext 0) (demoCiphertext 0) (demoCiphertext 1)
      (fun _ _ => demoResult) (fun _ _ => demoResult) (fun _ _ => demoResult)
      (fun _ _ => demoResult) (fun _ _ _ => demoResult) (fun _ _ _ => demoResult)
      (fun _ _ _ => demoResult) (fun _ _ _ => demoResult)).1 (by decide)).2,
   ((execute_type_mismatch demoExt (demoCiphertext 0) (demoCiphertext 2) (demoCiphertext 2)
      (fun _ _ => demoResult) (fun _ _ => demoResult) (fun _ _ => demoResult)
      (fun _ _ => demoResult) (fun _ _ _ => demoResult) (fun _ _ _ => demoResult)
      (fun _ _ _ => demoResult) (fun _ _ _ => demoResult)).2.1
      { serialization := demoBytes, fheUintType := 2 } rfl).2⟩

/-- C27 (amended): `isValidType` returns true exactly for the tags 0, 1, 2, 3; for
a tag outside that set `tfheCiphertext.deserialize` does not return at all, it panics,
whatever the input and the library; for a tag in the set and a non-empty input it
returns, with a ciphertext or an error. -/
theorem isValidType_and_deserialize_by_tag (t : FheUintType) :
    (isValidType t = true ↔ t.val ≤ 3) ∧
    (3 < t.val → isValidType t = false ∧
      ∀ (X : Ext) (inp : List Byte), tfheCiphertext.deserialize X inp t = Outcome.panicked) ∧
    (t.val ≤ 3 → ∀ (X : Ext) (inp : List Byte), inp ≠ [] →
      tfheCiphertext.deserialize X inp t ≠ Outcome.panicked) := by
  have hv : isValidType t = true ↔ t.val ≤ 3 := by
    change (if t.val < 0 ∨ t.val > 3 then false else true) = true ↔ t.val ≤ 3
    by_cases h : t.val ≤ 3
    · simp [h, Nat.not_lt.mpr h]
    · simp [h, Nat.lt_of_not_le h]
  refine ⟨hv, fun h => ⟨?_, fun X inp => ?_⟩, fun h X inp hne => ?_⟩
  · cases hb : isValidType t
    · rfl
    · exact absurd (hv.mp hb) (Nat.not_le.mpr h)
  · unfold tfheCiphertext.deserialize
    simp [Nat.not_le.mpr h]
  · unfold tfheCiphertext.deserialize
    by_cases hacc : X.deserializeAccepts t inp = true <;> simp [h, hne, hacc]

/-- C27, witness: the tags 3 and 4. -/
theorem isValidType_and_deserialize_by_tag_witness :
    isValidType 3 = true ∧ isValidType 4 = false ∧
    tfheCiphertext.deserialize demoExtRejecting demoBytes 3 ≠ Outcome.panicked :=
  ⟨(isValidType_and_deserialize_by_tag 3).1.mpr (by decide),
   ((isValidType_and_deserialize_by_tag 4).2.1 (by decide)).1,
   (isValidType_and_deserialize_by_tag 3).2.2 (by decide) demoExtRejecting demoBytes
     (by decide)⟩

/-- C27, counterexample: for the tag 4, which `isValidType` rejects,
`tfheCiphertext.deserialize` of the 33-byte demo input returns no error: it panics. -/
theorem tfheCiphertext_deserialize_invalid_tag_panics :
    isValidType 4 = false ∧
    tfheCiphertext.deserialize demoExt demoBytes 4 = Outcome.panicked ∧
    ¬ ∃ msg, tfheCiphertext.deserialize demoExt demoBytes 4 = Outcome.error msg :=
  ⟨rfl, rfl, fun ⟨_, h⟩ => by
    have h4 : tfheCiphertext.deserialize demoExt demoBytes 4 = Outcome.panicked := rfl
    rw [h4] at h
    cases h⟩

/-- C28: at a depth other than 1, `EvalRemOptReqWhenStopToken` returns nil and leaves
the environment as it was, whatever `evaluateRemainingOptimisticRequires` would do (it
is not called).  At depth 1 it returns nil exactly when the evaluation returned no
error and the result true; it returns `ErrExecutionReverted` when the evaluation
returned no error and the result false, and only then unless `ErrExecutionReverted` is
the evaluation's own error; and when the evaluation returned an error it returns that
error. -/
theorem EvalRemOptReqWhenStopToken_cases
    (evaluate : EVMEnvironment → (Bool × Option VMError) × EVMEnvironment)
    (env : EVMEnvironment) :
    (env.depth ≠ 1 → EvalRemOptReqWhenStopToken evaluate env = (none, env)) ∧
    (env.depth = 1 →
      ((EvalRemOptReqWhenStopToken evaluate env).1 = none ↔
        (evaluate env).1.2 = none ∧ (evaluate env).1.1 = true) ∧
      ((evaluate env).1.2 = none ∧ (evaluate env).1.1 = false →
        (EvalRemOptReqWhenStopToken evaluate env).1 = some VMError.ErrExecutionReverted) ∧
      ((EvalRemOptReqWhenStopToken evaluate env).1 = some VMError.ErrExecutionReverted →
        ((evaluate env).1.2 = none ∧ (evaluate env).1.1 = false) ∨
        (evaluate env).1.2 = some VMError.ErrExecutionReverted) ∧
      (∀ e, (evaluate env).1.2 = some e →
        (EvalRemOptReqWhenStopToken evaluate env).1 = some e) ∧
      (EvalRemOptReqWhenStopToken evaluate env).2 = (evaluate env).2) := by
  constructor
  · intro h
    simp [EvalRemOptReqWhenStopToken, h]
  · intro h
    unfold EvalRemOptReqWhenStopToken
    rw [if_pos h]
    obtain ⟨⟨result, evalErr⟩, env1⟩ := evaluate env
    cases evalErr with
    | some e => simp
    | none => cases result <;> simp

/-- C28, witness: at depth 1 an evaluation with result false gives
`ErrExecutionReverted`, one with result true gives nil, and a failed one its error. -/
theorem EvalRemOptReqWhenStopToken_cases_witness :
    (EvalRemOptReqWhenStopToken (demoEvaluate false none) demoEnv).1 =
      some VMError.ErrExecutionReverted ∧
    (EvalRemOptReqWhenStopToken (demoEvaluate true none) demoEnv).1 = none ∧
    (EvalRemOptReqWhenStopToken (demoEvaluate true (some (VMError.errorsNew "failed")))
      demoEnv).1 = some (VMError.errorsNew "failed") :=
  ⟨((EvalRemOptReqWhenStopToken_cases (demoEvaluate false none) demoEnv).2 rfl).2.1
      ⟨rfl, rfl⟩,
   ((EvalRemOptReqWhenStopToken_cases (demoEvaluate true none) demoEnv).2 rfl).1.mpr
      ⟨rfl, rfl⟩,
   ((EvalRemOptReqWhenStopToken_cases
      (demoEvaluate true (some (VMError.errorsNew "failed"))) demoEnv).2 rfl).2.2.2.1 _ rfl⟩

/-- C29 (the code at the claim's inputs): `garbageCollectProtectedStorage` leaves every
account other than the protected storage alone, and in the protected storage every
slot other than the flag slot, the metadata slot `Keccak256(handle)`, the ciphertext
slots `Keccak256(handle) + 1 ... + ceil(length / 32)`, and one more: the slot whose
key is the old metadata word.  When the flag is found and the reference count is
above 1, the decremented record is written to that slot, which is none of the slots
the claim allows. -/
theorem garbageCollect_frame_with_stray_write (X : Ext) (flagLoc handle : Nat) (P : Address)
    (env : EVMEnvironment) :
    (∀ a k, a ≠ P →
      (garbageCollectProtectedStorage X flagLoc handle P env).GetState a k =
        env.GetState a k) ∧
    (∀ k, k ≠ flagLoc → k ≠ Keccak256Hash X handle →
      k ≠ env.GetState P (Keccak256Hash X handle) →
      (∀ i, i < ((newCiphertextMetadata
            (env.GetState P (Keccak256Hash X handle))).length + 31) / 32 →
        k ≠ (Keccak256Hash X handle + 1 + i) % 2 ^ 256) →
      (garbageCollectProtectedStorage X flagLoc handle P env).GetState P k =
        env.GetState P k) ∧
    (env.GetState P (Keccak256Hash X handle) ≠ 0 → env.GetState P flagLoc = flag →
      1 < (newCiphertextMetadata (env.GetState P (Keccak256Hash X handle))).refCount →
      (garbageCollectProtectedStorage X flagLoc handle P env).GetState P
          (env.GetState P (Keccak256Hash X handle)) =
        ciphertextMetadata.serialize
          { newCiphertextMetadata (env.GetState P (Keccak256Hash X handle)) with
            refCount :=
              (newCiphertextMetadata (env.GetState P (Keccak256Hash X handle))).refCount - 1 }) := by
  refine ⟨fun a k h => garbageCollect_GetState_other X flagLoc handle P env a k h, ?_, ?_⟩
  · intro k hf hk hw hs
    unfold garbageCollectProtectedStorage
    simp only
    split
    · split
      · rfl
      · split
        · rw [zeroCiphertextSlots_GetState_notin P _ _ _ k (addUint64One_lt _),
            SetState_GetState_other _ _ _ _ _ _ (Or.inr hk),
            SetState_GetState_other _ _ _ _ _ _ (Or.inr hf)]
          intro i hi
          have := hs i (by split at hi <;> omega)
          unfold addUint64One
          omega
        · split
          · rw [SetState_GetState_other _ _ _ _ _ _ (Or.inr hw),
              SetState_GetState_other _ _ _ _ _ _ (Or.inr hf)]
          · rw [SetState_GetState_other _ _ _ _ _ _ (Or.inr hf)]
    · rfl
  · intro hnz hflag hrc
    unfold garbageCollectProtectedStorage
    simp only [hnz, ne_eq, not_false_eq_true, if_true, hflag, not_true_eq_false, if_false]
    rw [if_neg (by omega), if_pos (by omega)]
    exact SetState_GetState_same _ _ _ _

/-- C29, witness: after SSTORE of the verified handle 7 to locations 1 and 2
of contract 10, garbage collection for location 1 (flag slot 1500500, metadata slot
7500, ciphertext slots 7501 and 7502).  The old metadata word is none of these keys;
the slot with that key was zero and afterwards holds the record with reference count
1. -/
theorem garbageCollect_frame_with_stray_write_witness :
    demoStored12.GetState 21 (Keccak256Hash demoExt 7) = demoMetadataWord 2 ∧
    Keccak256Hash demoExt (Keccak256Hash demoExt 1) = 1500500 ∧
    Keccak256Hash demoExt 7 = 7500 ∧
    demoMetadataWord 2 ≠ 1500500 ∧ demoMetadataWord 2 ≠ 7500 ∧
    demoMetadataWord 2 ≠ 7501 ∧ demoMetadataWord 2 ≠ 7502 ∧
    demoStored12.GetState 21 (demoMetadataWord 2) = 0 ∧
    demoMetadataWord 1 ≠ 0 ∧
    (garbageCollectProtectedStorage demoExt 1500500 7 21 demoStored12).GetState 21
        (demoStored12.GetState 21 (Keccak256Hash demoExt 7)) =
      ciphertextMetadata.serialize
        { newCiphertextMetadata (demoStored12.GetState 21 (Keccak256Hash demoExt 7)) with
          refCount :=
            (newCiphertextMetadata
              (demoStored12.GetState 21 (Keccak256Hash demoExt 7))).refCount - 1 } ∧
    ciphertextMetadata.serialize
        { newCiphertextMetadata (demoStored12.GetState 21 (Keccak256Hash demoExt 7)) with
          refCount :=
            (newCiphertextMetadata
              (demoStored12.GetState 21 (Keccak256Hash demoExt 7))).refCount - 1 } =
      demoMetadataWord 1 :=
  ⟨by decide, by decide, by decide, by decide, by decide, by decide, by decide, by decide,
   by decide,
   (garbageCollect_frame_with_stray_write demoExt 1500500 7 21 demoStored12).2.2
     (by decide) (by decide) (by decide),
   by decide⟩

/-- C30: for a metadata record whose `refCount` and `length` are `uint64` values (the
type code is a byte), decoding the serialized word gives the record back, field by
field. -/
theorem newCiphertextMetadata_serialize_roundtrip (m : ciphertextMetadata)
    (hr : m.refCount < 2 ^ 64) (hl : m.length < 2 ^ 64) :
    newCiphertextMetadata m.serialize = m ∧
    (newCiphertextMetadata m.serialize).refCount = m.refCount ∧
    (newCiphertextMetadata m.serialize).length = m.length ∧
    (newCiphertextMetadata m.serialize).fheUintType = m.fheUintType := by
  have h : newCiphertextMetadata m.serialize = m := by
    rw [newCiphertextMetadata_serialize]
    obtain ⟨r, l, t⟩ := m
    simp only at hr hl
    rw [Nat.mod_eq_of_lt hr, Nat.mod_eq_of_lt hl]
  exact ⟨h, by rw [h], by rw [h], by rw [h]⟩

/-- C30, witness: the largest `uint64` values and the largest type code. -/
theorem newCiphertextMetadata_serialize_roundtrip_witness :
    newCiphertextMetadata (ciphertextMetadata.serialize
      { refCount := 2 ^ 64 - 1, length := 2 ^ 64 - 1, fheUintType := 255 }) =
      { refCount := 2 ^ 64 - 1, length := 2 ^ 64 - 1, fheUintType := 255 } :=
  (newCiphertextMetadata_serialize_roundtrip
    { refCount := 2 ^ 64 - 1, length := 2 ^ 64 - 1, fheUintType := 255 }
    (by decide) (by decide)).1

end Fhevm
